import Mathlib

/-!
# CSV2DB-Analytics: the batch data-ingestion pipeline

A shallow embedding of `internal/services/data_loader.go` (with the row types of
`internal/models/models.go` and the batch size of `config/config.go`), followed by
theorems about `RefreshData`, `processRecord`, `StartDataRefresh` and
`CompleteDataRefresh`.

Conventions of the embedding.

* A Go `error` is its message text; `nil` is `none`.  `fmt.Errorf("p: %w", err)` is
  `"p: " ++ err`.
* The calls into the Go standard library (`time.Parse`, `strconv.Atoi`,
  `strconv.ParseFloat`) are a parameter `L : StdLib` of every definition that uses
  them; `exampleLib` is an executable instance for concrete runs.
* The database is a `Store`: six data tables, the audit table and the counters of
  the serial columns.  What the outside world decides (whether a statement fails,
  what the file contains, the clock) is an `Env`.
* Every run produces a `trace`, the sequence of operations it issued, in order.
-/

namespace CSV2DB

/-! ## Values produced by the standard library -/

/-- The `time.Time` that `time.Parse("2006-01-02", s)` returns: a calendar date (midnight UTC). -/
structure Date where
  year : Nat
  month : Nat
  day : Nat
deriving DecidableEq, Repr

/-- A Go `float64`, identified by its IEEE-754 bit pattern.  The loader never computes
with these values; it only carries them from `strconv.ParseFloat` to the store. -/
structure Float64 where
  bits : Nat
deriving DecidableEq, Repr

/-- The three standard-library calls made by `processRecord`. -/
structure StdLib where
  /-- Go: `time.Parse("2006-01-02", s)`. -/
  timeParse : String → Except String Date
  /-- Go: `strconv.Atoi(s)`. -/
  atoi : String → Except String Int
  /-- Go: `strconv.ParseFloat(s, 64)`. -/
  parseFloat : String → Except String Float64

/-! ## Row types (`internal/models/models.go`) -/

structure Customer where
  customerID : String
  name : String
  email : String
  address : String
deriving DecidableEq, Repr

structure Product where
  productID : String
  name : String
  category : String
deriving DecidableEq, Repr

structure Region where
  regionID : Nat
  name : String
deriving DecidableEq, Repr

structure PaymentMethod where
  paymentMethodID : Nat
  name : String
deriving DecidableEq, Repr

structure Order where
  orderID : String
  customerID : String
  regionID : Nat
  saleDate : Date
  shippingCost : Float64
  paymentMethodID : Nat
deriving DecidableEq, Repr

structure OrderItem where
  orderItemID : Nat
  orderID : String
  productID : String
  quantity : Int
  unitPrice : Float64
  discount : Float64
deriving DecidableEq, Repr

/-- A row of `data_refresh_logs`.  `rowsProcessed` is `none` until the program sets it:
the INSERT of `StartDataRefresh` does not name the column. -/
structure DataRefreshLog where
  logID : Nat
  startTime : Nat
  endTime : Option Nat
  status : String
  rowsProcessed : Option Nat
  errorMessage : Option String
  triggeredBy : String
deriving DecidableEq, Repr

/-- Configuration (`config.Config`): only the field the loader reads.  A Go `int`. -/
structure Config where
  RefreshBatchSize : Int
deriving DecidableEq, Repr

/-! ## The column map and the typed record -/

/-- Go: `map[string]int`, as an association list with at most one entry per key. -/
abbrev ColumnMap := List (String × Nat)

/-- Go: `columnMap[col] = i` (a later assignment to the same key overwrites). -/
def ColumnMap.set : ColumnMap → String → Nat → ColumnMap
  | [], k, v => [(k, v)]
  | (k', v') :: rest, k, v =>
    if k' = k then (k, v) :: rest else (k', v') :: ColumnMap.set rest k v

/-- Go: `idx, exists := columnMap[colName]`. -/
def ColumnMap.get? : ColumnMap → String → Option Nat
  | [], _ => none
  | (k', v') :: rest, k => if k' = k then some v' else ColumnMap.get? rest k

/-- The assignments `columnMap[col] = i` for the columns from position `i` on. -/
def buildColumnMapFrom : Nat → List String → ColumnMap → ColumnMap
  | _, [], m => m
  | i, col :: rest, m => buildColumnMapFrom (i + 1) rest (m.set col i)

/-- Go (`RefreshData`, lines 106-109):
`columnMap := make(map[string]int); for i, col := range header { columnMap[col] = i }`. -/
def buildColumnMap (header : List String) : ColumnMap :=
  buildColumnMapFrom 0 header []

/-- The typed fields declared in the `var` block of `processRecord`. -/
structure Record where
  orderID : String
  productID : String
  customerID : String
  productName : String
  category : String
  region : String
  saleDate : Date
  quantitySold : Int
  unitPrice : Float64
  discount : Float64
  shippingCost : Float64
  paymentMethod : String
  customerName : String
  customerEmail : String
  customerAddress : String
deriving DecidableEq, Repr

/-- Go (`processRecord`, lines 265-274): the closure `getColumnValue`. -/
def getColumnValue (columnMap : ColumnMap) (record : List String) (colName : String) :
    Except String String :=
  match columnMap.get? colName with
  | none => .error ("column " ++ colName ++ " not found in CSV")
  | some idx =>
    if idx ≥ record.length then .error "record has fewer columns than expected"
    else .ok (record.getD idx "")

/-- The error of a result, `none` for `nil`. -/
def errorOf {α : Type} : Except String α → Option String
  | .ok _ => none
  | .error e => some e

/-- Go: `v, err := f(s); if err != nil { return fmt.Errorf("<label>: %w", err) }`. -/
def wrapErr {α : Type} (label : String) (r : Except String α) : Except String α :=
  match r with
  | .ok a => .ok a
  | .error e => .error (label ++ ": " ++ e)

/-- Go (`processRecord`, lines 276-360): the extraction and typing of the fifteen fields,
in the order of the source; the first failing step decides the error. -/
def parseRecord (L : StdLib) (columnMap : ColumnMap) (record : List String) :
    Except String Record := do
  let orderID ← getColumnValue columnMap record "Order ID"
  let productID ← getColumnValue columnMap record "Product ID"
  let customerID ← getColumnValue columnMap record "Customer ID"
  let productName ← getColumnValue columnMap record "Product Name"
  let category ← getColumnValue columnMap record "Category"
  let region ← getColumnValue columnMap record "Region"
  let saleDateStr ← getColumnValue columnMap record "Date of Sale"
  let saleDate ← wrapErr "invalid date format" (L.timeParse saleDateStr)
  let quantityStr ← getColumnValue columnMap record "Quantity Sold"
  let quantitySold ← wrapErr "invalid quantity" (L.atoi quantityStr)
  let unitPriceStr ← getColumnValue columnMap record "Unit Price"
  let unitPrice ← wrapErr "invalid unit price" (L.parseFloat unitPriceStr)
  let discountStr ← getColumnValue columnMap record "Discount"
  let discount ← wrapErr "invalid discount" (L.parseFloat discountStr)
  let shippingCostStr ← getColumnValue columnMap record "Shipping Cost"
  let shippingCost ← wrapErr "invalid shipping cost" (L.parseFloat shippingCostStr)
  let paymentMethod ← getColumnValue columnMap record "Payment Method"
  let customerName ← getColumnValue columnMap record "Customer Name"
  let customerEmail ← getColumnValue columnMap record "Customer Email"
  let customerAddress ← getColumnValue columnMap record "Customer Address"
  return {
    orderID, productID, customerID, productName, category, region, saleDate,
    quantitySold, unitPrice, discount, shippingCost, paymentMethod, customerName,
    customerEmail, customerAddress }

/-! ## The store -/

/-- The six data tables written inside the transaction. -/
structure Tables where
  customers : List Customer
  products : List Product
  regions : List Region
  paymentMethods : List PaymentMethod
  orders : List Order
  orderItems : List OrderItem
deriving DecidableEq, Repr

/-- The next values of the serial columns `regions.region_id`,
`payment_methods.payment_method_id` and `order_items.order_item_id`.  A value drawn
inside a transaction stays drawn when the transaction is rolled back. -/
structure Sequences where
  region : Nat
  paymentMethod : Nat
  orderItem : Nat
deriving DecidableEq, Repr

/-- The database as seen through the handle `dl.db`: the committed data tables, the
audit table `data_refresh_logs` with the next value of its serial `log_id`, and the
counters of the serial columns of the data tables. -/
structure Store where
  tables : Tables
  logs : List DataRefreshLog
  logSeq : Nat
  seqs : Sequences
deriving DecidableEq, Repr

/-- A statement executed on the transaction `tx` by `processRecord`, with its arguments. -/
inductive TxStmt where
  /-- Go: `INSERT INTO regions (name) VALUES ($1) ON CONFLICT (name) DO UPDATE ... RETURNING region_id`. -/
  | resolveRegion (name : String)
  /-- Go: `INSERT INTO payment_methods (name) VALUES ($1) ON CONFLICT (name) DO UPDATE ... RETURNING payment_method_id`. -/
  | resolvePaymentMethod (name : String)
  /-- Go: `customerStmt.ExecContext(ctx, customerID, customerName, customerEmail, customerAddress)`. -/
  | upsertCustomer (c : Customer)
  /-- Go: `productStmt.ExecContext(ctx, productID, productName, category)`. -/
  | upsertProduct (p : Product)
  /-- Go: `SELECT EXISTS(SELECT 1 FROM orders WHERE order_id = $1)`. -/
  | orderExists (orderID : String)
  /-- Go: `orderStmt.ExecContext(ctx, orderID, customerID, regionID, saleDate, shippingCost, paymentMethodID)`. -/
  | insertOrder (o : Order)
  /-- Go: `orderItemStmt.ExecContext(ctx, orderID, productID, quantitySold, unitPrice, discount)`. -/
  | insertOrderItem (orderID productID : String) (quantity : Int) (unitPrice discount : Float64)
deriving DecidableEq, Repr

/-- The six statements prepared by `RefreshData`, in the order of the source. -/
inductive Prepared where
  | customer | product | region | paymentMethod | order | orderItem
deriving DecidableEq, Repr

/-- What one `reader.Read()` returns when it is not `io.EOF`. -/
inductive ReadResult where
  | record (fields : List String)
  | err (msg : String)
deriving DecidableEq, Repr

/-- One operation issued by a run.  The `err` argument is the error the operation
returned (`none`: it succeeded).  `dbInsertLog` and `dbUpdateLog` are issued on the
database handle `dl.db`; `txExec` on the transaction `tx`. -/
inductive Event where
  /-- `StartDataRefresh`: `dl.db.QueryRowContext(INSERT INTO data_refresh_logs ... 'STARTED' ...)`. -/
  | dbInsertLog (triggeredBy : String) (err : Option String)
  /-- `CompleteDataRefresh`: `dl.db.ExecContext(UPDATE data_refresh_logs SET ... WHERE log_id = $5)`. -/
  | dbUpdateLog (logID rowsProcessed : Nat) (status : String) (errMsg : Option String)
      (err : Option String)
  /-- `os.Open(filePath)`. -/
  | openFile (err : Option String)
  /-- `reader.Read()`; `none` is `io.EOF`. -/
  | read (res : Option ReadResult)
  /-- `dl.db.BeginTx(ctx, nil)`. -/
  | beginTx (err : Option String)
  /-- `tx.PrepareContext(ctx, ...)`. -/
  | prepare (p : Prepared) (err : Option String)
  /-- A statement of `processRecord` on the transaction. -/
  | txExec (stmt : TxStmt) (err : Option String)
  /-- `tx.Rollback()`. -/
  | rollback
  /-- `tx.Commit()`. -/
  | commit (err : Option String)
  /-- `dl.logger.Printf("Processed batch %d (%d rows so far)", batch, rowsProcessed)`. -/
  | progress (batch rowsProcessed : Nat)
deriving DecidableEq, Repr

/-- Everything a run receives from outside the program. -/
structure Env where
  /-- The error of the INSERT of `StartDataRefresh`, if it fails. -/
  startFault : Option String
  /-- The value of `time.Now()` in `StartDataRefresh`. -/
  startTime : Nat
  /-- The error of `os.Open`, if it fails. -/
  openFault : Option String
  /-- The results of the successive `reader.Read()` calls on the file, the header
  first; once they are used up every further call returns `io.EOF`. -/
  reads : List ReadResult
  /-- The error of `BeginTx`, if it fails. -/
  beginFault : Option String
  /-- The error of each `PrepareContext`, if it fails. -/
  prepareFault : Prepared → Option String
  /-- The errors of the statements executed on the transaction, in execution order:
  the n-th statement fails with `e` when the n-th entry is `some e`; statements past
  the end of the list succeed. -/
  stmtFaults : List (Option String)
  /-- The error of `tx.Commit()`, if it fails. -/
  commitFault : Option String
  /-- The error of the UPDATE of `CompleteDataRefresh`, if it fails. -/
  updateFault : Option String
  /-- The value of `time.Now()` in `CompleteDataRefresh`. -/
  endTime : Nat

/-! ## The transaction -/

/-- An open transaction: its view of the data tables, the serial counters, and the
outcomes still to come for the statements executed on it. -/
structure Tx where
  tables : Tables
  seqs : Sequences
  faults : List (Option String)
deriving DecidableEq, Repr

/-- The outcome of a computation on the transaction: its value or error, the
transaction afterwards, and the statements it executed. -/
structure TxResult (α : Type) where
  val : Except String α
  tx : Tx
  events : List Event

/-- A computation on the transaction.  An error stops it (Go: `if err != nil { return ... }`)
and keeps the transaction as the failing statement left it. -/
def TxM (α : Type) : Type := Tx → TxResult α

/-- Sequencing: `m`, then `f` on its value unless `m` failed. -/
def TxM.bind {α β : Type} (m : TxM α) (f : α → TxM β) : TxM β := fun tx =>
  match m tx with
  | ⟨.error e, tx1, ev⟩ => ⟨.error e, tx1, ev⟩
  | ⟨.ok a, tx1, ev⟩ =>
    let r := f a tx1
    ⟨r.val, r.tx, ev ++ r.events⟩

instance : Monad TxM where
  pure a := fun tx => ⟨.ok a, tx, []⟩
  bind := TxM.bind

/-- Go: `if err != nil { return fmt.Errorf("<label>: %w", err) }` around a statement. -/
def TxM.wrap {α : Type} (label : String) (m : TxM α) : TxM α := fun tx =>
  let r := m tx
  ⟨wrapErr label r.val, r.tx, r.events⟩

/-- Execute one statement: it fails if the environment says so (the next entry of
`faults`), and otherwise has the effect `run` on the tables and counters. -/
def txStep {α : Type} (stmt : TxStmt) (run : Tables → Sequences → α × Tables × Sequences) :
    TxM α := fun tx =>
  match tx.faults.headD none with
  | some e => ⟨.error e, { tx with faults := tx.faults.tail }, [.txExec stmt (some e)]⟩
  | none =>
    let out := run tx.tables tx.seqs
    ⟨.ok out.1, { tables := out.2.1, seqs := out.2.2, faults := tx.faults.tail },
      [.txExec stmt none]⟩

/-- SQL: `INSERT INTO t (k, ...) VALUES (...) ON CONFLICT (k) DO UPDATE SET ...` with every
other column set: the rows with the key of `x` become `x`; without one, `x` is appended. -/
def upsertRow {α : Type} (key : α → String) (rows : List α) (x : α) : List α :=
  if rows.any (fun y => key y = key x) then rows.map (fun y => if key y = key x then x else y)
  else rows ++ [x]

/-- SQL: `INSERT INTO regions (name) VALUES ($1) ON CONFLICT (name) DO UPDATE
SET name = EXCLUDED.name RETURNING region_id`.  The row with that name is kept (its
name set to itself) and its id returned; without one, a row with the next serial value
is inserted.  The serial value is drawn in both cases. -/
def Tables.resolveRegion (t : Tables) (s : Sequences) (name : String) :
    Nat × Tables × Sequences :=
  match t.regions.find? (fun r => r.name = name) with
  | some r => (r.regionID, t, { s with region := s.region + 1 })
  | none =>
    (s.region, { t with regions := t.regions ++ [⟨s.region, name⟩] },
      { s with region := s.region + 1 })

/-- SQL: `INSERT INTO payment_methods (name) VALUES ($1) ON CONFLICT (name) DO UPDATE
SET name = EXCLUDED.name RETURNING payment_method_id`. -/
def Tables.resolvePaymentMethod (t : Tables) (s : Sequences) (name : String) :
    Nat × Tables × Sequences :=
  match t.paymentMethods.find? (fun r => r.name = name) with
  | some r => (r.paymentMethodID, t, { s with paymentMethod := s.paymentMethod + 1 })
  | none =>
    (s.paymentMethod,
      { t with paymentMethods := t.paymentMethods ++ [⟨s.paymentMethod, name⟩] },
      { s with paymentMethod := s.paymentMethod + 1 })

/-- SQL: `INSERT INTO customers (customer_id, name, email, address) VALUES ($1, $2, $3, $4)
ON CONFLICT (customer_id) DO UPDATE SET name = $2, email = $3, address = $4`. -/
def Tables.upsertCustomer (t : Tables) (c : Customer) : Tables :=
  { t with customers := upsertRow Customer.customerID t.customers c }

/-- SQL: `INSERT INTO products (product_id, name, category) VALUES ($1, $2, $3)
ON CONFLICT (product_id) DO UPDATE SET name = $2, category = $3`. -/
def Tables.upsertProduct (t : Tables) (p : Product) : Tables :=
  { t with products := upsertRow Product.productID t.products p }

/-- SQL: `SELECT EXISTS(SELECT 1 FROM orders WHERE order_id = $1)`. -/
def Tables.hasOrder (t : Tables) (orderID : String) : Bool :=
  t.orders.any fun o => o.orderID = orderID

/-- SQL: `INSERT INTO orders (order_id, customer_id, region_id, sale_date, shipping_cost,
payment_method_id) VALUES ($1, $2, $3, $4, $5, $6) ON CONFLICT (order_id) DO NOTHING`. -/
def Tables.insertOrder (t : Tables) (o : Order) : Tables :=
  if t.hasOrder o.orderID then t else { t with orders := t.orders ++ [o] }

/-- Modelled from the spec: the declaration of the table `order_items` is not in the
source.  Per the data model ("OrderItem: surrogate id, order_id, product_id, quantity,
unit_price, discount. One row appended per source record") its only key is the serial
`order_item_id`, so `ON CONFLICT DO NOTHING` never skips the row.
SQL: `INSERT INTO order_items (order_id, product_id, quantity, unit_price, discount)
VALUES ($1, $2, $3, $4, $5) ON CONFLICT DO NOTHING`. -/
def Tables.insertOrderItem (t : Tables) (s : Sequences) (orderID productID : String)
    (quantity : Int) (unitPrice discount : Float64) : Tables × Sequences :=
  ({ t with orderItems :=
      t.orderItems ++ [⟨s.orderItem, orderID, productID, quantity, unitPrice, discount⟩] },
    { s with orderItem := s.orderItem + 1 })

/-- Go: `tx.QueryRowContext(ctx, INSERT INTO regions ..., region).Scan(&regionID)`. -/
def resolveRegion (name : String) : TxM Nat :=
  txStep (.resolveRegion name) fun t s => t.resolveRegion s name

/-- Go: `tx.QueryRowContext(ctx, INSERT INTO payment_methods ..., paymentMethod).Scan(&paymentMethodID)`. -/
def resolvePaymentMethod (name : String) : TxM Nat :=
  txStep (.resolvePaymentMethod name) fun t s => t.resolvePaymentMethod s name

/-- Go: `customerStmt.ExecContext(ctx, customerID, customerName, customerEmail, customerAddress)`. -/
def upsertCustomer (c : Customer) : TxM Unit :=
  txStep (.upsertCustomer c) fun t s => ((), t.upsertCustomer c, s)

/-- Go: `productStmt.ExecContext(ctx, productID, productName, category)`. -/
def upsertProduct (p : Product) : TxM Unit :=
  txStep (.upsertProduct p) fun t s => ((), t.upsertProduct p, s)

/-- Go: `tx.QueryRowContext(ctx, "SELECT EXISTS(...)", orderID).Scan(&orderExists)`. -/
def orderExists (orderID : String) : TxM Bool :=
  txStep (.orderExists orderID) fun t s => (t.hasOrder orderID, t, s)

/-- Go: `orderStmt.ExecContext(ctx, orderID, customerID, regionID, saleDate, shippingCost, paymentMethodID)`. -/
def insertOrder (o : Order) : TxM Unit :=
  txStep (.insertOrder o) fun t s => ((), t.insertOrder o, s)

/-- Go: `orderItemStmt.ExecContext(ctx, orderID, productID, quantitySold, unitPrice, discount)`. -/
def insertOrderItem (orderID productID : String) (quantity : Int)
    (unitPrice discount : Float64) : TxM Unit :=
  txStep (.insertOrderItem orderID productID quantity unitPrice discount) fun t s =>
    ((), (t.insertOrderItem s orderID productID quantity unitPrice discount).1,
      (t.insertOrderItem s orderID productID quantity unitPrice discount).2)

/-- Go (`processRecord`, lines 362-440): the statements issued for a typed record. -/
def storeRecord (r : Record) : TxM Unit := do
  let regionID ← TxM.wrap "failed to insert/get region" (resolveRegion r.region)
  let paymentMethodID ←
    TxM.wrap "failed to insert/get payment method" (resolvePaymentMethod r.paymentMethod)
  TxM.wrap "failed to insert customer"
    (upsertCustomer ⟨r.customerID, r.customerName, r.customerEmail, r.customerAddress⟩)
  TxM.wrap "failed to insert product"
    (upsertProduct ⟨r.productID, r.productName, r.category⟩)
  let exists_ ← TxM.wrap "failed to check if order exists" (orderExists r.orderID)
  if !exists_ then
    TxM.wrap "failed to insert order"
      (insertOrder ⟨r.orderID, r.customerID, regionID, r.saleDate, r.shippingCost,
        paymentMethodID⟩)
  TxM.wrap "failed to insert order item"
    (insertOrderItem r.orderID r.productID r.quantitySold r.unitPrice r.discount)

/-- Go: `processRecord` (lines 236-441): type the fields, then issue the statements.
A record that does not parse returns before any statement. -/
def processRecord (L : StdLib) (columnMap : ColumnMap) (record : List String) : TxM Unit :=
  fun tx =>
    match parseRecord L columnMap record with
    | .error e => ⟨.error e, tx, []⟩
    | .ok r => storeRecord r tx

/-! ## The audit log (`StartDataRefresh`, `CompleteDataRefresh`) -/

/-- The outcome of a call on the database handle. -/
structure DbResult (α : Type) where
  val : Except String α
  store : Store
  events : List Event

/-- Go: `StartDataRefresh` (lines 34-51).  The INSERT is issued on `dl.db`; on success
the new row has status STARTED and the next serial `log_id`, which is returned. -/
def StartDataRefresh (env : Env) (store : Store) (triggeredBy : String) : DbResult Nat :=
  match env.startFault with
  | some e =>
    ⟨.error ("failed to create refresh log: " ++ e), store, [.dbInsertLog triggeredBy (some e)]⟩
  | none =>
    ⟨.ok store.logSeq,
      { store with
        logs := store.logs ++
          [⟨store.logSeq, env.startTime, none, "STARTED", none, none, triggeredBy⟩],
        logSeq := store.logSeq + 1 },
      [.dbInsertLog triggeredBy none]⟩

/-- Go: `CompleteDataRefresh` (lines 54-81).  The UPDATE is issued on `dl.db` and
changes the rows whose `log_id` is `logID`. -/
def CompleteDataRefresh (env : Env) (store : Store) (logID rowsProcessed : Nat)
    (err : Option String) : DbResult Unit :=
  let status := if err.isSome then "FAILED" else "COMPLETED"
  let errMsg := err
  match env.updateFault with
  | some e =>
    ⟨.error ("failed to update refresh log: " ++ e), store,
      [.dbUpdateLog logID rowsProcessed status errMsg (some e)]⟩
  | none =>
    ⟨.ok (),
      { store with
        logs := store.logs.map fun l =>
          if l.logID = logID then
            { l with endTime := some env.endTime, status := status,
                     rowsProcessed := some rowsProcessed, errorMessage := errMsg }
          else l },
      [.dbUpdateLog logID rowsProcessed status errMsg none]⟩

/-! ## `RefreshData` -/

/-- What a run leaves behind: the error it returns (`none` is `nil`), the database,
and the operations it issued. -/
structure Run where
  result : Option String
  store : Store
  trace : List Event
deriving DecidableEq, Repr

/-- The text with which `RefreshData` wraps the error of each `PrepareContext`. -/
def Prepared.label : Prepared → String
  | .customer => "failed to prepare customer statement"
  | .product => "failed to prepare product statement"
  | .region => "failed to prepare region statement"
  | .paymentMethod => "failed to prepare payment method statement"
  | .order => "failed to prepare order statement"
  | .orderItem => "failed to prepare order item statement"

/-- The order in which `RefreshData` prepares its statements (lines 117-189). -/
def preparedStatements : List Prepared :=
  [.customer, .product, .region, .paymentMethod, .order, .orderItem]

/-- The `PrepareContext` calls for the statements `ps`, in order, up to the first that
fails: the operations issued, and for a failure its error and the statement. -/
def prepareAll (env : Env) : List Prepared → List Event × Option (String × Prepared)
  | [] => ([], none)
  | p :: ps =>
    match env.prepareFault p with
    | some e => ([.prepare p (some e)], some (e, p))
    | none => (.prepare p none :: (prepareAll env ps).1, (prepareAll env ps).2)

/-- Go: `dl.CompleteDataRefresh(ctx, logID, rowsProcessed, err); return fmt.Errorf("<label>: %w", err)`,
the exit taken on every failure after `StartDataRefresh`; the result of
`CompleteDataRefresh` is dropped. -/
def failRun (env : Env) (store : Store) (logID rowsProcessed : Nat) (label cause : String)
    (trace : List Event) : Run :=
  let c := CompleteDataRefresh env store logID rowsProcessed (some cause)
  ⟨some (label ++ ": " ++ cause), c.store, trace ++ c.events⟩

/-- The variables of the read loop: what the reader has left, the transaction,
`rowsProcessed`, and the operations issued so far. -/
structure LoopState where
  reads : List ReadResult
  tx : Tx
  rowsProcessed : Nat
  trace : List Event

/-- How the inner `for` ends. -/
inductive BatchEnd where
  /-- The condition `i < batchSize` failed or `break` was taken on `io.EOF`. -/
  | completed (batchRowsProcessed : Nat) (st : LoopState)
  /-- An error exit: the wrapping label, the error, and the state at that point. -/
  | failed (label cause : String) (st : LoopState)

/-- Go (lines 198-218): `for i := 0; i < batchSize; i++ { ... }`, with `n` the number of
iterations still allowed by `i < batchSize`. -/
def runBatch (L : StdLib) (columnMap : ColumnMap) :
    Nat → Nat → LoopState → BatchEnd
  | 0, batchRowsProcessed, st => .completed batchRowsProcessed st
  | n + 1, batchRowsProcessed, st =>
    match st.reads with
    | [] => .completed batchRowsProcessed { st with trace := st.trace ++ [.read none] }
    | .err e :: rest =>
      .failed "error reading CSV record" e
        { st with reads := rest, trace := st.trace ++ [.read (some (.err e))] }
    | .record record :: rest =>
      let r := processRecord L columnMap record st.tx
      match r.val with
      | .error e =>
        .failed "error processing record" e
          { st with reads := rest, tx := r.tx,
                    trace := st.trace ++ [.read (some (.record record))] ++ r.events }
      | .ok _ =>
        runBatch L columnMap n (batchRowsProcessed + 1)
          { reads := rest, tx := r.tx, rowsProcessed := st.rowsProcessed + 1,
            trace := st.trace ++ [.read (some (.record record))] ++ r.events }

/-- How the outer `for` ends. -/
inductive LoopEnd where
  /-- The outer loop was left by `break` (a batch processed no row). -/
  | finished (st : LoopState)
  /-- An error exit inside a batch. -/
  | failed (label cause : String) (st : LoopState)

/-- Go (lines 194-225): the outer `for`, with `batch` the value of the counter before
`batch++`.  `fuel` bounds the number of batches; `none` means it did not suffice. -/
def batchLoop (L : StdLib) (columnMap : ColumnMap) (batchSize : Int) :
    Nat → Nat → LoopState → Option LoopEnd
  | 0, _, _ => none
  | fuel + 1, batch, st =>
    match runBatch L columnMap batchSize.toNat 0 st with
    | .failed label cause st1 => some (.failed label cause st1)
    | .completed batchRowsProcessed st1 =>
      if batchRowsProcessed = 0 then some (.finished st1)
      else
        batchLoop L columnMap batchSize fuel (batch + 1)
          { st1 with trace := st1.trace ++ [.progress (batch + 1) st1.rowsProcessed] }

/-- Go (lines 203-214 and 227-232): how the run ends once the read loop is left.  An
error exit rolls back, records the failure and returns the wrapped error; otherwise the
transaction is committed and the result of `CompleteDataRefresh` is returned. -/
def concludeRun (env : Env) (store : Store) (logID : Nat) : LoopEnd → Run
  | .failed label cause st =>
    failRun env { store with seqs := st.tx.seqs } logID st.rowsProcessed label cause
      (st.trace ++ [.rollback])
  | .finished st =>
    match env.commitFault with
    | some e =>
      failRun env { store with seqs := st.tx.seqs } logID st.rowsProcessed
        "failed to commit transaction" e (st.trace ++ [.commit (some e)])
    | none =>
      let c := CompleteDataRefresh env
        { store with tables := st.tx.tables, seqs := st.tx.seqs } logID st.rowsProcessed none
      ⟨errorOf c.val, c.store, st.trace ++ [.commit none] ++ c.events⟩

/-- The transaction as `BeginTx` opens it: the committed tables and the outcomes the
environment holds for its statements. -/
def beginTx (env : Env) (store : Store) : Tx :=
  ⟨store.tables, store.seqs, env.stmtFaults⟩

/-- Go (lines 111-233): `RefreshData` from `BeginTx` on, for the header `header` and the
remaining reads `rest`. -/
def runTransaction (L : StdLib) (cfg : Config) (env : Env) (store : Store) (logID : Nat)
    (header : List String) (rest : List ReadResult) (trace : List Event) : Option Run :=
  let rowsProcessed := 0
  let columnMap := buildColumnMap header
  match env.beginFault with
  | some e =>
    some (failRun env store logID rowsProcessed "failed to start transaction" e
      (trace ++ [.beginTx (some e)]))
  | none =>
    let tx := beginTx env store
    let prep := prepareAll env preparedStatements
    match prep.2 with
    | some (e, p) =>
      some (failRun env { store with seqs := tx.seqs } logID rowsProcessed p.label e
        (trace ++ [.beginTx none] ++ prep.1 ++ [.rollback]))
    | none =>
      (batchLoop L columnMap cfg.RefreshBatchSize (rest.length + 1) 0
          ⟨rest, tx, rowsProcessed, trace ++ [.beginTx none] ++ prep.1⟩).map
        (concludeRun env store logID)

/-- Go: `RefreshData` (lines 83-233).  `none` only if the bound on the number of
batches did not suffice (`RefreshData_anatomy`: it always does). -/
def RefreshData (L : StdLib) (cfg : Config) (env : Env) (store : Store)
    (triggeredBy : String) : Option Run :=
  let s := StartDataRefresh env store triggeredBy
  match s.val with
  | .error e => some ⟨some e, s.store, s.events⟩
  | .ok logID =>
    let rowsProcessed := 0
    match env.openFault with
    | some e =>
      some (failRun env s.store logID rowsProcessed "failed to open CSV file" e
        (s.events ++ [.openFile (some e)]))
    | none =>
      match env.reads with
      | [] =>
        some (failRun env s.store logID rowsProcessed "failed to read CSV header" "EOF"
          (s.events ++ [.openFile none, .read none]))
      | .err e :: _ =>
        some (failRun env s.store logID rowsProcessed "failed to read CSV header" e
          (s.events ++ [.openFile none, .read (some (.err e))]))
      | .record header :: rest =>
        runTransaction L cfg env s.store logID header rest
          (s.events ++ [.openFile none, .read (some (.record header))])

/-! ## An executable instance of the library calls

`exampleLib` evaluates the three library calls on plain inputs, so that runs on
concrete files can be computed.  It follows the Go functions on optionally signed
decimal integers, on dates, and on decimal floating-point literals
`[+-]digits[.digits][e[+-]digits]`; the special values, hexadecimal literals and digit
separators that `strconv.ParseFloat` also accepts are outside this instance, as are
strings that `strconv.Quote` would escape in an error text. -/

/-- The value of a string of decimal digits, `none` if a character is not a digit. -/
def digitsValue : List Char → Nat → Option Nat
  | [], acc => some acc
  | c :: cs, acc =>
    if c.isDigit then digitsValue cs (acc * 10 + (c.toNat - 48)) else none

/-- Go: `strconv.Quote` on a string without characters to escape. -/
def quote (s : String) : String := "\"" ++ s ++ "\""

/-- The text of a `*strconv.NumError`. -/
def numError (fn s msg : String) : String :=
  "strconv." ++ fn ++ ": parsing " ++ quote s ++ ": " ++ msg

/-- Go: `strconv.Atoi` on a 64-bit platform. -/
def exampleAtoi (s : String) : Except String Int :=
  let body (neg : Bool) (cs : List Char) : Except String Int :=
    match cs with
    | [] => .error (numError "Atoi" s "invalid syntax")
    | _ =>
      match digitsValue cs 0 with
      | none => .error (numError "Atoi" s "invalid syntax")
      | some n =>
        if neg then
          if n ≤ 2 ^ 63 then .ok (-(n : Int)) else .error (numError "Atoi" s "value out of range")
        else
          if n < 2 ^ 63 then .ok (n : Int) else .error (numError "Atoi" s "value out of range")
  match s.toList with
  | '+' :: cs => body false cs
  | '-' :: cs => body true cs
  | cs => body false cs

/-- Go: `daysIn(month, year)` of package `time`. -/
def daysIn (month year : Nat) : Nat :=
  if month = 2 then
    if year % 4 = 0 ∧ (year % 100 ≠ 0 ∨ year % 400 = 0) then 29 else 28
  else if month = 4 ∨ month = 6 ∨ month = 9 ∨ month = 11 then 30
  else 31

/-- The text of a `*time.ParseError` for the layout `2006-01-02`. -/
def timeError (s rest elem : String) : String :=
  "parsing time " ++ quote s ++ " as " ++ quote "2006-01-02" ++ ": cannot parse " ++
    quote rest ++ " as " ++ quote elem

/-- Go: `time.Parse("2006-01-02", s)`: four digits, `-`, two digits, `-`, two digits,
naming a day of the calendar. -/
def exampleTimeParse (s : String) : Except String Date :=
  match s.toList with
  | y1 :: y2 :: y3 :: y4 :: r1 =>
    if y1.isDigit then
      match digitsValue [y1, y2, y3, y4] 0 with
      | none => .error (timeError s s "2006")
      | some year =>
        match r1 with
        | '-' :: m1 :: m2 :: r2 =>
          if m1.isDigit ∧ m2.isDigit then
            let month := (m1.toNat - 48) * 10 + (m2.toNat - 48)
            if month = 0 ∨ 12 < month then
              .error ("parsing time " ++ quote s ++ ": month out of range")
            else
              match r2 with
              | '-' :: d1 :: d2 :: r3 =>
                if d1.isDigit ∧ d2.isDigit then
                  let day := (d1.toNat - 48) * 10 + (d2.toNat - 48)
                  match r3 with
                  | [] =>
                    if day < 1 ∨ daysIn month year < day then
                      .error ("parsing time " ++ quote s ++ ": day out of range")
                    else .ok ⟨year, month, day⟩
                  | _ =>
                    .error ("parsing time " ++ quote s ++ ": extra text: " ++
                      quote (String.mk r3))
                else .error (timeError s (String.mk (d1 :: d2 :: r3)) "02")
              | '-' :: r3 => .error (timeError s (String.mk r3) "02")
              | _ => .error (timeError s (String.mk r2) "-")
          else .error (timeError s (String.mk (m1 :: m2 :: r2)) "01")
        | '-' :: r2 => .error (timeError s (String.mk r2) "01")
        | _ => .error (timeError s (String.mk r1) "-")
    else .error (timeError s s "2006")
  | _ => .error (timeError s s "2006")

/-- The position of the highest set bit: `floor (log2 n)` for `0 < n` when `n ≤ fuel`. -/
def log2Floor : Nat → Nat → Nat
  | 0, _ => 0
  | fuel + 1, n => if n < 2 then 0 else log2Floor fuel (n / 2) + 1

/-- The float64 nearest to `num / den` (ties to even), as a bit pattern with the sign
`neg`; `none` when the value is too large for a float64. -/
def roundToFloat64 (neg : Bool) (num den : Nat) : Option Float64 :=
  let sign := if neg then 2 ^ 63 else 0
  if num = 0 ∨ den = 0 then some ⟨sign⟩
  else
    -- e = floor (log2 (num / den))
    let g : Int := (log2Floor num num : Int) - (log2Floor den den : Int)
    let ge : Bool := if 0 ≤ g then den * 2 ^ g.toNat ≤ num else den ≤ num * 2 ^ (-g).toNat
    let e : Int := if ge then g else g - 1
    let k : Int := max (e - 52) (-1074)
    let n := if 0 ≤ k then num else num * 2 ^ (-k).toNat
    let d := if 0 ≤ k then den * 2 ^ k.toNat else den
    let q0 := n / d
    let r := n % d
    let q1 := if d < 2 * r ∨ (2 * r = d ∧ q0 % 2 = 1) then q0 + 1 else q0
    let q := if q1 = 2 ^ 53 then 2 ^ 52 else q1
    let k1 : Int := if q1 = 2 ^ 53 then k + 1 else k
    if q < 2 ^ 52 then some ⟨sign + q⟩
    else if 971 < k1 then none
    else some ⟨sign + (k1 + 1075).toNat * 2 ^ 52 + (q - 2 ^ 52)⟩

/-- Split a list of characters at the first one satisfying `p`. -/
def splitAt? (p : Char → Bool) : List Char → List Char × Option (List Char)
  | [] => ([], none)
  | c :: cs =>
    if p c then ([], some cs)
    else ((splitAt? p cs).1.cons c, (splitAt? p cs).2)

/-- Go: `strconv.ParseFloat(s, 64)` on decimal literals. -/
def exampleParseFloat (s : String) : Except String Float64 :=
  let malformed : Except String Float64 := .error (numError "ParseFloat" s "invalid syntax")
  let body (neg : Bool) (cs : List Char) : Except String Float64 :=
    let me := splitAt? (fun c => c = 'e' ∨ c = 'E') cs
    let ip := splitAt? (fun c => c = '.') me.1
    let intDigits := ip.1
    let fracDigits := ip.2.getD []
    let expo : Option Int :=
      match me.2 with
      | none => some 0
      | some ('+' :: ds) => if ds = [] then none else (digitsValue ds 0).map fun n => (n : Int)
      | some ('-' :: ds) => if ds = [] then none else (digitsValue ds 0).map fun n => -(n : Int)
      | some ds => if ds = [] then none else (digitsValue ds 0).map fun n => (n : Int)
    if intDigits = [] ∧ fracDigits = [] then malformed
    else
      match digitsValue (intDigits ++ fracDigits) 0, expo with
      | some m, some x =>
        let p : Int := x - (fracDigits.length : Int)
        let v := if 0 ≤ p then roundToFloat64 neg (m * 10 ^ p.toNat) 1
                 else roundToFloat64 neg m (10 ^ (-p).toNat)
        match v with
        | some f => .ok f
        | none => .error (numError "ParseFloat" s "value out of range")
      | _, _ => malformed
  match s.toList with
  | '+' :: cs => body false cs
  | '-' :: cs => body true cs
  | cs => body false cs

deriving instance DecidableEq for Except

/-- The executable instance of the library calls. -/
def exampleLib : StdLib where
  timeParse := exampleTimeParse
  atoi := exampleAtoi
  parseFloat := exampleParseFloat

/-! ## Reading a run -/

/-- An operation on the database: issued on the handle `dl.db` or on the transaction
(everything but file operations and progress lines). -/
def Event.isStoreOp : Event → Bool
  | .openFile _ => false
  | .read _ => false
  | .progress _ _ => false
  | _ => true

/-- The operations on the database issued by a run, in order. -/
def storeOps (trace : List Event) : List Event := trace.filter Event.isStoreOp

/-- A statement executed on the transaction. -/
def Event.isTxExec : Event → Bool
  | .txExec _ _ => true
  | _ => false

/-- An operation of the read loop: a read, a statement on the transaction, a progress line. -/
def Event.isLoopEvent : Event → Bool
  | .read _ => true
  | .txExec _ _ => true
  | .progress _ _ => true
  | _ => false

/-- The INSERT of `StartDataRefresh`. -/
def Event.isLogInsert : Event → Bool
  | .dbInsertLog _ _ => true
  | _ => false

/-- The UPDATE of `CompleteDataRefresh`. -/
def Event.isLogUpdate : Event → Bool
  | .dbUpdateLog _ _ _ _ _ => true
  | _ => false

/-- A call of `BeginTx`. -/
def Event.isBeginTx : Event → Bool
  | .beginTx _ => true
  | _ => false

/-- A call of `tx.Commit`. -/
def Event.isCommit : Event → Bool
  | .commit _ => true
  | _ => false

/-- The read loop without batches: the reads are taken one after the other until one
fails, a record fails, or the file ends.  Only the statements on the transaction are
recorded. -/
def readAll (L : StdLib) (columnMap : ColumnMap) :
    List ReadResult → Tx → Nat → List Event → LoopEnd
  | [], tx, rowsProcessed, trace => .finished ⟨[], tx, rowsProcessed, trace⟩
  | .err e :: rest, tx, rowsProcessed, trace =>
    .failed "error reading CSV record" e ⟨rest, tx, rowsProcessed, trace⟩
  | .record record :: rest, tx, rowsProcessed, trace =>
    match (processRecord L columnMap record tx).val with
    | .error e =>
      .failed "error processing record" e
        ⟨rest, (processRecord L columnMap record tx).tx, rowsProcessed,
          trace ++ (processRecord L columnMap record tx).events⟩
    | .ok _ =>
      readAll L columnMap rest (processRecord L columnMap record tx).tx (rowsProcessed + 1)
        (trace ++ (processRecord L columnMap record tx).events)

/-- The state of the loop with only the operations on the database kept in its trace. -/
def LoopState.storeView (st : LoopState) : LoopState :=
  { st with trace := storeOps st.trace }

/-- The end of the loop with only the operations on the database kept in its trace. -/
def LoopEnd.storeView : LoopEnd → LoopEnd
  | .finished st => .finished st.storeView
  | .failed label cause st => .failed label cause st.storeView

/-- The state in which the loop ended. -/
def LoopEnd.state : LoopEnd → LoopState
  | .finished st => st
  | .failed _ _ st => st

/-- Whether `processRecord` handles every record of `lines` without error, each on the
transaction as the previous one left it. -/
def handlesAll (L : StdLib) (columnMap : ColumnMap) : List (List String) → Tx → Bool
  | [], _ => true
  | record :: rest, tx =>
    (errorOf (processRecord L columnMap record tx).val).isNone &&
      handlesAll L columnMap rest (processRecord L columnMap record tx).tx

/-- The transaction after `processRecord` has been applied to the records of `lines` in order. -/
def txAfter (L : StdLib) (columnMap : ColumnMap) : List (List String) → Tx → Tx
  | [], tx => tx
  | record :: rest, tx => txAfter L columnMap rest (processRecord L columnMap record tx).tx

/-- The statements `processRecord` executes for the records of `lines`, in order. -/
def txEvents (L : StdLib) (columnMap : ColumnMap) : List (List String) → Tx → List Event
  | [], _ => []
  | record :: rest, tx =>
    (processRecord L columnMap record tx).events ++
      txEvents L columnMap rest (processRecord L columnMap record tx).tx

/-- The error of reading and processing one line on the transaction `tx` (`none`: the
line is read and handled without error). -/
def lineError (L : StdLib) (columnMap : ColumnMap) (tx : Tx) : ReadResult → Option String
  | .err e => some e
  | .record record => errorOf (processRecord L columnMap record tx).val

/-- The text with which `RefreshData` wraps the error of a line. -/
def lineLabel : ReadResult → String
  | .err _ => "error reading CSV record"
  | .record _ => "error processing record"

/-- The statements executed for one line on the transaction `tx`. -/
def lineEvents (L : StdLib) (columnMap : ColumnMap) (tx : Tx) : ReadResult → List Event
  | .err _ => []
  | .record record => (processRecord L columnMap record tx).events

/-- The rows of the audit table with the given `log_id`. -/
def logRows (store : Store) (logID : Nat) : List DataRefreshLog :=
  store.logs.filter fun l => l.logID = logID

/-- Every operation recorded by `m` is a statement on the transaction. -/
def TxM.OnlyTx {α : Type} (m : TxM α) : Prop :=
  ∀ tx, ∀ e ∈ (m tx).events, e.isTxExec = true

/-- The state in which the inner loop ended. -/
def BatchEnd.state : BatchEnd → LoopState
  | .completed _ st => st
  | .failed _ _ st => st

/-! ## Runs that reach the read loop -/

/-- The operations of a run up to the read loop, when each of them succeeds. -/
def preamble (triggeredBy : String) (header : List String) : List Event :=
  [.dbInsertLog triggeredBy none, .openFile none, .read (some (.record header)),
    .beginTx none] ++ preparedStatements.map fun p => .prepare p none

/-- The store after a successful `StartDataRefresh`. -/
def startedStore (env : Env) (store : Store) (triggeredBy : String) : Store :=
  { store with
    logs := store.logs ++
      [⟨store.logSeq, env.startTime, none, "STARTED", none, none, triggeredBy⟩],
    logSeq := store.logSeq + 1 }

/-! ## The anatomy of a run -/

/-- An operation on the file. -/
def Event.isFileEvent : Event → Bool
  | .openFile _ => true
  | .read _ => true
  | _ => false

/-- An operation issued while the transaction is open: a `PrepareContext`, a read, a
statement on the transaction, a progress line. -/
def Event.isInTx : Event → Bool
  | .prepare _ _ => true
  | .read _ => true
  | .txExec _ _ => true
  | .progress _ _ => true
  | _ => false

/-- The end of the transaction: `tx.Rollback()` or `tx.Commit()`. -/
def Event.isTxEnd : Event → Bool
  | .rollback => true
  | .commit _ => true
  | _ => false

/-- The part of a trace between the audit insert and the audit update has one of three
shapes: file operations only; file operations and a `BeginTx` that failed; or file
operations, a `BeginTx` that succeeded, operations inside the transaction, and its end. -/
def BodyShape (body : List Event) : Prop :=
  ∃ pre rest, body = pre ++ rest ∧ (∀ ev ∈ pre, ev.isFileEvent = true) ∧
    (rest = [] ∨ (∃ e, rest = [.beginTx (some e)]) ∨
      ∃ mid closing, rest = .beginTx none :: mid ++ [closing] ∧
        (∀ ev ∈ mid, ev.isInTx = true) ∧ closing.isTxEnd = true)

/-- What a run that has its audit row leaves behind, for the row count `rows` and the
error `err` passed to `CompleteDataRefresh`.  With an error, the data tables are those
from before the run and the run returns that error under a label; without one, the run
returns what `CompleteDataRefresh` returns.  When the UPDATE succeeds, the audit rows of
the run carry the status, the count and the error text. -/
def RunFacts (env : Env) (store : Store) (run : Run) (rows : Nat) (err : Option String) :
    Prop :=
  (∀ c, err = some c →
    run.store.tables = store.tables ∧ ∃ label, run.result = some (label ++ ": " ++ c)) ∧
  (err = none →
    run.result = env.updateFault.map fun e => "failed to update refresh log: " ++ e) ∧
  (env.updateFault = none →
    logRows run.store store.logSeq ≠ [] ∧
    ∀ l ∈ logRows run.store store.logSeq,
      l.status = (if err.isSome then "FAILED" else "COMPLETED") ∧
        l.rowsProcessed = some rows ∧ l.errorMessage = err)

/-- The failure to open the file or to read its header, if there is one: the label under
which `RefreshData` returns it, and its text.  The header of an empty file reads as
`io.EOF`. -/
def fileFailure (env : Env) : Option (String × String) :=
  match env.openFault with
  | some e => some ("failed to open CSV file", e)
  | none =>
    match env.reads with
    | [] => some ("failed to read CSV header", "EOF")
    | .err e :: _ => some ("failed to read CSV header", e)
    | .record _ :: _ => none

/-! ## Parsing -/

/-- The fifteen column names `processRecord` looks up, in the order of the source. -/
def requiredColumns : List String :=
  ["Order ID", "Product ID", "Customer ID", "Product Name", "Category", "Region",
    "Date of Sale", "Quantity Sold", "Unit Price", "Discount", "Shipping Cost",
    "Payment Method", "Customer Name", "Customer Email", "Customer Address"]

/-- The column `colName` is absent from the map, or mapped to a position at or past the
end of the row. -/
def columnMissing (columnMap : ColumnMap) (record : List String) (colName : String) : Bool :=
  match columnMap.get? colName with
  | none => true
  | some idx => decide (idx ≥ record.length)

/-- The MissingColumn condition: one of the two error texts of `getColumnValue`. -/
def IsMissingColumn (msg : String) : Prop :=
  (∃ colName, msg = "column " ++ colName ++ " not found in CSV") ∨
    msg = "record has fewer columns than expected"

/-- The InvalidFormat condition: a library error under one of the five labels of
`processRecord`. -/
def IsInvalidFormat (msg : String) : Prop :=
  ∃ label detail,
    label ∈ ["invalid date format", "invalid quantity", "invalid unit price",
      "invalid discount", "invalid shipping cost"] ∧ msg = label ++ ": " ++ detail

/-- The error `processRecord` returns when the value `v` of the column `colName` does not
convert to the type of the column; `none` when it converts, or when the column is kept as
text. -/
def conversionError (L : StdLib) (colName v : String) : Option String :=
  if colName = "Date of Sale" then errorOf (wrapErr "invalid date format" (L.timeParse v))
  else if colName = "Quantity Sold" then errorOf (wrapErr "invalid quantity" (L.atoi v))
  else if colName = "Unit Price" then errorOf (wrapErr "invalid unit price" (L.parseFloat v))
  else if colName = "Discount" then errorOf (wrapErr "invalid discount" (L.parseFloat v))
  else if colName = "Shipping Cost" then
    errorOf (wrapErr "invalid shipping cost" (L.parseFloat v))
  else none

/-- The error of the first step that fails when the columns `cols` are extracted in
order, each looked up and then converted: `none` when every step succeeds. -/
def firstFailure (L : StdLib) (columnMap : ColumnMap) (record : List String) :
    List String → Option String
  | [] => none
  | colName :: cols =>
    match getColumnValue columnMap record colName with
    | .error e => some e
    | .ok v =>
      match conversionError L colName v with
      | some e => some e
      | none => firstFailure L columnMap record cols

/-- The columns extracted before the first one that is missing. -/
def columnsBeforeMissing (columnMap : ColumnMap) (record : List String) : List String :=
  requiredColumns.takeWhile fun colName => !columnMissing columnMap record colName

/-! ## The effect of a record on the tables -/

/-- The rows written for a record whose statements all succeed: the tables and counters
after the seven statements of `processRecord`. -/
def applyRecord (r : Record) (t : Tables) (s : Sequences) : Tables × Sequences :=
  let a := t.resolveRegion s r.region
  let b := a.2.1.resolvePaymentMethod a.2.2 r.paymentMethod
  let t3 := (b.2.1.upsertCustomer
    ⟨r.customerID, r.customerName, r.customerEmail, r.customerAddress⟩).upsertProduct
      ⟨r.productID, r.productName, r.category⟩
  let t4 := if t3.hasOrder r.orderID then t3
    else t3.insertOrder ⟨r.orderID, r.customerID, a.1, r.saleDate, r.shippingCost, b.1⟩
  t4.insertOrderItem b.2.2 r.orderID r.productID r.quantitySold r.unitPrice r.discount

/-! ## Upserts -/

/-- The last row of `us` with the key `k`. -/
def lastWrite {α : Type} (key : α → String) : List α → String → Option α
  | [], _ => none
  | u :: us, k =>
    match lastWrite key us k with
    | some c => some c
    | none => if key u = k then some u else none

/-- The customer row written for a record. -/
def Record.customer (r : Record) : Customer :=
  ⟨r.customerID, r.customerName, r.customerEmail, r.customerAddress⟩

/-- The product row written for a record. -/
def Record.product (r : Record) : Product :=
  ⟨r.productID, r.productName, r.category⟩

/-- The order header written for a record, with the ids its two resolves return. -/
def Record.order (r : Record) (t : Tables) (s : Sequences) : Order :=
  ⟨r.orderID, r.customerID, (t.resolveRegion s r.region).1, r.saleDate, r.shippingCost,
    ((t.resolveRegion s r.region).2.1.resolvePaymentMethod
      (t.resolveRegion s r.region).2.2 r.paymentMethod).1⟩

/-- The records of the lines that parse. -/
def parsedRecords (L : StdLib) (columnMap : ColumnMap) (lines : List (List String)) :
    List Record :=
  lines.filterMap fun line => (parseRecord L columnMap line).toOption

/-- The tables and counters after the statements of the records `rs` have all succeeded. -/
def applyRecords (rs : List Record) (ts : Tables × Sequences) : Tables × Sequences :=
  rs.foldl (fun ts r => applyRecord r ts.1 ts.2) ts

/-- The number of order headers with the given `order_id`. -/
def Tables.orderCount (t : Tables) (orderID : String) : Nat :=
  (t.orders.filter fun o => o.orderID = orderID).length

/-! ## Example data -/

/-- A header naming the fifteen columns. -/
def exampleHeader : List String := requiredColumns

/-- Order O1, product P1. -/
def exampleLine1 : List String :=
  ["O1", "P1", "C1", "Widget", "Tools", "West", "2024-01-15", "2", "10.5", "0.1", "5",
    "Card", "Ann", "ann@example.com", "1 Main St"]

/-- Order O1 again, product P2. -/
def exampleLine2 : List String :=
  ["O1", "P2", "C1", "Gadget", "Tools", "West", "2024-01-15", "1", "3.25", "0", "5",
    "Card", "Ann", "ann@example.com", "1 Main St"]

/-- Order O2. -/
def exampleLine3 : List String :=
  ["O2", "P1", "C2", "Widget", "Tools", "East", "2024-01-16", "4", "10.5", "0.25", "7.5",
    "Cash", "Bob", "bob@example.com", "2 High St"]

/-- As `exampleLine2`, with the quantity `abc`. -/
def exampleBadLine : List String :=
  ["O1", "P2", "C1", "Gadget", "Tools", "West", "2024-01-15", "abc", "3.25", "0", "5",
    "Card", "Ann", "ann@example.com", "1 Main St"]

/-- A header without the column `Customer Address`. -/
def shortHeader : List String :=
  ["Order ID", "Product ID", "Customer ID", "Product Name", "Category", "Region",
    "Date of Sale", "Quantity Sold", "Unit Price", "Discount", "Shipping Cost",
    "Payment Method", "Customer Name", "Customer Email"]

/-- A row for `shortHeader` whose date is `bad`. -/
def badDateRow : List String :=
  ["O1", "P1", "C1", "Widget", "Tools", "West", "bad", "2", "10.5", "0.1", "5",
    "Card", "Ann", "ann@example.com"]

/-- A database without rows, its serial columns starting at 1. -/
def emptyStore : Store := ⟨⟨[], [], [], [], [], []⟩, [], 1, ⟨1, 1, 1⟩⟩

/-- An environment in which nothing fails, for a file with the given reads. -/
def exampleEnv (reads : List ReadResult) : Env where
  startFault := none
  startTime := 100
  openFault := none
  reads := reads
  beginFault := none
  prepareFault := fun _ => none
  stmtFaults := []
  commitFault := none
  updateFault := none
  endTime := 200

/-- The file of the scenario: header, then the orders O1, O1, O2. -/
def exampleFile : List ReadResult :=
  [.record exampleHeader, .record exampleLine1, .record exampleLine2, .record exampleLine3]

/-- The file whose second data line has the quantity `abc`. -/
def exampleBadFile : List ReadResult :=
  [.record exampleHeader, .record exampleLine1, .record exampleBadLine, .record exampleLine3]

/-- A row with the quantity `-3` and the discount `1.5`. -/
def uncheckedRow : List String :=
  ["O9", "P1", "C1", "Widget", "Tools", "West", "2024-01-15", "-3", "10.5", "1.5", "5",
    "Card", "Ann", "ann@example.com", "1 Main St"]

/-- The header with its first and last columns exchanged. -/
def swappedHeader : List String :=
  ["Customer Address", "Product ID", "Customer ID", "Product Name", "Category", "Region",
    "Date of Sale", "Quantity Sold", "Unit Price", "Discount", "Shipping Cost",
    "Payment Method", "Customer Name", "Customer Email", "Order ID"]

/-- The row `exampleLine1` with its first and last fields exchanged. -/
def swappedLine1 : List String :=
  ["1 Main St", "P1", "C1", "Widget", "Tools", "West", "2024-01-15", "2", "10.5", "0.1", "5",
    "Card", "Ann", "ann@example.com", "O1"]

/-- A typed record of the region "West". -/
def westRecord : Record :=
  ⟨"O1", "P2", "C1", "Gadget", "Tools", "West", ⟨2024, 1, 15⟩, 1, ⟨0⟩, ⟨0⟩, ⟨0⟩, "Card",
    "Ann", "ann@example.com", "1 Main St"⟩

/-- The typed record of `exampleLine1`. -/
def exampleRecord1 : Record :=
  ⟨"O1", "P1", "C1", "Widget", "Tools", "West", ⟨2024, 1, 15⟩, 2, ⟨4622100592565682176⟩,
    ⟨4591870180066957722⟩, ⟨4617315517961601024⟩, "Card", "Ann", "ann@example.com",
    "1 Main St"⟩

/-! ## Fields, name resolution and the statements of a record -/

/-- The field of the row under the column `colName` (the empty text when the column is
missing). -/
def fieldOf (columnMap : ColumnMap) (record : List String) (colName : String) : String :=
  match getColumnValue columnMap record colName with
  | .ok v => v
  | .error _ => ""

/-- The region rows with the given name. -/
def Tables.regionsNamed (t : Tables) (name : String) : List Region :=
  t.regions.filter fun r => r.name = name

/-- The payment-method rows with the given name. -/
def Tables.paymentMethodsNamed (t : Tables) (name : String) : List PaymentMethod :=
  t.paymentMethods.filter fun r => r.name = name

/-- The tables after the records of `steps` have been stored one after the other, each
with the serial counters standing as given with it. -/
def tablesAfter (steps : List (Record × Sequences)) (t : Tables) : Tables :=
  steps.foldl (fun t step => (applyRecord step.1 t step.2).1) t

/-- The statements of `processRecord` for a typed record on the tables `t` with the
counters `s`, in the order in which they are issued when none fails, each with the text
under which its error is returned.  The order insert is among them only if the tables
hold no order with the `order_id` of the record; it carries the ids the two resolves
return. -/
def plannedStatements (r : Record) (t : Tables) (s : Sequences) : List (String × TxStmt) :=
  [("failed to insert/get region", .resolveRegion r.region),
    ("failed to insert/get payment method", .resolvePaymentMethod r.paymentMethod),
    ("failed to insert customer", .upsertCustomer r.customer),
    ("failed to insert product", .upsertProduct r.product),
    ("failed to check if order exists", .orderExists r.orderID)] ++
  (if t.hasOrder r.orderID then []
    else [("failed to insert order", .insertOrder (r.order t s))]) ++
  [("failed to insert order item",
    .insertOrderItem r.orderID r.productID r.quantitySold r.unitPrice r.discount)]

/-- The statements `stmts` issued in order with the outcomes `faults` (the n-th statement
issued fails when the n-th entry is an error; past the end they succeed), up to the first
that fails: the operations issued, and the error returned. -/
def issue : List (String × TxStmt) → List (Option String) → List Event × Option String
  | [], _ => ([], none)
  | (label, stmt) :: rest, faults =>
    match faults.headD none with
    | some e => ([.txExec stmt (some e)], some (label ++ ": " ++ e))
    | none => (.txExec stmt none :: (issue rest faults.tail).1, (issue rest faults.tail).2)

/-! ## Configuration (`config/config.go`) -/

/-- Go: `getEnv` (lines 53-58); `environ` is `os.LookupEnv`. -/
def getEnv (environ : String → Option String) (key fallback : String) : String :=
  match environ key with
  | some value => value
  | none => fallback

/-- Go: `LoadConfig` (lines 29-51), for the field the loader reads.  `loadFault` is the
error of the first `godotenv.Load()`, `environ` the process environment after it, and
`atoi` is `strconv.Atoi` with both of its results: line 36 keeps the value and drops the
error. -/
def LoadConfig (atoi : String → Int × Option String) (loadFault : Option String)
    (environ : String → Option String) : Except String Config :=
  match loadFault with
  | some e => .error ("error loading .env file: " ++ e)
  | none =>
    let batchSize := (atoi (getEnv environ "REFRESH_BATCH_SIZE" "1000")).1
    .ok { RefreshBatchSize := batchSize }

/-- Go: `strconv.Atoi` on a 64-bit platform, with both of its results: the value is 0
beside a syntax error and the nearest bound beside a range error. -/
def exampleAtoiBoth (s : String) : Int × Option String :=
  let body (neg : Bool) (cs : List Char) : Int × Option String :=
    match cs with
    | [] => (0, some (numError "Atoi" s "invalid syntax"))
    | _ =>
      match digitsValue cs 0 with
      | none => (0, some (numError "Atoi" s "invalid syntax"))
      | some n =>
        if neg then
          if n ≤ 2 ^ 63 then (-(n : Int), none)
          else (-(2 ^ 63 : Int), some (numError "Atoi" s "value out of range"))
        else
          if n < 2 ^ 63 then ((n : Int), none)
          else ((2 ^ 63 - 1 : Int), some (numError "Atoi" s "value out of range"))
  match s.toList with
  | '+' :: cs => body false cs
  | '-' :: cs => body true cs
  | cs => body false cs

/-- A process environment in which only `REFRESH_BATCH_SIZE` is set, to `value`. -/
def batchSizeEnviron (value : String) : String → Option String :=
  fun key => if key = "REFRESH_BATCH_SIZE" then some value else none

/-! ## The exits of a run -/

/-- The texts under which `RefreshData` returns the error of a stage that failed. -/
def stageLabels : List String :=
  ["failed to create refresh log", "failed to open CSV file", "failed to read CSV header",
    "failed to start transaction", "failed to prepare customer statement",
    "failed to prepare product statement", "failed to prepare region statement",
    "failed to prepare payment method statement", "failed to prepare order statement",
    "failed to prepare order item statement", "error reading CSV record",
    "error processing record", "failed to commit transaction"]

/-- A run that failed at a stage: it returns the cause under the label of the stage, and,
unless the audit insert itself failed, the audit update was issued with FAILED and that
cause. -/
def FailedAt (env : Env) (store : Store) (run : Run) : Prop :=
  ∃ label cause, label ∈ stageLabels ∧ run.result = some (label ++ ": " ++ cause) ∧
    (env.startFault = some cause ∨
      ∃ rows, Event.dbUpdateLog store.logSeq rows "FAILED" (some cause) env.updateFault ∈
        run.trace)

/-! ## Lemmas -/

theorem TxM.bind_def {α β : Type} (m : TxM α) (f : α → TxM β) : (m >>= f) = TxM.bind m f := rfl

theorem TxM.pure_def {α : Type} (a : α) (tx : Tx) :
    (pure a : TxM α) tx = ⟨.ok a, tx, []⟩ := rfl

theorem TxM.onlyTx_pure {α : Type} (a : α) : TxM.OnlyTx (pure a : TxM α) := by
  intro tx e he
  simp [TxM.pure_def] at he

theorem TxM.onlyTx_bind {α β : Type} {m : TxM α} {f : α → TxM β}
    (hm : TxM.OnlyTx m) (hf : ∀ a, TxM.OnlyTx (f a)) : TxM.OnlyTx (m >>= f) := by
  intro tx e he
  rw [TxM.bind_def] at he
  unfold TxM.bind at he
  have h1 := hm tx
  rcases hmt : m tx with ⟨v, tx1, ev⟩
  rw [hmt] at he h1
  cases v with
  | error err => exact h1 e (by simpa using he)
  | ok a =>
    simp only [List.mem_append] at he
    rcases he with he | he
    · exact h1 e he
    · exact hf a tx1 e he

theorem TxM.onlyTx_wrap {α : Type} {m : TxM α} (label : String) (hm : TxM.OnlyTx m) :
    TxM.OnlyTx (TxM.wrap label m) := by
  intro tx e he
  exact hm tx e he

theorem TxM.onlyTx_txStep {α : Type} (stmt : TxStmt)
    (run : Tables → Sequences → α × Tables × Sequences) : TxM.OnlyTx (txStep stmt run) := by
  intro tx e he
  unfold txStep at he
  split at he <;> simp at he <;> subst he <;> rfl

theorem storeRecord_onlyTx (r : Record) : TxM.OnlyTx (storeRecord r) := by
  unfold storeRecord
  refine TxM.onlyTx_bind (TxM.onlyTx_wrap _ (TxM.onlyTx_txStep _ _)) fun _ => ?_
  refine TxM.onlyTx_bind (TxM.onlyTx_wrap _ (TxM.onlyTx_txStep _ _)) fun _ => ?_
  refine TxM.onlyTx_bind (TxM.onlyTx_wrap _ (TxM.onlyTx_txStep _ _)) fun _ => ?_
  refine TxM.onlyTx_bind (TxM.onlyTx_wrap _ (TxM.onlyTx_txStep _ _)) fun _ => ?_
  refine TxM.onlyTx_bind (TxM.onlyTx_wrap _ (TxM.onlyTx_txStep _ _)) fun ex => ?_
  dsimp only
  split
  · exact TxM.onlyTx_bind (TxM.onlyTx_wrap _ (TxM.onlyTx_txStep _ _)) fun _ =>
      TxM.onlyTx_wrap _ (TxM.onlyTx_txStep _ _)
  · exact TxM.onlyTx_bind (TxM.onlyTx_pure _) fun _ =>
      TxM.onlyTx_wrap _ (TxM.onlyTx_txStep _ _)

theorem processRecord_onlyTx (L : StdLib) (columnMap : ColumnMap) (record : List String) :
    TxM.OnlyTx (processRecord L columnMap record) := by
  intro tx e he
  unfold processRecord at he
  split at he
  · simp at he
  · exact storeRecord_onlyTx _ tx e he

theorem storeOps_append (a b : List Event) : storeOps (a ++ b) = storeOps a ++ storeOps b := by
  simp [storeOps]

theorem storeOps_onlyTx {l : List Event} (h : ∀ e ∈ l, e.isTxExec = true) : storeOps l = l := by
  unfold storeOps
  rw [List.filter_eq_self]
  intro e he
  have := h e he
  cases e <;> simp_all [Event.isTxExec, Event.isStoreOp]

theorem storeOps_read (r : Option ReadResult) : storeOps [.read r] = [] := rfl

theorem storeOps_progress (a b : Nat) : storeOps [.progress a b] = [] := rfl

theorem storeOps_cons_read (r : Option ReadResult) (l : List Event) :
    storeOps (.read r :: l) = storeOps l := rfl

theorem isLoopEvent_of_isTxExec {e : Event} (h : e.isTxExec = true) : e.isLoopEvent = true := by
  cases e <;> simp_all [Event.isTxExec, Event.isLoopEvent]

/-- The inner loop only adds reads and statements on the transaction to the trace. -/
theorem runBatch_trace (L : StdLib) (columnMap : ColumnMap) :
    ∀ (n b : Nat) (st : LoopState),
      ∃ added, (runBatch L columnMap n b st).state.trace = st.trace ++ added ∧
        ∀ e ∈ added, e.isLoopEvent = true := by
  intro n
  induction n with
  | zero => intro b st; exact ⟨[], by simp [runBatch, BatchEnd.state], by simp⟩
  | succ n ih =>
    intro b st
    unfold runBatch
    split
    · exact ⟨[.read none], by simp [BatchEnd.state], by simp [Event.isLoopEvent]⟩
    · rename_i e rest hreads
      exact ⟨[.read (some (.err e))], by simp [BatchEnd.state], by simp [Event.isLoopEvent]⟩
    · rename_i record rest hreads
      have hev := processRecord_onlyTx L columnMap record st.tx
      dsimp only
      split
      · refine ⟨[.read (some (.record record))] ++
          (processRecord L columnMap record st.tx).events, by simp [BatchEnd.state], ?_⟩
        intro e he
        simp only [List.mem_append, List.mem_singleton] at he
        rcases he with he | he
        · subst he; rfl
        · exact isLoopEvent_of_isTxExec (hev e he)
      · obtain ⟨added, h1, h2⟩ := ih (b + 1)
          { reads := rest, tx := (processRecord L columnMap record st.tx).tx,
            rowsProcessed := st.rowsProcessed + 1,
            trace := st.trace ++ [.read (some (.record record))] ++
              (processRecord L columnMap record st.tx).events }
        refine ⟨[.read (some (.record record))] ++
          (processRecord L columnMap record st.tx).events ++ added, ?_, ?_⟩
        · rw [h1]; simp
        · intro e he
          simp only [List.mem_append, List.mem_singleton] at he
          rcases he with (he | he) | he
          · subst he; rfl
          · exact isLoopEvent_of_isTxExec (hev e he)
          · exact h2 e he

/-- A batch that ends in an error is an error of the plain loop, at the same line. -/
theorem runBatch_failed (L : StdLib) (columnMap : ColumnMap) :
    ∀ (n b : Nat) (st : LoopState) (label cause : String) (st1 : LoopState),
      runBatch L columnMap n b st = .failed label cause st1 →
      readAll L columnMap st.reads st.tx st.rowsProcessed (storeOps st.trace) =
        .failed label cause st1.storeView := by
  intro n
  induction n with
  | zero => intro b st label cause st1 h; simp [runBatch] at h
  | succ n ih =>
    intro b st label cause st1 h
    unfold runBatch at h
    split at h
    · simp at h
    · rename_i e rest hreads
      simp only [BatchEnd.failed.injEq] at h
      obtain ⟨rfl, rfl, rfl⟩ := h
      rw [hreads]
      simp [readAll, LoopState.storeView, storeOps_append, storeOps_read]
    · rename_i record rest hreads
      have hev := storeOps_onlyTx (processRecord_onlyTx L columnMap record st.tx)
      dsimp only at h
      rw [hreads]
      unfold readAll
      split at h
      · rename_i e hval
        simp only [BatchEnd.failed.injEq] at h
        obtain ⟨rfl, rfl, rfl⟩ := h
        simp [LoopState.storeView, storeOps_append, hev, storeOps_cons_read]
      · rename_i u hval
        have := ih _ _ _ _ _ h
        simp only [storeOps_append, hev, storeOps_read, List.append_nil] at this
        exact this

/-- A batch that ends without error leaves the plain loop where it stands: what remains
to be done is the same, the batch counted the lines it consumed, and it processed no
line only if none was allowed (`n = 0`) or the file had ended. -/
theorem runBatch_completed (L : StdLib) (columnMap : ColumnMap) :
    ∀ (n b : Nat) (st : LoopState) (b1 : Nat) (st1 : LoopState),
      runBatch L columnMap n b st = .completed b1 st1 →
      readAll L columnMap st.reads st.tx st.rowsProcessed (storeOps st.trace) =
          readAll L columnMap st1.reads st1.tx st1.rowsProcessed (storeOps st1.trace) ∧
        st1.reads.length + b1 = st.reads.length + b ∧ st1.reads.length ≤ st.reads.length ∧
        (b1 = b → (n = 0 ∧ st1.reads = st.reads) ∨ st1.reads = []) := by
  intro n
  induction n with
  | zero =>
    intro b st b1 st1 h
    simp only [runBatch, BatchEnd.completed.injEq] at h
    obtain ⟨rfl, rfl⟩ := h
    simp
  | succ n ih =>
    intro b st b1 st1 h
    unfold runBatch at h
    split at h
    · rename_i hreads
      simp only [BatchEnd.completed.injEq] at h
      obtain ⟨rfl, rfl⟩ := h
      simp [hreads, storeOps_append, storeOps_read]
    · simp at h
    · rename_i record rest hreads
      have hev := storeOps_onlyTx (processRecord_onlyTx L columnMap record st.tx)
      dsimp only at h
      split at h
      · simp at h
      · rename_i u hval
        obtain ⟨h1, h2, h3, h4⟩ := ih _ _ _ _ h
        simp only [storeOps_append, hev, storeOps_read, List.append_nil] at h1
        dsimp only at h2 h3
        refine ⟨?_, ?_, ?_, ?_⟩
        · rw [hreads]
          conv_lhs => unfold readAll
          simp only [hval]
          exact h1
        · rw [hreads]; simp only [List.length_cons]; omega
        · rw [hreads]; simp only [List.length_cons]; omega
        · intro hb
          omega

/-- The bound on the number of batches suffices: the outer loop ends, and it only adds
reads, statements on the transaction and progress lines to the trace. -/
theorem batchLoop_returns (L : StdLib) (columnMap : ColumnMap) (batchSize : Int) :
    ∀ (fuel batch : Nat) (st : LoopState), st.reads.length < fuel →
      ∃ e, batchLoop L columnMap batchSize fuel batch st = some e ∧
        ∃ added, e.state.trace = st.trace ++ added ∧ ∀ ev ∈ added, ev.isLoopEvent = true := by
  intro fuel
  induction fuel with
  | zero => intro batch st h; omega
  | succ fuel ih =>
    intro batch st hfuel
    unfold batchLoop
    obtain ⟨added, htr, hadded⟩ := runBatch_trace L columnMap batchSize.toNat 0 st
    cases hrun : runBatch L columnMap batchSize.toNat 0 st with
    | failed label cause st1 =>
      rw [hrun] at htr
      exact ⟨_, rfl, added, htr, hadded⟩
    | completed b1 st1 =>
      rw [hrun] at htr
      dsimp only
      split
      · exact ⟨_, rfl, added, htr, hadded⟩
      · rename_i hb
        obtain ⟨-, h2, h3, -⟩ := runBatch_completed L columnMap _ _ _ _ _ hrun
        obtain ⟨e, he, added2, htr2, hadded2⟩ := ih (batch + 1)
          { st1 with trace := st1.trace ++ [.progress (batch + 1) st1.rowsProcessed] }
          (by dsimp only; omega)
        refine ⟨e, he, added ++ [.progress (batch + 1) st1.rowsProcessed] ++ added2, ?_, ?_⟩
        · rw [htr2]
          simp only [BatchEnd.state] at htr
          rw [htr]
          simp
        · intro ev hev
          simp only [List.mem_append, List.mem_singleton] at hev
          rcases hev with (hev | hev) | hev
          · exact hadded ev hev
          · subst hev; rfl
          · exact hadded2 ev hev

/-- With a batch size of at least one the outer loop does what the plain loop does: the
same end, the same transaction, the same `rowsProcessed`, the same operations on the
database. -/
theorem batchLoop_refines (L : StdLib) (columnMap : ColumnMap) (batchSize : Int)
    (hb : 1 ≤ batchSize) :
    ∀ (fuel batch : Nat) (st : LoopState), st.reads.length < fuel →
      ∃ e, batchLoop L columnMap batchSize fuel batch st = some e ∧
        e.storeView = readAll L columnMap st.reads st.tx st.rowsProcessed (storeOps st.trace) := by
  intro fuel
  induction fuel with
  | zero => intro batch st h; omega
  | succ fuel ih =>
    intro batch st hfuel
    unfold batchLoop
    cases hrun : runBatch L columnMap batchSize.toNat 0 st with
    | failed label cause st1 =>
      exact ⟨_, rfl, (runBatch_failed L columnMap _ _ _ _ _ _ hrun).symm⟩
    | completed b1 st1 =>
      obtain ⟨h1, h2, h3, h4⟩ := runBatch_completed L columnMap _ _ _ _ _ hrun
      dsimp only
      split
      · rename_i hb1
        refine ⟨_, rfl, ?_⟩
        have hn : batchSize.toNat ≠ 0 := by omega
        rcases h4 hb1 with h | h
        · exact absurd h.1 hn
        · rw [h1, h]
          cases st1
          simp_all [LoopEnd.storeView, LoopState.storeView, readAll]
      · rename_i hb1
        obtain ⟨e, he, hview⟩ := ih (batch + 1)
          { st1 with trace := st1.trace ++ [.progress (batch + 1) st1.rowsProcessed] }
          (by dsimp only; omega)
        refine ⟨e, he, ?_⟩
        rw [hview, h1]
        simp [storeOps_append, storeOps_progress]

/-- With a batch size of zero or less the outer loop ends at once: nothing is read. -/
theorem batchLoop_nonpositive (L : StdLib) (columnMap : ColumnMap) (batchSize : Int)
    (hb : batchSize ≤ 0) (fuel batch : Nat) (st : LoopState) :
    batchLoop L columnMap batchSize (fuel + 1) batch st = some (.finished st) := by
  have h : batchSize.toNat = 0 := by omega
  simp [batchLoop, h, runBatch]

/-- The outer loop, for a batch size of at least one: it ends as the plain loop does and
adds only loop operations to the trace. -/
theorem batchLoop_spec (L : StdLib) (columnMap : ColumnMap) (batchSize : Int)
    (hb : 1 ≤ batchSize) (fuel batch : Nat) (st : LoopState) (hfuel : st.reads.length < fuel) :
    ∃ e, batchLoop L columnMap batchSize fuel batch st = some e ∧
      e.storeView = readAll L columnMap st.reads st.tx st.rowsProcessed (storeOps st.trace) ∧
      ∃ added, e.state.trace = st.trace ++ added ∧ ∀ ev ∈ added, ev.isLoopEvent = true := by
  obtain ⟨e, he, hview⟩ := batchLoop_refines L columnMap batchSize hb fuel batch st hfuel
  obtain ⟨e2, he2, hadded⟩ := batchLoop_returns L columnMap batchSize fuel batch st hfuel
  rw [he] at he2
  cases he2
  exact ⟨e, he, hview, hadded⟩

/-- The plain loop over records that are all handled: it goes on with what follows them. -/
theorem readAll_handled (L : StdLib) (columnMap : ColumnMap) (tail : List ReadResult) :
    ∀ (lines : List (List String)) (tx : Tx) (rows : Nat) (trace : List Event),
      handlesAll L columnMap lines tx = true →
      readAll L columnMap (lines.map .record ++ tail) tx rows trace =
        readAll L columnMap tail (txAfter L columnMap lines tx) (rows + lines.length)
          (trace ++ txEvents L columnMap lines tx) := by
  intro lines
  induction lines with
  | nil => intro tx rows trace _; simp [txAfter, txEvents]
  | cons record rest ih =>
    intro tx rows trace h
    simp only [handlesAll, Bool.and_eq_true] at h
    obtain ⟨h1, h2⟩ := h
    simp only [List.map_cons, List.cons_append]
    cases hval : (processRecord L columnMap record tx).val with
    | error e => simp [hval, errorOf] at h1
    | ok u =>
      conv_lhs => unfold readAll
      simp only [hval]
      rw [ih _ _ _ h2]
      simp [txAfter, txEvents, Nat.add_assoc, Nat.add_comm 1]

/-- The plain loop at a line that fails. -/
theorem readAll_failing (L : StdLib) (columnMap : ColumnMap) (bad : ReadResult)
    (rest : List ReadResult) (tx : Tx) (rows : Nat) (trace : List Event) (cause : String)
    (h : lineError L columnMap tx bad = some cause) :
    ∃ tx1, readAll L columnMap (bad :: rest) tx rows trace =
      .failed (lineLabel bad) cause ⟨rest, tx1, rows, trace ++ lineEvents L columnMap tx bad⟩ := by
  cases bad with
  | err e =>
    simp only [lineError, Option.some.injEq] at h
    subst h
    exact ⟨tx, by simp [readAll, lineLabel, lineEvents]⟩
  | record record =>
    simp only [lineError] at h
    refine ⟨(processRecord L columnMap record tx).tx, ?_⟩
    unfold readAll
    cases hval : (processRecord L columnMap record tx).val with
    | error e =>
      simp only [hval, errorOf, Option.some.injEq] at h
      subst h
      simp [lineLabel, lineEvents]
    | ok u => simp [hval, errorOf] at h

theorem CompleteDataRefresh_events (env : Env) (store : Store) (logID rows : Nat)
    (err : Option String) :
    (CompleteDataRefresh env store logID rows err).events =
      [.dbUpdateLog logID rows (if err.isSome then "FAILED" else "COMPLETED") err
        env.updateFault] := by
  unfold CompleteDataRefresh
  cases env.updateFault <;> rfl

theorem CompleteDataRefresh_tables (env : Env) (store : Store) (logID rows : Nat)
    (err : Option String) :
    (CompleteDataRefresh env store logID rows err).store.tables = store.tables := by
  unfold CompleteDataRefresh
  cases env.updateFault <;> rfl

theorem CompleteDataRefresh_result (env : Env) (store : Store) (logID rows : Nat)
    (err : Option String) :
    errorOf (CompleteDataRefresh env store logID rows err).val =
      env.updateFault.map fun e => "failed to update refresh log: " ++ e := by
  unfold CompleteDataRefresh
  cases env.updateFault <;> rfl

/-- After an UPDATE that succeeds, every audit row with the run's `log_id` carries the
status, row count, error text and end time of the call; there is such a row if there
was one before. -/
theorem CompleteDataRefresh_rows (env : Env) (store : Store) (logID rows : Nat)
    (err : Option String) (hupd : env.updateFault = none)
    (hrow : ∃ l ∈ store.logs, l.logID = logID) :
    logRows (CompleteDataRefresh env store logID rows err).store logID ≠ [] ∧
      ∀ l ∈ logRows (CompleteDataRefresh env store logID rows err).store logID,
        l.status = (if err.isSome then "FAILED" else "COMPLETED") ∧
          l.rowsProcessed = some rows ∧ l.errorMessage = err ∧
          l.endTime = some env.endTime := by
  unfold CompleteDataRefresh logRows
  simp only [hupd]
  constructor
  · obtain ⟨l, hl, hid⟩ := hrow
    intro hnil
    have hmem : ({ l with endTime := some env.endTime,
                          status := if err.isSome then "FAILED" else "COMPLETED",
                          rowsProcessed := some rows, errorMessage := err } : DataRefreshLog) ∈
        List.filter (fun l => decide (l.logID = logID))
          (store.logs.map fun l =>
            if l.logID = logID then
              { l with endTime := some env.endTime,
                       status := if err.isSome then "FAILED" else "COMPLETED",
                       rowsProcessed := some rows, errorMessage := err }
            else l) := by
      rw [List.mem_filter]
      refine ⟨List.mem_map.mpr ⟨l, hl, by simp [hid]⟩, by simpa using hid⟩
    rw [hnil] at hmem
    simp at hmem
  · intro l hl
    rw [List.mem_filter, List.mem_map] at hl
    obtain ⟨⟨l0, -, heq⟩, hid⟩ := hl
    by_cases h0 : l0.logID = logID
    · rw [if_pos h0] at heq
      subst heq
      simp
    · rw [if_neg h0] at heq
      subst heq
      simp at hid
      exact absurd hid h0

theorem failRun_trace (env : Env) (store : Store) (logID rows : Nat) (label cause : String)
    (trace : List Event) :
    (failRun env store logID rows label cause trace).trace =
      trace ++ [.dbUpdateLog logID rows "FAILED" (some cause) env.updateFault] := by
  simp [failRun, CompleteDataRefresh_events]

theorem failRun_result (env : Env) (store : Store) (logID rows : Nat) (label cause : String)
    (trace : List Event) :
    (failRun env store logID rows label cause trace).result = some (label ++ ": " ++ cause) := rfl

theorem failRun_tables (env : Env) (store : Store) (logID rows : Nat) (label cause : String)
    (trace : List Event) :
    (failRun env store logID rows label cause trace).store.tables = store.tables := by
  simp [failRun, CompleteDataRefresh_tables]

/-- When every `PrepareContext` succeeds, `prepareAll` issues them all. -/
theorem prepareAll_ok (env : Env) (h : ∀ p, env.prepareFault p = none) :
    ∀ ps, prepareAll env ps = (ps.map fun p => .prepare p none, none) := by
  intro ps
  induction ps with
  | nil => rfl
  | cons p ps ih => simp [prepareAll, h p, ih]

/-- The operations of `prepareAll` are `PrepareContext` calls. -/
theorem prepareAll_events (env : Env) :
    ∀ ps, ∀ e ∈ (prepareAll env ps).1, ∃ p err, e = .prepare p err := by
  intro ps
  induction ps with
  | nil => intro e he; simp [prepareAll] at he
  | cons p ps ih =>
    intro e he
    unfold prepareAll at he
    split at he
    · simp at he; exact ⟨_, _, he⟩
    · simp only [List.mem_cons] at he
      rcases he with he | he
      · exact ⟨_, _, he⟩
      · exact ih e he

/-- When the audit row is created, the file opens, its header is read, the transaction
begins and the statements prepare, the run is the read loop followed by `concludeRun`. -/
theorem RefreshData_loop (L : StdLib) (cfg : Config) (env : Env) (store : Store)
    (triggeredBy : String) (header : List String) (rest : List ReadResult)
    (hstart : env.startFault = none) (hopen : env.openFault = none)
    (hreads : env.reads = .record header :: rest) (hbegin : env.beginFault = none)
    (hprep : ∀ p, env.prepareFault p = none) :
    RefreshData L cfg env store triggeredBy =
      (batchLoop L (buildColumnMap header) cfg.RefreshBatchSize (rest.length + 1) 0
        ⟨rest, beginTx env store, 0, preamble triggeredBy header⟩).map
        (concludeRun env (startedStore env store triggeredBy) store.logSeq) := by
  unfold RefreshData StartDataRefresh
  simp only [hstart, hopen, hreads]
  unfold runTransaction
  simp only [hbegin, prepareAll_ok env hprep]
  rfl

theorem startedStore_row (env : Env) (store : Store) (triggeredBy : String) :
    ∃ l ∈ (startedStore env store triggeredBy).logs, l.logID = store.logSeq :=
  ⟨⟨store.logSeq, env.startTime, none, "STARTED", none, none, triggeredBy⟩,
    by simp [startedStore], rfl⟩

theorem preamble_no_update (triggeredBy : String) (header : List String) :
    (preamble triggeredBy header).filter Event.isLogUpdate = [] := by
  simp [preamble, preparedStatements, Event.isLogUpdate]

theorem filter_loopEvents_logUpdate {l : List Event} (h : ∀ e ∈ l, e.isLoopEvent = true) :
    l.filter Event.isLogUpdate = [] := by
  rw [List.filter_eq_nil_iff]
  intro e he
  have := h e he
  cases e <;> simp_all [Event.isLoopEvent, Event.isLogUpdate]

theorem not_mem_of_loopEvents {l : List Event} (h : ∀ e ∈ l, e.isLoopEvent = true) (e : Event)
    (he : e.isLoopEvent = false) : e ∉ l := by
  intro hmem
  rw [h e hmem] at he
  cases he

/-- A file of a header and data lines that are all handled, with a batch size of at
least one, on a run whose audit insert, `BeginTx`, `PrepareContext` calls and `Commit`
succeed: the transaction is committed and `CompleteDataRefresh` is called once, with the
number of lines and a nil error. -/
theorem RefreshData_all_handled (L : StdLib) (cfg : Config) (env : Env) (store : Store)
    (triggeredBy : String) (header : List String) (lines : List (List String))
    (hbatch : 1 ≤ cfg.RefreshBatchSize)
    (hstart : env.startFault = none) (hopen : env.openFault = none)
    (hreads : env.reads = .record header :: lines.map .record)
    (hbegin : env.beginFault = none) (hprep : ∀ p, env.prepareFault p = none)
    (hlines : handlesAll L (buildColumnMap header) lines (beginTx env store) = true)
    (hcommit : env.commitFault = none) :
    ∃ run, RefreshData L cfg env store triggeredBy = some run ∧
      Event.beginTx none ∈ run.trace ∧
      Event.commit none ∈ run.trace ∧ Event.rollback ∉ run.trace ∧
      run.trace.filter Event.isLogUpdate =
        [.dbUpdateLog store.logSeq lines.length "COMPLETED" none env.updateFault] ∧
      run.store.tables = (txAfter L (buildColumnMap header) lines (beginTx env store)).tables ∧
      (env.updateFault = none →
        run.result = none ∧ logRows run.store store.logSeq ≠ [] ∧
        ∀ l ∈ logRows run.store store.logSeq,
          l.status = "COMPLETED" ∧ l.rowsProcessed = some lines.length ∧
            l.errorMessage = none) := by
  rw [RefreshData_loop L cfg env store triggeredBy header _ hstart hopen hreads hbegin hprep]
  obtain ⟨e, he, hview, added, htrace, hadded⟩ :=
    batchLoop_spec L (buildColumnMap header) cfg.RefreshBatchSize hbatch
      ((lines.map ReadResult.record).length + 1) 0
      ⟨lines.map .record, beginTx env store, 0, preamble triggeredBy header⟩ (by simp)
  have hall := readAll_handled L (buildColumnMap header) [] lines (beginTx env store) 0
    (storeOps (preamble triggeredBy header)) hlines
  simp only [List.append_nil] at hall
  dsimp only at hview htrace
  rw [hall] at hview
  rw [he]
  refine ⟨_, rfl, ?_⟩
  cases e with
  | failed label cause st => simp [LoopEnd.storeView, readAll] at hview
  | finished st =>
    simp only [LoopEnd.storeView, readAll, LoopEnd.finished.injEq] at hview
    simp only [LoopEnd.state] at htrace
    have htx : st.tx = txAfter L (buildColumnMap header) lines (beginTx env store) := by
      have := congrArg LoopState.tx hview
      simpa [LoopState.storeView] using this
    have hrows : st.rowsProcessed = lines.length := by
      have := congrArg LoopState.rowsProcessed hview
      simpa [LoopState.storeView] using this
    simp only [concludeRun, hcommit, CompleteDataRefresh_events, CompleteDataRefresh_tables,
      CompleteDataRefresh_result, htrace, hrows, htx]
    refine ⟨by simp [preamble], by simp, ?_, ?_, trivial, ?_⟩
    · simp only [List.mem_append, not_or]
      refine ⟨⟨⟨?_, not_mem_of_loopEvents hadded _ rfl⟩, by simp⟩, by simp⟩
      simp [preamble, preparedStatements]
    · simp only [List.filter_append, preamble_no_update, filter_loopEvents_logUpdate hadded]
      simp [Event.isLogUpdate]
    · intro hupd
      refine ⟨by simp [hupd], ?_⟩
      have := CompleteDataRefresh_rows env
        { startedStore env store triggeredBy with
          tables := (txAfter L (buildColumnMap header) lines (beginTx env store)).tables,
          seqs := (txAfter L (buildColumnMap header) lines (beginTx env store)).seqs }
        store.logSeq lines.length none hupd (startedStore_row env store triggeredBy)
      exact ⟨this.1, fun l hl => ⟨(this.2 l hl).1, (this.2 l hl).2.1, (this.2 l hl).2.2.1⟩⟩

theorem filter_isTxExec_storeOps (l : List Event) :
    (storeOps l).filter Event.isTxExec = l.filter Event.isTxExec := by
  unfold storeOps
  rw [List.filter_filter]
  congr 1
  funext e
  cases e <;> rfl

theorem filter_isLogUpdate_storeOps (l : List Event) :
    (storeOps l).filter Event.isLogUpdate = l.filter Event.isLogUpdate := by
  unfold storeOps
  rw [List.filter_filter]
  congr 1
  funext e
  cases e <;> rfl

theorem txEvents_onlyTx (L : StdLib) (columnMap : ColumnMap) :
    ∀ (lines : List (List String)) (tx : Tx),
      ∀ e ∈ txEvents L columnMap lines tx, e.isTxExec = true := by
  intro lines
  induction lines with
  | nil => intro tx e he; simp [txEvents] at he
  | cons record rest ih =>
    intro tx e he
    simp only [txEvents, List.mem_append] at he
    rcases he with he | he
    · exact processRecord_onlyTx L columnMap record tx e he
    · exact ih _ e he

theorem lineEvents_onlyTx (L : StdLib) (columnMap : ColumnMap) (tx : Tx) (line : ReadResult) :
    ∀ e ∈ lineEvents L columnMap tx line, e.isTxExec = true := by
  cases line with
  | err e => intro e he; simp [lineEvents] at he
  | record record => exact processRecord_onlyTx L columnMap record tx

theorem filter_isTxExec_self {l : List Event} (h : ∀ e ∈ l, e.isTxExec = true) :
    l.filter Event.isTxExec = l := by
  rw [List.filter_eq_self]
  exact h

theorem preamble_no_txExec (triggeredBy : String) (header : List String) :
    (preamble triggeredBy header).filter Event.isTxExec = [] := by
  simp [preamble, preparedStatements, Event.isTxExec]

theorem not_commit_of_loopEvent {e : Event} (h : e.isLoopEvent = true) : e.isCommit = false := by
  cases e <;> simp_all [Event.isLoopEvent, Event.isCommit]

/-- The lines `good` are handled and the next line fails with `cause`, with a batch
size of at least one: the run rolls back, executes nothing for a later line, and calls
`CompleteDataRefresh` once, with the number of lines handled and the cause. -/
theorem RefreshData_failing_line (L : StdLib) (cfg : Config) (env : Env) (store : Store)
    (triggeredBy : String) (header : List String) (good : List (List String))
    (bad : ReadResult) (rest : List ReadResult) (cause : String)
    (hbatch : 1 ≤ cfg.RefreshBatchSize)
    (hstart : env.startFault = none) (hopen : env.openFault = none)
    (hreads : env.reads = .record header :: (good.map .record ++ bad :: rest))
    (hbegin : env.beginFault = none) (hprep : ∀ p, env.prepareFault p = none)
    (hgood : handlesAll L (buildColumnMap header) good (beginTx env store) = true)
    (hbad : lineError L (buildColumnMap header)
      (txAfter L (buildColumnMap header) good (beginTx env store)) bad = some cause) :
    ∃ run, RefreshData L cfg env store triggeredBy = some run ∧
      Event.beginTx none ∈ run.trace ∧
      Event.rollback ∈ run.trace ∧ (∀ e ∈ run.trace, e.isCommit = false) ∧
      run.trace.filter Event.isTxExec =
        txEvents L (buildColumnMap header) good (beginTx env store) ++
          lineEvents L (buildColumnMap header)
            (txAfter L (buildColumnMap header) good (beginTx env store)) bad ∧
      run.result = some (lineLabel bad ++ ": " ++ cause) ∧
      run.trace.filter Event.isLogUpdate =
        [.dbUpdateLog store.logSeq good.length "FAILED" (some cause) env.updateFault] ∧
      run.store.tables = store.tables ∧
      (env.updateFault = none →
        logRows run.store store.logSeq ≠ [] ∧
        ∀ l ∈ logRows run.store store.logSeq,
          l.status = "FAILED" ∧ l.rowsProcessed = some good.length ∧
            l.errorMessage = some cause) := by
  rw [RefreshData_loop L cfg env store triggeredBy header _ hstart hopen hreads hbegin hprep]
  obtain ⟨e, he, hview, added, htrace, hadded⟩ :=
    batchLoop_spec L (buildColumnMap header) cfg.RefreshBatchSize hbatch
      ((good.map ReadResult.record ++ bad :: rest).length + 1) 0
      ⟨good.map .record ++ bad :: rest, beginTx env store, 0, preamble triggeredBy header⟩
      (by simp)
  have hall := readAll_handled L (buildColumnMap header) (bad :: rest) good (beginTx env store) 0
    (storeOps (preamble triggeredBy header)) hgood
  obtain ⟨tx1, hfail⟩ := readAll_failing L (buildColumnMap header) bad rest
    (txAfter L (buildColumnMap header) good (beginTx env store)) (0 + good.length)
    (storeOps (preamble triggeredBy header) ++
      txEvents L (buildColumnMap header) good (beginTx env store)) cause hbad
  dsimp only at hview htrace
  rw [hall, hfail] at hview
  rw [he]
  refine ⟨_, rfl, ?_⟩
  cases e with
  | finished st => simp [LoopEnd.storeView] at hview
  | failed label cause1 st =>
    simp only [LoopEnd.storeView, LoopEnd.failed.injEq] at hview
    obtain ⟨hlabel, hcause, hst⟩ := hview
    subst hlabel hcause
    simp only [LoopEnd.state] at htrace
    have hrows : st.rowsProcessed = good.length := by
      have := congrArg LoopState.rowsProcessed hst
      simpa [LoopState.storeView] using this
    have hops : storeOps st.trace = storeOps (preamble triggeredBy header) ++
        txEvents L (buildColumnMap header) good (beginTx env store) ++
        lineEvents L (buildColumnMap header)
          (txAfter L (buildColumnMap header) good (beginTx env store)) bad := by
      have := congrArg LoopState.trace hst
      simpa [LoopState.storeView] using this
    simp only [concludeRun, failRun_trace, failRun_result, failRun_tables, hrows]
    refine ⟨by simp [htrace, preamble], by simp, ?_, ?_, trivial, ?_, rfl, ?_⟩
    · intro ev hev
      rw [htrace] at hev
      simp only [List.mem_append, List.mem_singleton] at hev
      rcases hev with ((hev | hev) | hev) | hev
      · simp only [preamble, preparedStatements, List.map_cons, List.map_nil, List.cons_append,
          List.nil_append, List.mem_cons, List.mem_singleton, List.not_mem_nil, or_false] at hev
        rcases hev with h | h | h | h | h | h | h | h | h | h <;> subst h <;> rfl
      · exact not_commit_of_loopEvent (hadded ev hev)
      · subst hev; rfl
      · subst hev; rfl
    · have h1 : (st.trace ++ [Event.rollback] ++
          [Event.dbUpdateLog store.logSeq good.length "FAILED" (some cause1) env.updateFault]).filter
            Event.isTxExec = st.trace.filter Event.isTxExec := by
        simp [List.filter_append, Event.isTxExec]
      rw [h1, ← filter_isTxExec_storeOps, hops]
      simp only [List.filter_append, filter_isTxExec_storeOps, preamble_no_txExec,
        List.nil_append]
      rw [filter_isTxExec_self (txEvents_onlyTx L _ good _),
        filter_isTxExec_self (lineEvents_onlyTx L _ _ bad)]
    · rw [htrace]
      simp only [List.filter_append, preamble_no_update, filter_loopEvents_logUpdate hadded]
      simp [Event.isLogUpdate]
    · intro hupd
      have := CompleteDataRefresh_rows env
        { startedStore env store triggeredBy with seqs := st.tx.seqs }
        store.logSeq good.length (some cause1) hupd (startedStore_row env store triggeredBy)
      exact ⟨this.1, fun l hl => ⟨(this.2 l hl).1, (this.2 l hl).2.1, (this.2 l hl).2.2.1⟩⟩

theorem isInTx_of_isLoopEvent {e : Event} (h : e.isLoopEvent = true) : e.isInTx = true := by
  cases e <;> simp_all [Event.isLoopEvent, Event.isInTx]

theorem failRun_facts (env : Env) (store : Store) (triggeredBy : String) (seqs : Sequences)
    (rows : Nat) (label cause : String) (trace : List Event) :
    RunFacts env store
      (failRun env { startedStore env store triggeredBy with seqs := seqs } store.logSeq rows
        label cause trace) rows (some cause) := by
  refine ⟨?_, by simp, ?_⟩
  · intro c hc
    cases hc
    exact ⟨by simp [failRun_tables, startedStore], label, rfl⟩
  · intro hupd
    have := CompleteDataRefresh_rows env
      { startedStore env store triggeredBy with seqs := seqs }
      store.logSeq rows (some cause) hupd (startedStore_row env store triggeredBy)
    exact ⟨this.1, fun l hl => ⟨(this.2 l hl).1, (this.2 l hl).2.1, (this.2 l hl).2.2.1⟩⟩

theorem concludeRun_facts (env : Env) (store : Store) (triggeredBy : String) (e : LoopEnd) :
    ∃ closing err, closing.isTxEnd = true ∧ (err = none ↔ closing = .commit none) ∧
      (concludeRun env (startedStore env store triggeredBy) store.logSeq e).trace =
        e.state.trace ++ [closing] ++
          [.dbUpdateLog store.logSeq e.state.rowsProcessed
            (if err.isSome then "FAILED" else "COMPLETED") err env.updateFault] ∧
      RunFacts env store
        (concludeRun env (startedStore env store triggeredBy) store.logSeq e)
        e.state.rowsProcessed err := by
  cases e with
  | failed label cause st =>
    exact ⟨.rollback, some cause, rfl, by simp,
      by simp [concludeRun, failRun_trace, LoopEnd.state],
      failRun_facts env store triggeredBy _ _ _ _ _⟩
  | finished st =>
    cases hc : env.commitFault with
    | some e =>
      refine ⟨.commit (some e), some e, rfl, by simp,
        by simp [concludeRun, hc, failRun_trace, LoopEnd.state], ?_⟩
      simp only [concludeRun, hc, LoopEnd.state]
      exact failRun_facts env store triggeredBy _ _ _ _ _
    | none =>
      refine ⟨.commit none, none, rfl, by simp,
        by simp [concludeRun, hc, CompleteDataRefresh_events, LoopEnd.state], ?_⟩
      simp only [concludeRun, hc, LoopEnd.state]
      refine ⟨by simp, fun _ => CompleteDataRefresh_result _ _ _ _ _, ?_⟩
      intro hupd
      have := CompleteDataRefresh_rows env
        { startedStore env store triggeredBy with tables := st.tx.tables, seqs := st.tx.seqs }
        store.logSeq st.rowsProcessed none hupd (startedStore_row env store triggeredBy)
      exact ⟨this.1, fun l hl => ⟨(this.2 l hl).1, (this.2 l hl).2.1, (this.2 l hl).2.2.1⟩⟩

/-- Every run returns.  One whose audit insert fails consists of that insert alone and
leaves the store as it was.  Every other run is the audit insert, a body of one of the
three shapes, and one audit update for the `log_id` the insert returned, with the error
`err` (nil exactly when the body holds a successful commit). -/
theorem RefreshData_anatomy (L : StdLib) (cfg : Config) (env : Env) (store : Store)
    (triggeredBy : String) :
    ∃ run, RefreshData L cfg env store triggeredBy = some run ∧
      ((∃ e, env.startFault = some e ∧ run.trace = [.dbInsertLog triggeredBy (some e)] ∧
          run.store = store ∧ run.result = some ("failed to create refresh log: " ++ e)) ∨
        (env.startFault = none ∧ ∃ body rows err, BodyShape body ∧
          run.trace = .dbInsertLog triggeredBy none :: body ++
            [.dbUpdateLog store.logSeq rows (if err.isSome then "FAILED" else "COMPLETED") err
              env.updateFault] ∧
          (err = none ↔ Event.commit none ∈ body) ∧
          RunFacts env store run rows err)) := by
  unfold RefreshData StartDataRefresh
  cases hstart : env.startFault with
  | some e => exact ⟨_, rfl, Or.inl ⟨e, rfl, rfl, rfl, rfl⟩⟩
  | none =>
    dsimp only
    have hfacts := fun rows label cause trace =>
      failRun_facts env store triggeredBy store.seqs rows label cause trace
    cases hopen : env.openFault with
    | some e =>
      refine ⟨_, rfl, Or.inr ⟨rfl, [.openFile (some e)], 0, some e, ?_, ?_, by simp,
        hfacts _ _ _ _⟩⟩
      · exact ⟨[.openFile (some e)], [], by simp, by simp [Event.isFileEvent], Or.inl rfl⟩
      · simp [failRun_trace]
    | none =>
      dsimp only
      cases hreads : env.reads with
      | nil =>
        refine ⟨_, rfl, Or.inr ⟨rfl, [.openFile none, .read none], 0, some "EOF", ?_, ?_,
          by simp, hfacts _ _ _ _⟩⟩
        · exact ⟨[.openFile none, .read none], [], by simp, by simp [Event.isFileEvent],
            Or.inl rfl⟩
        · simp [failRun_trace]
      | cons first rest =>
        cases first with
        | err e =>
          refine ⟨_, rfl, Or.inr ⟨rfl, [.openFile none, .read (some (.err e))], 0, some e,
            ?_, ?_, by simp, hfacts _ _ _ _⟩⟩
          · exact ⟨[.openFile none, .read (some (.err e))], [], by simp,
              by simp [Event.isFileEvent], Or.inl rfl⟩
          · simp [failRun_trace]
        | record header =>
          dsimp only
          unfold runTransaction
          cases hbegin : env.beginFault with
          | some e =>
            refine ⟨_, rfl, Or.inr ⟨rfl,
              [.openFile none, .read (some (.record header)), .beginTx (some e)], 0, some e,
              ?_, ?_, by simp, hfacts _ _ _ _⟩⟩
            · exact ⟨[.openFile none, .read (some (.record header))], [.beginTx (some e)],
                by simp, by simp [Event.isFileEvent], Or.inr (Or.inl ⟨e, rfl⟩)⟩
            · simp [failRun_trace]
          | none =>
            dsimp only
            have hprepEv := prepareAll_events env preparedStatements
            cases hprep : (prepareAll env preparedStatements).2 with
            | some ep =>
              obtain ⟨e, p⟩ := ep
              refine ⟨_, rfl, Or.inr ⟨rfl,
                [.openFile none, .read (some (.record header))] ++
                  (.beginTx none :: (prepareAll env preparedStatements).1 ++ [.rollback]),
                0, some e, ?_, ?_, ?_, hfacts _ _ _ _⟩⟩
              · refine ⟨[.openFile none, .read (some (.record header))], _, rfl,
                  by simp [Event.isFileEvent], Or.inr (Or.inr ⟨_, _, rfl, ?_, rfl⟩)⟩
                intro ev hev
                obtain ⟨p, err, rfl⟩ := hprepEv ev hev
                rfl
              · simp [failRun_trace]
              · have hnp : Event.commit none ∉ (prepareAll env preparedStatements).1 := by
                  intro h
                  obtain ⟨p, err, h2⟩ := hprepEv _ h
                  cases h2
                constructor
                · intro h; cases h
                · intro hmem
                  simp [hnp] at hmem
            | none =>
              dsimp only
              obtain ⟨e, he, added, htrace, hadded⟩ :=
                batchLoop_returns L (buildColumnMap header) cfg.RefreshBatchSize
                  (rest.length + 1) 0
                  ⟨rest, beginTx env (startedStore env store triggeredBy), 0,
                    [.dbInsertLog triggeredBy none] ++
                      [.openFile none, .read (some (.record header))] ++ [.beginTx none] ++
                      (prepareAll env preparedStatements).1⟩ (by simp)
              obtain ⟨closing, err, hclosing, hiff, hct, hrf⟩ :=
                concludeRun_facts env store triggeredBy e
              refine ⟨concludeRun env (startedStore env store triggeredBy) store.logSeq e,
                ?_, Or.inr ⟨rfl,
                [.openFile none, .read (some (.record header))] ++
                  (.beginTx none :: ((prepareAll env preparedStatements).1 ++ added) ++ [closing]),
                e.state.rowsProcessed, err, ?_, ?_, ?_, hrf⟩⟩
              · show Option.map _ (batchLoop _ _ _ _ _ _) = _
                rw [show (⟨rest, beginTx env
                      { store with
                        logs := store.logs ++
                          [⟨store.logSeq, env.startTime, none, "STARTED", none, none,
                            triggeredBy⟩],
                        logSeq := store.logSeq + 1 },
                    0,
                    [.dbInsertLog triggeredBy none] ++
                      [.openFile none, .read (some (.record header))] ++ [.beginTx none] ++
                      (prepareAll env preparedStatements).1⟩ : LoopState) =
                    ⟨rest, beginTx env (startedStore env store triggeredBy), 0,
                    [.dbInsertLog triggeredBy none] ++
                      [.openFile none, .read (some (.record header))] ++ [.beginTx none] ++
                      (prepareAll env preparedStatements).1⟩ from rfl, he]
                rfl
              · refine ⟨[.openFile none, .read (some (.record header))], _, rfl,
                  by simp [Event.isFileEvent], Or.inr (Or.inr ⟨_, _, rfl, ?_, hclosing⟩)⟩
                intro ev hev
                rw [List.mem_append] at hev
                rcases hev with hev | hev
                · obtain ⟨p, err, rfl⟩ := hprepEv ev hev
                  rfl
                · exact isInTx_of_isLoopEvent (hadded ev hev)
              · rw [hct, htrace]
                simp
              · have hnp : Event.commit none ∉ (prepareAll env preparedStatements).1 := by
                  intro h
                  obtain ⟨p, err, h2⟩ := hprepEv _ h
                  cases h2
                have hna : Event.commit none ∉ added := by
                  intro h
                  have := hadded _ h
                  simp [Event.isLoopEvent] at this
                rw [hiff]
                constructor
                · intro h; subst h; simp
                · intro hmem
                  simp [hnp, hna] at hmem
                  exact hmem.symm

theorem BodyShape.no_audit {body : List Event} (h : BodyShape body) :
    ∀ ev ∈ body, ev.isLogInsert = false ∧ ev.isLogUpdate = false := by
  obtain ⟨pre, rest, rfl, hpre, hrest⟩ := h
  intro ev hev
  rw [List.mem_append] at hev
  rcases hev with hev | hev
  · have := hpre ev hev
    cases ev <;> simp_all [Event.isFileEvent, Event.isLogInsert, Event.isLogUpdate]
  · rcases hrest with rfl | ⟨e, rfl⟩ | ⟨mid, closing, rfl, hmid, hclosing⟩
    · simp at hev
    · simp at hev; subst hev; exact ⟨rfl, rfl⟩
    · simp only [List.cons_append, List.mem_cons, List.mem_append, List.mem_singleton] at hev
      rcases hev with rfl | hev | hev
      · exact ⟨rfl, rfl⟩
      · have := hmid ev hev
        cases ev <;> simp_all [Event.isInTx, Event.isLogInsert, Event.isLogUpdate]
      · simp only [List.not_mem_nil, or_false] at hev
        subst hev
        cases ev <;> simp_all [Event.isTxEnd, Event.isLogInsert, Event.isLogUpdate]

theorem filter_eq_nil_of_false {p : Event → Bool} {l : List Event}
    (h : ∀ ev ∈ l, p ev = false) : l.filter p = [] := by
  rw [List.filter_eq_nil_iff]
  intro ev hev
  simp [h ev hev]

theorem BodyShape.begin_count {body : List Event} (h : BodyShape body) :
    (body.filter Event.isBeginTx).length ≤ 1 ∧
      ((∃ ev ∈ body, ev.isTxExec = true ∨ ∃ b r, ev = .progress b r) →
        (body.filter Event.isBeginTx).length = 1) := by
  obtain ⟨pre, rest, rfl, hpre, hrest⟩ := h
  have h1 : pre.filter Event.isBeginTx = [] := by
    apply filter_eq_nil_of_false
    intro ev hev
    have := hpre ev hev
    cases ev <;> simp_all [Event.isFileEvent, Event.isBeginTx]
  have hpre2 : ∀ ev ∈ pre, ¬ (ev.isTxExec = true ∨ ∃ b r, ev = Event.progress b r) := by
    intro ev hev
    have := hpre ev hev
    cases ev <;> simp_all [Event.isFileEvent, Event.isTxExec]
  rw [List.filter_append, h1, List.nil_append]
  rcases hrest with rfl | ⟨e, rfl⟩ | ⟨mid, closing, rfl, hmid, hclosing⟩
  · refine ⟨by simp, ?_⟩
    rintro ⟨ev, hev, hp⟩
    simp only [List.append_nil] at hev
    exact absurd hp (hpre2 ev hev)
  · refine ⟨by simp [Event.isBeginTx], fun _ => by simp [Event.isBeginTx]⟩
  · have h2 : mid.filter Event.isBeginTx = [] := by
      apply filter_eq_nil_of_false
      intro ev hev
      have := hmid ev hev
      cases ev <;> simp_all [Event.isInTx, Event.isBeginTx]
    have h3 : [closing].filter Event.isBeginTx = [] := by
      cases closing <;> simp_all [Event.isTxEnd, Event.isBeginTx]
    have : (Event.beginTx none :: mid ++ [closing]).filter Event.isBeginTx =
        [Event.beginTx none] := by
      rw [List.cons_append, List.filter_cons]
      simp only [Event.isBeginTx, if_true, List.filter_append, h2, h3, List.append_nil]
    rw [this]
    exact ⟨by simp, fun _ => by simp⟩

theorem BodyShape.transaction_ends {body : List Event} (h : BodyShape body)
    (hb : Event.beginTx none ∈ body) : ∃ c ∈ body, c.isTxEnd = true := by
  obtain ⟨pre, rest, rfl, hpre, hrest⟩ := h
  rcases hrest with rfl | ⟨e, rfl⟩ | ⟨mid, closing, rfl, hmid, hclosing⟩
  · rw [List.append_nil] at hb
    have := hpre _ hb
    simp [Event.isFileEvent] at this
  · simp only [List.mem_append, List.mem_singleton] at hb
    rcases hb with hb | hb
    · have := hpre _ hb
      simp [Event.isFileEvent] at this
    · cases hb
  · exact ⟨closing, by simp, hclosing⟩

theorem BodyShape.rolled_back {body : List Event} (h : BodyShape body)
    (hr : Event.rollback ∈ body) : Event.commit none ∉ body := by
  obtain ⟨pre, rest, rfl, hpre, hrest⟩ := h
  have hp : ∀ ev ∈ pre, ev ≠ Event.rollback ∧ ev ≠ Event.commit none := by
    intro ev hev
    have := hpre ev hev
    cases ev <;> simp_all [Event.isFileEvent]
  rcases hrest with rfl | ⟨e, rfl⟩ | ⟨mid, closing, rfl, hmid, hclosing⟩
  · rw [List.append_nil] at hr
    exact absurd rfl (hp _ hr).1
  · simp only [List.mem_append, List.mem_singleton] at hr
    rcases hr with hr | hr
    · exact absurd rfl (hp _ hr).1
    · cases hr
  · have hm : ∀ ev ∈ mid, ev ≠ Event.rollback ∧ ev ≠ Event.commit none := by
      intro ev hev
      have := hmid ev hev
      cases ev <;> simp_all [Event.isInTx]
    simp only [List.cons_append, List.mem_cons, List.mem_append, List.mem_singleton,
      List.not_mem_nil, or_false] at hr ⊢
    rcases hr with hr | hr | hr | hr
    · exact absurd rfl (hp _ hr).1
    · cases hr
    · exact absurd rfl (hm _ hr).1
    · subst hr
      rintro (h | h | h | h)
      · exact absurd rfl (hp _ h).2
      · cases h
      · exact absurd rfl (hm _ h).2
      · cases h

theorem storeOps_failRun (env : Env) (store : Store) (logID rows : Nat) (label cause : String)
    (trace : List Event) :
    storeOps (failRun env store logID rows label cause trace).trace =
      storeOps trace ++ [.dbUpdateLog logID rows "FAILED" (some cause) env.updateFault] := by
  rw [failRun_trace, storeOps_append]
  rfl

/-- Two ends of the read loop that agree on the transaction, on `rowsProcessed` and on
the operations on the database lead to runs with the same result, the same store and the
same operations on the database. -/
theorem concludeRun_view (env : Env) (store : Store) (logID : Nat) (e1 e2 : LoopEnd)
    (h : e1.storeView = e2.storeView) :
    (concludeRun env store logID e1).result = (concludeRun env store logID e2).result ∧
      (concludeRun env store logID e1).store = (concludeRun env store logID e2).store ∧
      storeOps (concludeRun env store logID e1).trace =
        storeOps (concludeRun env store logID e2).trace := by
  have hst : ∀ st1 st2 : LoopState, st1.storeView = st2.storeView →
      st1.tx = st2.tx ∧ st1.rowsProcessed = st2.rowsProcessed ∧
        storeOps st1.trace = storeOps st2.trace := by
    intro st1 st2 h
    have a := congrArg LoopState.tx h
    have b := congrArg LoopState.rowsProcessed h
    have c := congrArg LoopState.trace h
    exact ⟨a, b, c⟩
  cases e1 with
  | failed l1 c1 st1 =>
    cases e2 with
    | finished st2 => simp [LoopEnd.storeView] at h
    | failed l2 c2 st2 =>
      simp only [LoopEnd.storeView, LoopEnd.failed.injEq] at h
      obtain ⟨rfl, rfl, h⟩ := h
      obtain ⟨h1, h2, h3⟩ := hst _ _ h
      simp only [concludeRun, failRun_result, storeOps_failRun, storeOps_append, h1, h2, h3]
      simp [failRun, h1, h2]
  | finished st1 =>
    cases e2 with
    | failed l2 c2 st2 => simp [LoopEnd.storeView] at h
    | finished st2 =>
      simp only [LoopEnd.storeView, LoopEnd.finished.injEq] at h
      obtain ⟨h1, h2, h3⟩ := hst _ _ h
      cases hc : env.commitFault with
      | some e =>
        simp only [concludeRun, hc, failRun_result, storeOps_failRun, storeOps_append, h1, h2,
          h3]
        simp [failRun, h1, h2]
      | none =>
        simp only [concludeRun, hc, storeOps_append, h1, h2, h3]
        simp

theorem getColumnValue_missing (columnMap : ColumnMap) (record : List String) (c : String)
    (h : columnMissing columnMap record c = true) :
    ∃ e, getColumnValue columnMap record c = .error e ∧ IsMissingColumn e := by
  unfold columnMissing at h
  unfold getColumnValue
  cases hg : columnMap.get? c with
  | none => exact ⟨_, rfl, Or.inl ⟨c, rfl⟩⟩
  | some idx =>
    simp only [hg, decide_eq_true_eq] at h
    exact ⟨_, by simp [h], Or.inr rfl⟩

theorem getColumnValue_error (columnMap : ColumnMap) (record : List String) (c e : String)
    (h : getColumnValue columnMap record c = .error e) :
    IsMissingColumn e ∧ columnMissing columnMap record c = true := by
  unfold getColumnValue at h
  unfold columnMissing
  cases hg : columnMap.get? c with
  | none =>
    simp only [hg, Except.error.injEq] at h
    exact ⟨Or.inl ⟨c, h.symm⟩, rfl⟩
  | some idx =>
    simp only [hg] at h
    split at h
    · rename_i hi
      simp only [Except.error.injEq] at h
      exact ⟨Or.inr h.symm, by simpa using hi⟩
    · cases h

theorem Except.bind_ok' {α β : Type} {x : Except String α} {f : α → Except String β} {b : β}
    (h : (x >>= f) = .ok b) : ∃ a, x = .ok a ∧ f a = .ok b := by
  cases x with
  | error e => cases h
  | ok a => exact ⟨a, rfl, h⟩

theorem Except.bind_error' {α β : Type} {x : Except String α} {f : α → Except String β}
    {e : String} (h : (x >>= f) = .error e) :
    x = .error e ∨ ∃ a, x = .ok a ∧ f a = .error e := by
  cases x with
  | error e' => left; cases h; rfl
  | ok a => exact Or.inr ⟨a, rfl, h⟩

theorem wrapErr_error {α : Type} {label e : String} {r : Except String α}
    (h : wrapErr label r = .error e) : ∃ d, r = .error d ∧ e = label ++ ": " ++ d := by
  cases r with
  | ok a => cases h
  | error d => simp only [wrapErr, Except.error.injEq] at h; exact ⟨d, rfl, h.symm⟩

theorem wrapErr_ok {α : Type} {label : String} {r : Except String α} {a : α}
    (h : wrapErr label r = .ok a) : r = .ok a := by
  cases r with
  | ok a' => simpa [wrapErr] using h
  | error d => cases h

/-- A record that parses has all fifteen columns in range. -/
theorem parseRecord_ok_columns (L : StdLib) (columnMap : ColumnMap) (record : List String)
    (r : Record) (h : parseRecord L columnMap record = .ok r) :
    ∀ c ∈ requiredColumns, columnMissing columnMap record c = false := by
  unfold parseRecord at h
  obtain ⟨_, h1, h⟩ := Except.bind_ok' h
  obtain ⟨_, h2, h⟩ := Except.bind_ok' h
  obtain ⟨_, h3, h⟩ := Except.bind_ok' h
  obtain ⟨_, h4, h⟩ := Except.bind_ok' h
  obtain ⟨_, h5, h⟩ := Except.bind_ok' h
  obtain ⟨_, h6, h⟩ := Except.bind_ok' h
  obtain ⟨_, h7, h⟩ := Except.bind_ok' h
  obtain ⟨_, -, h⟩ := Except.bind_ok' h
  obtain ⟨_, h8, h⟩ := Except.bind_ok' h
  obtain ⟨_, -, h⟩ := Except.bind_ok' h
  obtain ⟨_, h9, h⟩ := Except.bind_ok' h
  obtain ⟨_, -, h⟩ := Except.bind_ok' h
  obtain ⟨_, h10, h⟩ := Except.bind_ok' h
  obtain ⟨_, -, h⟩ := Except.bind_ok' h
  obtain ⟨_, h11, h⟩ := Except.bind_ok' h
  obtain ⟨_, -, h⟩ := Except.bind_ok' h
  obtain ⟨_, h12, h⟩ := Except.bind_ok' h
  obtain ⟨_, h13, h⟩ := Except.bind_ok' h
  obtain ⟨_, h14, h⟩ := Except.bind_ok' h
  obtain ⟨_, h15, h⟩ := Except.bind_ok' h
  have key : ∀ c v, getColumnValue columnMap record c = .ok v →
      columnMissing columnMap record c = false := by
    intro c v hv
    cases hm : columnMissing columnMap record c with
    | false => rfl
    | true =>
      obtain ⟨e, he, -⟩ := getColumnValue_missing columnMap record c hm
      rw [he] at hv
      cases hv
  intro c hc
  simp only [requiredColumns, List.mem_cons, List.mem_singleton, List.not_mem_nil,
    or_false] at hc
  rcases hc with rfl | rfl | rfl | rfl | rfl | rfl | rfl | rfl | rfl | rfl | rfl | rfl | rfl |
    rfl | rfl
  · exact key _ _ h1
  · exact key _ _ h2
  · exact key _ _ h3
  · exact key _ _ h4
  · exact key _ _ h5
  · exact key _ _ h6
  · exact key _ _ h7
  · exact key _ _ h8
  · exact key _ _ h9
  · exact key _ _ h10
  · exact key _ _ h11
  · exact key _ _ h12
  · exact key _ _ h13
  · exact key _ _ h14
  · exact key _ _ h15

theorem not_missingColumn_of_label (label d : String) (h : label.data.head? = some 'i') :
    ¬ IsMissingColumn (label ++ d) := by
  rintro (⟨c, hc⟩ | hc)
  · have := congrArg (fun s => s.data.head?) hc
    simp only [String.data_append, List.head?_append] at this
    rw [h] at this
    simp at this
  · have := congrArg (fun s => s.data.head?) hc
    simp only [String.data_append, List.head?_append] at this
    rw [h] at this
    simp at this

set_option maxHeartbeats 1000000 in
/-- The error of `parseRecord` is that of the first step that fails, the fifteen columns
being taken in the order of the source. -/
theorem parseRecord_firstFailure (L : StdLib) (columnMap : ColumnMap) (record : List String) :
    errorOf (parseRecord L columnMap record) =
      firstFailure L columnMap record requiredColumns := by
  unfold parseRecord
  simp only [requiredColumns, firstFailure, bind, Except.bind, conversionError, String.reduceEq, reduceIte]
  cases h0 : getColumnValue columnMap record "Order ID" with
  | error e => simp [errorOf, wrapErr]
  | ok v0 =>
    try dsimp only
    cases h1 : getColumnValue columnMap record "Product ID" with
    | error e => simp [errorOf, wrapErr]
    | ok v1 =>
      try dsimp only
      cases h2 : getColumnValue columnMap record "Customer ID" with
      | error e => simp [errorOf, wrapErr]
      | ok v2 =>
        try dsimp only
        cases h3 : getColumnValue columnMap record "Product Name" with
        | error e => simp [errorOf, wrapErr]
        | ok v3 =>
          try dsimp only
          cases h4 : getColumnValue columnMap record "Category" with
          | error e => simp [errorOf, wrapErr]
          | ok v4 =>
            try dsimp only
            cases h5 : getColumnValue columnMap record "Region" with
            | error e => simp [errorOf, wrapErr]
            | ok v5 =>
              try dsimp only
              cases h6 : getColumnValue columnMap record "Date of Sale" with
              | error e => simp [errorOf, wrapErr]
              | ok v6 =>
                try dsimp only
                cases p6 : L.timeParse v6 with
                | error e => simp [errorOf, conversionError, wrapErr, p6]
                | ok w6 =>
                  try dsimp only
                  cases h7 : getColumnValue columnMap record "Quantity Sold" with
                  | error e => simp [errorOf, wrapErr]
                  | ok v7 =>
                    try dsimp only
                    cases p7 : L.atoi v7 with
                    | error e => simp [errorOf, conversionError, wrapErr, p7]
                    | ok w7 =>
                      try dsimp only
                      cases h8 : getColumnValue columnMap record "Unit Price" with
                      | error e => simp [errorOf, wrapErr]
                      | ok v8 =>
                        try dsimp only
                        cases p8 : L.parseFloat v8 with
                        | error e => simp [errorOf, conversionError, wrapErr, p8]
                        | ok w8 =>
                          try dsimp only
                          cases h9 : getColumnValue columnMap record "Discount" with
                          | error e => simp [errorOf, wrapErr]
                          | ok v9 =>
                            try dsimp only
                            cases p9 : L.parseFloat v9 with
                            | error e => simp [errorOf, conversionError, wrapErr, p9]
                            | ok w9 =>
                              try dsimp only
                              cases h10 : getColumnValue columnMap record "Shipping Cost" with
                              | error e => simp [errorOf, wrapErr]
                              | ok v10 =>
                                try dsimp only
                                cases p10 : L.parseFloat v10 with
                                | error e => simp [errorOf, conversionError, wrapErr, p10]
                                | ok w10 =>
                                  try dsimp only
                                  cases h11 : getColumnValue columnMap record "Payment Method" with
                                  | error e => simp [errorOf, wrapErr]
                                  | ok v11 =>
                                    try dsimp only
                                    cases h12 : getColumnValue columnMap record "Customer Name" with
                                    | error e => simp [errorOf, wrapErr]
                                    | ok v12 =>
                                      try dsimp only
                                      cases h13 : getColumnValue columnMap record "Customer Email" with
                                      | error e => simp [errorOf, wrapErr]
                                      | ok v13 =>
                                        try dsimp only
                                        cases h14 : getColumnValue columnMap record "Customer Address" with
                                        | error e => simp [errorOf, wrapErr]
                                        | ok v14 =>
                                          try dsimp only
                                          simp [errorOf, wrapErr, pure, Except.pure]

theorem errorOf_wrapErr {α : Type} (label : String) (r : Except String α) (e : String)
    (h : errorOf (wrapErr label r) = some e) : ∃ d, e = label ++ ": " ++ d := by
  cases r with
  | ok a => simp [wrapErr, errorOf] at h
  | error d => simp only [wrapErr, errorOf, Option.some.injEq] at h; exact ⟨d, h.symm⟩

/-- A conversion error is an invalid-format error, never a missing-column one. -/
theorem conversionError_kind (L : StdLib) (colName v e : String)
    (h : conversionError L colName v = some e) :
    IsInvalidFormat e ∧ ¬ IsMissingColumn e := by
  unfold conversionError at h
  split at h
  · obtain ⟨d, rfl⟩ := errorOf_wrapErr _ _ _ h
    exact ⟨⟨_, d, by simp, rfl⟩, by
      rw [String.append_assoc]; exact not_missingColumn_of_label _ _ rfl⟩
  split at h
  · obtain ⟨d, rfl⟩ := errorOf_wrapErr _ _ _ h
    exact ⟨⟨_, d, by simp, rfl⟩, by
      rw [String.append_assoc]; exact not_missingColumn_of_label _ _ rfl⟩
  split at h
  · obtain ⟨d, rfl⟩ := errorOf_wrapErr _ _ _ h
    exact ⟨⟨_, d, by simp, rfl⟩, by
      rw [String.append_assoc]; exact not_missingColumn_of_label _ _ rfl⟩
  split at h
  · obtain ⟨d, rfl⟩ := errorOf_wrapErr _ _ _ h
    exact ⟨⟨_, d, by simp, rfl⟩, by
      rw [String.append_assoc]; exact not_missingColumn_of_label _ _ rfl⟩
  split at h
  · obtain ⟨d, rfl⟩ := errorOf_wrapErr _ _ _ h
    exact ⟨⟨_, d, by simp, rfl⟩, by
      rw [String.append_assoc]; exact not_missingColumn_of_label _ _ rfl⟩
  · cases h

/-- Among columns of which one is missing, the first failure is a missing-column error
exactly when every column before the first missing one converts; otherwise it is an
invalid-format error. -/
theorem firstFailure_missing (L : StdLib) (columnMap : ColumnMap) (record : List String) :
    ∀ cols : List String, (∃ c ∈ cols, columnMissing columnMap record c = true) →
      ∃ e, firstFailure L columnMap record cols = some e ∧
        (IsMissingColumn e ↔
          ∀ c ∈ cols.takeWhile (fun c => !columnMissing columnMap record c), ∀ v,
            getColumnValue columnMap record c = .ok v → conversionError L c v = none) ∧
        (¬ IsMissingColumn e → IsInvalidFormat e) := by
  intro cols
  induction cols with
  | nil => rintro ⟨c, hc, -⟩; cases hc
  | cons c cs ih =>
    intro hex
    cases hm : columnMissing columnMap record c with
    | true =>
      obtain ⟨e, he, hk⟩ := getColumnValue_missing columnMap record c hm
      refine ⟨e, by simp [firstFailure, he], ?_, fun hn => absurd hk hn⟩
      simp [List.takeWhile, hm, hk]
    | false =>
      have hex' : ∃ c' ∈ cs, columnMissing columnMap record c' = true := by
        obtain ⟨c', hc', hm'⟩ := hex
        rcases List.mem_cons.1 hc' with rfl | hin
        · rw [hm] at hm'; cases hm'
        · exact ⟨c', hin, hm'⟩
      cases hg : getColumnValue columnMap record c with
      | error e =>
        have := (getColumnValue_error columnMap record c e hg).2
        rw [hm] at this; cases this
      | ok v =>
        cases hv : conversionError L c v with
        | some e =>
          obtain ⟨hinv, hnm⟩ := conversionError_kind L c v e hv
          refine ⟨e, by simp [firstFailure, hg, hv], ?_, fun _ => hinv⟩
          constructor
          · intro h; exact absurd h hnm
          · intro h
            have := h c (by simp [List.takeWhile, hm]) v hg
            rw [hv] at this; cases this
        | none =>
          obtain ⟨e, he, hiff, hinv⟩ := ih hex'
          refine ⟨e, by simp [firstFailure, hg, hv, he], ?_, hinv⟩
          rw [hiff]
          constructor
          · intro h c' hc' v' hv'
            simp only [List.takeWhile, hm, Bool.not_false, List.mem_cons] at hc'
            rcases hc' with rfl | hc'
            · rw [hg] at hv'; cases hv'; exact hv
            · exact h c' hc' v' hv'
          · intro h c' hc' v' hv'
            exact h c' (by simp only [List.takeWhile, hm, Bool.not_false, List.mem_cons]; exact Or.inr hc') v' hv'

/-- A row for which a required column is missing does not parse; the error is
MissingColumn exactly when every column extracted before the first missing one converts,
and InvalidFormat otherwise. -/
theorem parseRecord_missing (L : StdLib) (columnMap : ColumnMap) (record : List String)
    (h : ∃ c ∈ requiredColumns, columnMissing columnMap record c = true) :
    ∃ e, parseRecord L columnMap record = .error e ∧
      (IsMissingColumn e ∨ IsInvalidFormat e) ∧
      (IsMissingColumn e ↔
        ∀ c ∈ columnsBeforeMissing columnMap record, ∀ v,
          getColumnValue columnMap record c = .ok v → conversionError L c v = none) := by
  obtain ⟨e, he, hiff, hinv⟩ := firstFailure_missing L columnMap record requiredColumns h
  rw [← parseRecord_firstFailure] at he
  have hp : parseRecord L columnMap record = .error e := by
    cases hp : parseRecord L columnMap record with
    | ok r => rw [hp] at he; cases he
    | error e' => rw [hp] at he; simp only [errorOf, Option.some.injEq] at he; rw [he]
  refine ⟨e, hp, ?_, hiff⟩
  by_cases hk : IsMissingColumn e
  · exact Or.inl hk
  · exact Or.inr (hinv hk)

theorem ColumnMap.get?_set (m : ColumnMap) (k c : String) (v : Nat) :
    (m.set k v).get? c = if k = c then some v else m.get? c := by
  induction m with
  | nil => simp [ColumnMap.set, ColumnMap.get?]
  | cons kv rest ih =>
    obtain ⟨k', v'⟩ := kv
    unfold ColumnMap.set
    by_cases hk : k' = k
    · subst hk
      by_cases hc : k' = c <;> simp [ColumnMap.get?, hc]
    · simp only [hk, if_false]
      unfold ColumnMap.get?
      by_cases hc : k' = c
      · subst hc
        simp [Ne.symm hk]
      · simp [hc, ih]

theorem buildColumnMapFrom_get?_none (c : String) :
    ∀ (header : List String) (i : Nat) (m : ColumnMap), c ∉ header → m.get? c = none →
      (buildColumnMapFrom i header m).get? c = none := by
  intro header
  induction header with
  | nil => intro i m _ hm; exact hm
  | cons col rest ih =>
    intro i m hc hm
    simp only [List.mem_cons, not_or] at hc
    unfold buildColumnMapFrom
    apply ih _ _ hc.2
    rw [ColumnMap.get?_set, if_neg (Ne.symm hc.1)]
    exact hm

/-- A column the header does not name is missing from every row. -/
theorem columnMissing_of_not_mem (header : List String) (record : List String) (c : String)
    (h : c ∉ header) : columnMissing (buildColumnMap header) record c = true := by
  unfold columnMissing buildColumnMap
  rw [buildColumnMapFrom_get?_none c header 0 [] h rfl]

/-- A record that does not parse is refused before any statement: the transaction is as
it was and nothing was executed on it. -/
theorem processRecord_parse_error (L : StdLib) (columnMap : ColumnMap) (record : List String)
    (tx : Tx) (e : String) (h : parseRecord L columnMap record = .error e) :
    processRecord L columnMap record tx = ⟨.error e, tx, []⟩ := by
  unfold processRecord
  rw [h]

theorem TxM.bind_ok {α β : Type} {m : TxM α} {f : α → TxM β} {tx : Tx} {b : β}
    (h : ((m >>= f) tx).val = .ok b) :
    ∃ a, (m tx).val = .ok a ∧ (f a (m tx).tx).val = .ok b ∧
      ((m >>= f) tx).tx = (f a (m tx).tx).tx := by
  rw [TxM.bind_def] at h ⊢
  unfold TxM.bind at h ⊢
  rcases hm : m tx with ⟨v, tx1, ev⟩
  rw [hm] at h
  cases v with
  | error e => cases h
  | ok a => exact ⟨a, rfl, h, rfl⟩

theorem TxM.wrap_ok {α : Type} {label : String} {m : TxM α} {tx : Tx} {a : α}
    (h : (TxM.wrap label m tx).val = .ok a) :
    (m tx).val = .ok a ∧ (TxM.wrap label m tx).tx = (m tx).tx :=
  ⟨wrapErr_ok h, rfl⟩

theorem txStep_ok {α : Type} {stmt : TxStmt}
    {run : Tables → Sequences → α × Tables × Sequences} {tx : Tx} {a : α}
    (h : (txStep stmt run tx).val = .ok a) :
    a = (run tx.tables tx.seqs).1 ∧
      (txStep stmt run tx).tx =
        ⟨(run tx.tables tx.seqs).2.1, (run tx.tables tx.seqs).2.2, tx.faults.tail⟩ := by
  unfold txStep at h ⊢
  split at h
  · cases h
  · rename_i hf
    simp only [Except.ok.injEq] at h
    simp [hf, h]

/-- One wrapped statement that succeeds: its value and the transaction after it. -/
theorem wrapped_step_ok {α : Type} {label : String} {stmt : TxStmt}
    {run : Tables → Sequences → α × Tables × Sequences} {tx : Tx} {a : α}
    (h : (TxM.wrap label (txStep stmt run) tx).val = .ok a) :
    a = (run tx.tables tx.seqs).1 ∧
      (TxM.wrap label (txStep stmt run) tx).tx =
        ⟨(run tx.tables tx.seqs).2.1, (run tx.tables tx.seqs).2.2, tx.faults.tail⟩ := by
  obtain ⟨h1, h2⟩ := TxM.wrap_ok h
  obtain ⟨h3, h4⟩ := txStep_ok h1
  exact ⟨h3, h2.trans h4⟩

/-- A record whose statements all succeed leaves the tables and counters of `applyRecord`. -/
theorem storeRecord_ok (r : Record) (tx : Tx) (u : Unit)
    (h : (storeRecord r tx).val = .ok u) :
    ((storeRecord r tx).tx.tables, (storeRecord r tx).tx.seqs) =
      applyRecord r tx.tables tx.seqs := by
  unfold storeRecord resolveRegion resolvePaymentMethod upsertCustomer upsertProduct
    orderExists insertOrder insertOrderItem at h ⊢
  obtain ⟨regionID, h1, h, e1⟩ := TxM.bind_ok h
  rw [e1]
  obtain ⟨hr, t1⟩ := wrapped_step_ok h1
  rw [t1] at h ⊢
  obtain ⟨pmID, h2, h, e2⟩ := TxM.bind_ok h
  rw [e2]
  obtain ⟨hp, t2⟩ := wrapped_step_ok h2
  rw [t2] at h ⊢
  obtain ⟨_, h3, h, e3⟩ := TxM.bind_ok h
  rw [e3]
  obtain ⟨-, t3⟩ := wrapped_step_ok h3
  rw [t3] at h ⊢
  obtain ⟨_, h4, h, e4⟩ := TxM.bind_ok h
  rw [e4]
  obtain ⟨-, t4⟩ := wrapped_step_ok h4
  rw [t4] at h ⊢
  obtain ⟨ex, h5, h, e5⟩ := TxM.bind_ok h
  rw [e5]
  obtain ⟨hex, t5⟩ := wrapped_step_ok h5
  rw [t5] at h ⊢
  dsimp only at h ⊢
  subst hr hp hex
  unfold applyRecord
  dsimp only
  split at h
  · rename_i hc
    simp only [Bool.not_eq_true'] at hc
    simp only [hc, Bool.not_false, if_true, Bool.false_eq_true, if_false]
    obtain ⟨_, h6, h, e6⟩ := TxM.bind_ok h
    rw [e6]
    obtain ⟨-, t6⟩ := wrapped_step_ok h6
    rw [t6] at h ⊢
    obtain ⟨-, t7⟩ := wrapped_step_ok h
    rw [t7]
  · rename_i hc
    simp only [Bool.not_eq_true', Bool.not_eq_false] at hc
    simp only [hc, Bool.not_true, if_true, Bool.false_eq_true, if_false]
    obtain ⟨_, h6, h, e6⟩ := TxM.bind_ok h
    rw [e6]
    obtain ⟨-, t7⟩ := wrapped_step_ok h
    rw [t7]
    rfl

theorem lastWrite_cons {α : Type} (key : α → String) (u : α) (us : List α) (k : String) :
    lastWrite key (u :: us) k =
      match lastWrite key us k with
      | some c => some c
      | none => if key u = k then some u else none := rfl

theorem upsertRow_mem_key {α : Type} (key : α → String) (rows : List α) (u : α) : ∃ x ∈ upsertRow key rows u, key x = key u := by
  unfold upsertRow
  split
  · rename_i h
    simp only [List.any_eq_true, decide_eq_true_eq] at h
    obtain ⟨y, hy, hk⟩ := h
    exact ⟨u, List.mem_map.mpr ⟨y, hy, by simp [hk]⟩, rfl⟩
  · exact ⟨u, by simp, rfl⟩

theorem upsertRow_keeps_keys {α : Type} (key : α → String) (rows : List α) (u : α) (k : String)
    (h : ∃ x ∈ rows, key x = k) : ∃ x ∈ upsertRow key rows u, key x = k := by
  obtain ⟨x, hx, hk⟩ := h
  unfold upsertRow
  split
  · by_cases hxu : key x = key u
    · exact ⟨u, List.mem_map.mpr ⟨x, hx, by simp [hxu]⟩, hxu.symm.trans hk⟩
    · exact ⟨x, List.mem_map.mpr ⟨x, hx, by simp [hxu]⟩, hk⟩
  · exact ⟨x, by simp [hx], hk⟩

theorem upsertRow_same_key {α : Type} (key : α → String) (rows : List α) (u x : α) (hx : x ∈ upsertRow key rows u)
    (hk : key x = key u) : x = u := by
  unfold upsertRow at hx
  split at hx
  · rw [List.mem_map] at hx
    obtain ⟨y, -, hy⟩ := hx
    split at hy
    · exact hy.symm
    · rename_i hne
      subst hy
      exact absurd hk hne
  · rename_i hany
    simp only [List.mem_append, List.mem_singleton] at hx
    rcases hx with hx | hx
    · exfalso
      apply hany
      simp only [List.any_eq_true, decide_eq_true_eq]
      exact ⟨x, hx, hk⟩
    · exact hx

theorem upsertRow_other_key {α : Type} (key : α → String) (rows : List α) (u x : α) (hx : x ∈ upsertRow key rows u)
    (hk : key x ≠ key u) : x ∈ rows := by
  unfold upsertRow at hx
  split at hx
  · rw [List.mem_map] at hx
    obtain ⟨y, hy, hyx⟩ := hx
    split at hyx
    · subst hyx; exact absurd rfl hk
    · subst hyx; exact hy
  · simp only [List.mem_append, List.mem_singleton] at hx
    rcases hx with hx | hx
    · exact hx
    · subst hx; exact absurd rfl hk

theorem lastWrite_none {α : Type} (key : α → String) (us : List α) (k : String) (h : lastWrite key us k = none) :
    ∀ u ∈ us, key u ≠ k := by
  induction us with
  | nil => intro u hu; cases hu
  | cons u us ih =>
    unfold lastWrite at h
    cases hl : lastWrite key us k with
    | some c' => rw [hl] at h; cases h
    | none =>
      rw [hl] at h
      simp only at h
      intro v hv
      rcases List.mem_cons.mp hv with rfl | hv
      · intro hk
        rw [if_pos hk] at h
        cases h
      · exact ih hl v hv

theorem foldl_upsertRow_keeps_keys {α : Type} (key : α → String) (us : List α) :
    ∀ (rows : List α) (k : String), (∃ x ∈ rows, key x = k) →
      ∃ x ∈ us.foldl (upsertRow key) rows, key x = k := by
  induction us with
  | nil => intro rows k h; exact h
  | cons u us ih =>
    intro rows k h
    exact ih _ k (upsertRow_keeps_keys key rows u k h)

theorem foldl_upsertRow_other_key {α : Type} (key : α → String) (us : List α) :
    ∀ (rows : List α) (k : String), (∀ u ∈ us, key u ≠ k) →
      ∀ x ∈ us.foldl (upsertRow key) rows, key x = k → x ∈ rows := by
  induction us with
  | nil => intro rows k _ x hx _; exact hx
  | cons u us ih =>
    intro rows k hk x hx hkx
    have h1 := ih (upsertRow key rows u) k (fun v hv => hk v (List.mem_cons_of_mem _ hv)) x hx hkx
    exact upsertRow_other_key key rows u x h1
      (by rw [hkx]; exact (hk u (List.mem_cons_self _ _)).symm)

/-- After the upserts `us`, every key written is present and every row with a written
key is the last row written for it. -/
theorem foldl_upsertRow_settled {α : Type} (key : α → String) (us : List α) :
    ∀ rows : List α,
      (∀ u ∈ us, ∃ x ∈ us.foldl (upsertRow key) rows, key x = key u) ∧
      ∀ x ∈ us.foldl (upsertRow key) rows, ∀ c, lastWrite key us (key x) = some c → x = c := by
  induction us with
  | nil =>
    intro rows
    refine ⟨fun u hu => ?_, fun x _ c h => ?_⟩
    · cases hu
    · cases h
  | cons u us ih =>
    intro rows
    obtain ⟨ih1, ih2⟩ := ih (upsertRow key rows u)
    constructor
    · intro v hv
      rcases List.mem_cons.mp hv with rfl | hv
      · exact foldl_upsertRow_keeps_keys key us _ _ (upsertRow_mem_key key rows v)
      · exact ih1 v hv
    · intro x hx c hc
      simp only [List.foldl_cons] at hx
      rw [lastWrite_cons] at hc
      cases hl : lastWrite key us (key x) with
      | some c' =>
        rw [hl] at hc
        simp only [Option.some.injEq] at hc
        subst hc
        exact ih2 x hx _ hl
      | none =>
        rw [hl] at hc
        simp only at hc
        split at hc
        · rename_i hk
          simp only [Option.some.injEq] at hc
          subst hc
          have hx1 := foldl_upsertRow_other_key key us (upsertRow key rows u) (key x)
            (lastWrite_none key us (key x) hl) x hx rfl
          exact upsertRow_same_key key rows u x hx1 hk.symm
        · cases hc

/-- Upserts whose keys are all present only rewrite rows: each row becomes the last row
written for its key, if any. -/
theorem foldl_upsertRow_present {α : Type} (key : α → String) (us : List α) :
    ∀ rows : List α, (∀ u ∈ us, ∃ x ∈ rows, key x = key u) →
      us.foldl (upsertRow key) rows =
        rows.map fun x => (lastWrite key us (key x)).getD x := by
  induction us with
  | nil => intro rows _; simp [lastWrite]
  | cons u us ih =>
    intro rows h
    have hu : rows.any (fun y => key y = key u) = true := by
      obtain ⟨x, hx, hk⟩ := h u (List.mem_cons_self _ _)
      simp only [List.any_eq_true, decide_eq_true_eq]
      exact ⟨x, hx, hk⟩
    have hup : upsertRow key rows u = rows.map (fun y => if key y = key u then u else y) := by
      unfold upsertRow
      rw [if_pos hu]
    simp only [List.foldl_cons]
    rw [ih (upsertRow key rows u)
      (fun v hv => upsertRow_keeps_keys key rows u _ (h v (List.mem_cons_of_mem _ hv)))]
    rw [hup, List.map_map]
    apply List.map_congr_left
    intro x _
    simp only [Function.comp]
    by_cases hk : key x = key u
    · simp only [hk, if_true]
      rw [lastWrite_cons]
      cases hl : lastWrite key us (key u) with
      | some c => simp
      | none => simp
    · simp only [hk, if_false]
      rw [lastWrite_cons]
      cases hl : lastWrite key us (key x) with
      | some c => simp
      | none => simp [Ne.symm hk]

/-- Applying the same upserts a second time changes nothing. -/
theorem foldl_upsertRow_idempotent {α : Type} (key : α → String) (us rows : List α) :
    us.foldl (upsertRow key) (us.foldl (upsertRow key) rows) = us.foldl (upsertRow key) rows := by
  obtain ⟨h1, h2⟩ := foldl_upsertRow_settled key us rows
  rw [foldl_upsertRow_present key us _ h1]
  conv_rhs => rw [← List.map_id (us.foldl (upsertRow key) rows)]
  apply List.map_congr_left
  intro x hx
  cases hl : lastWrite key us (key x) with
  | none => rfl
  | some c => simp [h2 x hx c hl]

theorem Tables.resolveRegion_frame (t : Tables) (s : Sequences) (name : String) :
    (t.resolveRegion s name).2.1.customers = t.customers ∧
    (t.resolveRegion s name).2.1.products = t.products ∧
    (t.resolveRegion s name).2.1.orders = t.orders ∧
    (t.resolveRegion s name).2.1.orderItems = t.orderItems ∧
    (t.resolveRegion s name).2.2.orderItem = s.orderItem := by
  unfold Tables.resolveRegion
  split <;> simp

theorem Tables.resolvePaymentMethod_frame (t : Tables) (s : Sequences) (name : String) :
    (t.resolvePaymentMethod s name).2.1.customers = t.customers ∧
    (t.resolvePaymentMethod s name).2.1.products = t.products ∧
    (t.resolvePaymentMethod s name).2.1.orders = t.orders ∧
    (t.resolvePaymentMethod s name).2.1.orderItems = t.orderItems ∧
    (t.resolvePaymentMethod s name).2.2.orderItem = s.orderItem := by
  unfold Tables.resolvePaymentMethod
  split <;> simp

theorem applyRecord_customers (r : Record) (t : Tables) (s : Sequences) :
    (applyRecord r t s).1.customers = upsertRow Customer.customerID t.customers r.customer := by
  have h1 := (t.resolveRegion_frame s r.region).1
  have h2 := ((t.resolveRegion s r.region).2.1.resolvePaymentMethod_frame
    (t.resolveRegion s r.region).2.2 r.paymentMethod).1
  unfold applyRecord
  dsimp only
  split <;>
    simp [Tables.insertOrderItem, Tables.insertOrder, Tables.upsertProduct,
      Tables.upsertCustomer, h1, h2, Record.customer]
  split <;> simp [h1, h2]

theorem applyRecord_products (r : Record) (t : Tables) (s : Sequences) :
    (applyRecord r t s).1.products = upsertRow Product.productID t.products r.product := by
  have h1 := (t.resolveRegion_frame s r.region).2.1
  have h2 := ((t.resolveRegion s r.region).2.1.resolvePaymentMethod_frame
    (t.resolveRegion s r.region).2.2 r.paymentMethod).2.1
  unfold applyRecord
  dsimp only
  split <;>
    simp [Tables.insertOrderItem, Tables.insertOrder, Tables.upsertProduct,
      Tables.upsertCustomer, h1, h2, Record.product]
  split <;> simp [h1, h2]

theorem applyRecord_orders (r : Record) (t : Tables) (s : Sequences) :
    (applyRecord r t s).1.orders =
      if t.hasOrder r.orderID then t.orders else t.orders ++ [r.order t s] := by
  have h1 := (t.resolveRegion_frame s r.region).2.2.1
  have h2 := ((t.resolveRegion s r.region).2.1.resolvePaymentMethod_frame
    (t.resolveRegion s r.region).2.2 r.paymentMethod).2.2.1
  unfold applyRecord
  dsimp only
  have hh : Tables.hasOrder ((((t.resolveRegion s r.region).2.1.resolvePaymentMethod
      (t.resolveRegion s r.region).2.2 r.paymentMethod).2.1.upsertCustomer
        ⟨r.customerID, r.customerName, r.customerEmail, r.customerAddress⟩).upsertProduct
          ⟨r.productID, r.productName, r.category⟩) r.orderID =
      t.hasOrder r.orderID := by
    simp [Tables.hasOrder, Tables.upsertProduct, Tables.upsertCustomer, h1, h2]
  simp only [hh]
  cases ho : t.hasOrder r.orderID with
  | true =>
    simp [Tables.insertOrderItem, Tables.upsertProduct, Tables.upsertCustomer, h1, h2]
  | false =>
    have hn : ¬ ∃ x ∈ t.orders, x.orderID = r.orderID := by
      simpa [Tables.hasOrder] using ho
    simp [Tables.insertOrderItem, Tables.insertOrder, Tables.hasOrder, Tables.upsertProduct,
      Tables.upsertCustomer, h1, h2, Record.order, hn]

theorem applyRecord_orderItems (r : Record) (t : Tables) (s : Sequences) :
    (applyRecord r t s).1.orderItems =
      t.orderItems ++
        [⟨s.orderItem, r.orderID, r.productID, r.quantitySold, r.unitPrice, r.discount⟩] ∧
    (applyRecord r t s).2.orderItem = s.orderItem + 1 := by
  have h1 := (t.resolveRegion_frame s r.region).2.2.2
  have h2 := ((t.resolveRegion s r.region).2.1.resolvePaymentMethod_frame
    (t.resolveRegion s r.region).2.2 r.paymentMethod).2.2.2
  unfold applyRecord
  dsimp only
  split <;>
    simp [Tables.insertOrderItem, Tables.insertOrder, Tables.upsertProduct,
      Tables.upsertCustomer, h1, h2]
  split <;> simp [h1, h2]

/-- A record that is handled parses, and leaves the tables and counters of `applyRecord`. -/
theorem processRecord_ok (L : StdLib) (columnMap : ColumnMap) (record : List String)
    (tx : Tx) (h : (errorOf (processRecord L columnMap record tx).val).isNone = true) :
    ∃ r, parseRecord L columnMap record = .ok r ∧
      ((processRecord L columnMap record tx).tx.tables,
        (processRecord L columnMap record tx).tx.seqs) = applyRecord r tx.tables tx.seqs := by
  unfold processRecord at h ⊢
  cases hp : parseRecord L columnMap record with
  | error e => simp [hp, errorOf] at h
  | ok r =>
    simp only [hp] at h ⊢
    refine ⟨r, rfl, ?_⟩
    cases hv : (storeRecord r tx).val with
    | error e => simp [hv, errorOf] at h
    | ok u => exact storeRecord_ok r tx u hv

/-- Lines that are all handled all parse, and leave the tables of `applyRecords`. -/
theorem txAfter_handled (L : StdLib) (columnMap : ColumnMap) :
    ∀ (lines : List (List String)) (tx : Tx), handlesAll L columnMap lines tx = true →
      (parsedRecords L columnMap lines).length = lines.length ∧
      ((txAfter L columnMap lines tx).tables, (txAfter L columnMap lines tx).seqs) =
        applyRecords (parsedRecords L columnMap lines) (tx.tables, tx.seqs) := by
  intro lines
  induction lines with
  | nil => intro tx _; exact ⟨rfl, rfl⟩
  | cons line rest ih =>
    intro tx h
    simp only [handlesAll, Bool.and_eq_true] at h
    obtain ⟨r, hp, hr⟩ := processRecord_ok L columnMap line tx h.1
    obtain ⟨ih1, ih2⟩ := ih _ h.2
    have hpr : parsedRecords L columnMap (line :: rest) = r :: parsedRecords L columnMap rest := by
      simp [parsedRecords, hp, Except.toOption]
    rw [hpr]
    refine ⟨by simp [ih1], ?_⟩
    simp only [txAfter, applyRecords, List.foldl_cons]
    rw [ih2, hr]
    rfl

theorem applyRecords_customers (rs : List Record) :
    ∀ ts : Tables × Sequences,
      (applyRecords rs ts).1.customers =
        (rs.map Record.customer).foldl (upsertRow Customer.customerID) ts.1.customers := by
  induction rs with
  | nil => intro ts; rfl
  | cons r rs ih =>
    intro ts
    simp only [applyRecords, List.foldl_cons, List.map_cons] at ih ⊢
    rw [ih, applyRecord_customers]

theorem applyRecords_products (rs : List Record) :
    ∀ ts : Tables × Sequences,
      (applyRecords rs ts).1.products =
        (rs.map Record.product).foldl (upsertRow Product.productID) ts.1.products := by
  induction rs with
  | nil => intro ts; rfl
  | cons r rs ih =>
    intro ts
    simp only [applyRecords, List.foldl_cons, List.map_cons] at ih ⊢
    rw [ih, applyRecord_products]

theorem applyRecords_orderItems_length (rs : List Record) :
    ∀ ts : Tables × Sequences,
      (applyRecords rs ts).1.orderItems.length = ts.1.orderItems.length + rs.length := by
  induction rs with
  | nil => intro ts; rfl
  | cons r rs ih =>
    intro ts
    simp only [applyRecords, List.foldl_cons] at ih ⊢
    rw [ih, (applyRecord_orderItems r ts.1 ts.2).1]
    simp
    omega

theorem applyRecord_hasOrder (r : Record) (t : Tables) (s : Sequences) (orderID : String) :
    (applyRecord r t s).1.hasOrder orderID =
      (t.hasOrder orderID || decide (r.orderID = orderID)) := by
  have h := applyRecord_orders r t s
  unfold Tables.hasOrder at h ⊢
  rw [h]
  split
  · rename_i ho
    by_cases hk : r.orderID = orderID
    · subst hk; simp [ho]
    · simp [hk]
  · simp [Record.order]

/-- Records whose orders all exist leave the order headers untouched. -/
theorem applyRecords_orders_present (rs : List Record) :
    ∀ ts : Tables × Sequences, (∀ r ∈ rs, ts.1.hasOrder r.orderID = true) →
      (applyRecords rs ts).1.orders = ts.1.orders := by
  induction rs with
  | nil => intro ts _; rfl
  | cons r rs ih =>
    intro ts h
    have hr := h r (List.mem_cons_self _ _)
    have ho : (applyRecord r ts.1 ts.2).1.orders = ts.1.orders := by
      rw [applyRecord_orders, if_pos hr]
    simp only [applyRecords, List.foldl_cons] at ih ⊢
    rw [ih]
    · exact ho
    · intro r' hr'
      unfold Tables.hasOrder
      rw [ho]
      exact h r' (List.mem_cons_of_mem _ hr')

/-- After records have been applied, the order of each of them exists, and so does every
order that existed before. -/
theorem applyRecords_hasOrder (rs : List Record) :
    ∀ (ts : Tables × Sequences) (orderID : String),
      (ts.1.hasOrder orderID = true ∨ ∃ r ∈ rs, r.orderID = orderID) →
      (applyRecords rs ts).1.hasOrder orderID = true := by
  induction rs with
  | nil =>
    intro ts orderID h
    rcases h with h | ⟨r, hr, -⟩
    · exact h
    · cases hr
  | cons r rs ih =>
    intro ts orderID h
    simp only [applyRecords, List.foldl_cons] at ih ⊢
    apply ih
    rw [applyRecord_hasOrder]
    rcases h with h | ⟨r', hr', hk⟩
    · left; simp [h]
    · rcases List.mem_cons.mp hr' with rfl | hr'
      · left; simp [hk]
      · right; exact ⟨r', hr', hk⟩

theorem Tables.hasOrder_iff_count (t : Tables) (orderID : String) :
    t.hasOrder orderID = true ↔ 0 < t.orderCount orderID := by
  unfold Tables.hasOrder Tables.orderCount
  rw [List.length_pos, ne_eq, List.filter_eq_nil_iff]
  simp

theorem applyRecord_orderCount (r : Record) (t : Tables) (s : Sequences) (orderID : String) :
    (applyRecord r t s).1.orderCount orderID =
      t.orderCount orderID +
        (if t.hasOrder r.orderID = false ∧ r.orderID = orderID then 1 else 0) := by
  unfold Tables.orderCount
  rw [applyRecord_orders]
  cases ho : t.hasOrder r.orderID with
  | true => simp
  | false =>
    by_cases hk : r.orderID = orderID
    · simp [List.filter_append, Record.order, hk]
    · simp [List.filter_append, Record.order, hk]

theorem applyRecord_orderCount_le (r : Record) (t : Tables) (s : Sequences) (orderID : String)
    (h : t.orderCount orderID ≤ 1) : (applyRecord r t s).1.orderCount orderID ≤ 1 := by
  rw [applyRecord_orderCount]
  split
  · rename_i hc
    obtain ⟨h1, h2⟩ := hc
    subst h2
    have : ¬ 0 < t.orderCount r.orderID := by
      rw [← Tables.hasOrder_iff_count, h1]
      simp
    omega
  · omega

theorem applyRecords_orderCount_le (rs : List Record) (orderID : String) :
    ∀ ts : Tables × Sequences, ts.1.orderCount orderID ≤ 1 →
      (applyRecords rs ts).1.orderCount orderID ≤ 1 := by
  induction rs with
  | nil => intro ts h; exact h
  | cons r rs ih =>
    intro ts h
    simp only [applyRecords, List.foldl_cons] at ih ⊢
    exact ih _ (applyRecord_orderCount_le r ts.1 ts.2 orderID h)

/-- After the records have been applied there is exactly one header for the order of
each of them, if there was at most one before. -/
theorem applyRecords_orderCount_one (rs : List Record) (orderID : String)
    (ts : Tables × Sequences) (h : ts.1.orderCount orderID ≤ 1)
    (hr : ∃ r ∈ rs, r.orderID = orderID) : (applyRecords rs ts).1.orderCount orderID = 1 := by
  have h1 := applyRecords_orderCount_le rs orderID ts h
  have h2 := (Tables.hasOrder_iff_count _ _).mp
    (applyRecords_hasOrder rs ts orderID (Or.inr hr))
  omega

theorem readAll_finished (L : StdLib) (columnMap : ColumnMap) :
    ∀ (reads : List ReadResult) (tx : Tx) (rows : Nat) (trace : List Event) (st : LoopState),
      readAll L columnMap reads tx rows trace = .finished st →
      ∃ lines, reads = lines.map .record ∧ handlesAll L columnMap lines tx = true ∧
        st.tx = txAfter L columnMap lines tx ∧ st.rowsProcessed = rows + lines.length := by
  intro reads
  induction reads with
  | nil =>
    intro tx rows trace st h
    simp only [readAll, LoopEnd.finished.injEq] at h
    subst h
    exact ⟨[], rfl, rfl, rfl, rfl⟩
  | cons first rest ih =>
    intro tx rows trace st h
    cases first with
    | err e => simp [readAll] at h
    | record record =>
      unfold readAll at h
      cases hv : (processRecord L columnMap record tx).val with
      | error e => simp [hv] at h
      | ok u =>
        simp only [hv] at h
        obtain ⟨lines, h1, h2, h3, h4⟩ := ih _ _ _ _ h
        refine ⟨record :: lines, by simp [h1], ?_, ?_, ?_⟩
        · simp [handlesAll, hv, errorOf, h2]
        · simp [txAfter, h3]
        · simp [h4]; omega

/-- A run that returns nil read a header and, with a batch size of at least one, data
lines that were all handled; its tables are those of the transaction after them.  With a
batch size of zero or less its tables are those from before. -/
theorem RefreshData_returns_nil (L : StdLib) (cfg : Config) (env : Env) (store : Store)
    (triggeredBy : String) (run : Run)
    (hrun : RefreshData L cfg env store triggeredBy = some run) (hres : run.result = none) :
    ∃ header rest, env.reads = .record header :: rest ∧
      ((cfg.RefreshBatchSize ≤ 0 ∧ run.store.tables = store.tables) ∨
        (1 ≤ cfg.RefreshBatchSize ∧ ∃ lines, rest = lines.map .record ∧
          handlesAll L (buildColumnMap header) lines (beginTx env store) = true ∧
          run.store.tables =
            (txAfter L (buildColumnMap header) lines (beginTx env store)).tables ∧
          run.store.seqs =
            (txAfter L (buildColumnMap header) lines (beginTx env store)).seqs)) := by
  unfold RefreshData StartDataRefresh at hrun
  cases hs : env.startFault with
  | some e => simp only [hs, Option.some.injEq] at hrun; subst hrun; cases hres
  | none =>
    simp only [hs] at hrun
    cases hopen : env.openFault with
    | some e => simp only [hopen, Option.some.injEq] at hrun; subst hrun; cases hres
    | none =>
      simp only [hopen] at hrun
      cases hreads : env.reads with
      | nil => simp only [hreads, Option.some.injEq] at hrun; subst hrun; cases hres
      | cons first rest =>
        cases first with
        | err e => simp only [hreads, Option.some.injEq] at hrun; subst hrun; cases hres
        | record header =>
          simp only [hreads] at hrun
          unfold runTransaction at hrun
          cases hbegin : env.beginFault with
          | some e => simp only [hbegin, Option.some.injEq] at hrun; subst hrun; cases hres
          | none =>
            simp only [hbegin] at hrun
            cases hprep : (prepareAll env preparedStatements).2 with
            | some ep => simp only [hprep, Option.some.injEq] at hrun; subst hrun; cases hres
            | none =>
              simp only [hprep] at hrun
              refine ⟨header, rest, rfl, ?_⟩
              have hconc : ∀ e, run = concludeRun env (startedStore env store triggeredBy)
                  store.logSeq e → ∃ st, e = .finished st ∧ run.store.tables = st.tx.tables ∧
                    run.store.seqs = st.tx.seqs := by
                intro e he
                cases e with
                | failed label cause st => subst he; cases hres
                | finished st =>
                  refine ⟨st, rfl, ?_⟩
                  subst he
                  unfold concludeRun at hres ⊢
                  cases hc : env.commitFault with
                  | some e => simp only [hc] at hres; cases hres
                  | none =>
                    simp only [hc]
                    unfold CompleteDataRefresh
                    cases env.updateFault <;> exact ⟨rfl, rfl⟩
              by_cases hb : 1 ≤ cfg.RefreshBatchSize
              · right
                obtain ⟨e, he, hview, -⟩ := batchLoop_spec L (buildColumnMap header)
                  cfg.RefreshBatchSize hb (rest.length + 1) 0
                  ⟨rest, beginTx env (startedStore env store triggeredBy), 0,
                    [.dbInsertLog triggeredBy none] ++
                      [.openFile none, .read (some (.record header))] ++ [.beginTx none] ++
                      (prepareAll env preparedStatements).1⟩ (by simp)
                have hrun2 : some (concludeRun env (startedStore env store triggeredBy)
                    store.logSeq e) = some run := by
                  rw [← hrun]
                  exact (congrArg (Option.map _) he).symm
                obtain ⟨st, rfl, ht, hq⟩ := hconc e (Option.some.inj hrun2).symm
                simp only [LoopEnd.storeView] at hview
                obtain ⟨lines, h1, h2, h3, -⟩ := readAll_finished L _ _ _ _ _ _ hview.symm
                refine ⟨hb, lines, h1, h2, ?_, ?_⟩
                · rw [ht]; exact congrArg Tx.tables h3
                · rw [hq]; exact congrArg Tx.seqs h3
              · left
                have hb2 : cfg.RefreshBatchSize ≤ 0 := by omega
                have he := batchLoop_nonpositive L (buildColumnMap header)
                  cfg.RefreshBatchSize hb2 rest.length 0
                  ⟨rest, beginTx env (startedStore env store triggeredBy), 0,
                    [.dbInsertLog triggeredBy none] ++
                      [.openFile none, .read (some (.record header))] ++ [.beginTx none] ++
                      (prepareAll env preparedStatements).1⟩
                have hrun2 : some (concludeRun env (startedStore env store triggeredBy)
                    store.logSeq (.finished
                      ⟨rest, beginTx env (startedStore env store triggeredBy), 0,
                        [.dbInsertLog triggeredBy none] ++
                          [.openFile none, .read (some (.record header))] ++ [.beginTx none] ++
                          (prepareAll env preparedStatements).1⟩)) = some run := by
                  rw [← hrun]
                  exact (congrArg (Option.map _) he).symm
                obtain ⟨st, hst, ht, -⟩ := hconc _ (Option.some.inj hrun2).symm
                cases hst
                exact ⟨hb2, ht⟩

theorem getColumnValue_present (columnMap : ColumnMap) (record : List String) (c : String)
    (h : columnMissing columnMap record c = false) :
    getColumnValue columnMap record c = .ok (fieldOf columnMap record c) := by
  unfold fieldOf
  cases hg : getColumnValue columnMap record c with
  | ok v => rfl
  | error e =>
    have := (getColumnValue_error columnMap record c e hg).2
    rw [h] at this
    cases this

/-- With the fifteen columns present, parsing is the five conversions, in the order date,
quantity, unit price, discount, shipping cost. -/
theorem parseRecord_present (L : StdLib) (columnMap : ColumnMap) (record : List String)
    (hpresent : ∀ c ∈ requiredColumns, columnMissing columnMap record c = false) :
    parseRecord L columnMap record =
      (wrapErr "invalid date format" (L.timeParse (fieldOf columnMap record "Date of Sale"))
        >>= fun saleDate =>
      wrapErr "invalid quantity" (L.atoi (fieldOf columnMap record "Quantity Sold"))
        >>= fun quantitySold =>
      wrapErr "invalid unit price" (L.parseFloat (fieldOf columnMap record "Unit Price"))
        >>= fun unitPrice =>
      wrapErr "invalid discount" (L.parseFloat (fieldOf columnMap record "Discount"))
        >>= fun discount =>
      wrapErr "invalid shipping cost" (L.parseFloat (fieldOf columnMap record "Shipping Cost"))
        >>= fun shippingCost =>
      pure ⟨fieldOf columnMap record "Order ID", fieldOf columnMap record "Product ID",
        fieldOf columnMap record "Customer ID", fieldOf columnMap record "Product Name",
        fieldOf columnMap record "Category", fieldOf columnMap record "Region", saleDate,
        quantitySold, unitPrice, discount, shippingCost,
        fieldOf columnMap record "Payment Method", fieldOf columnMap record "Customer Name",
        fieldOf columnMap record "Customer Email",
        fieldOf columnMap record "Customer Address"⟩) := by
  have h := fun c hc => getColumnValue_present columnMap record c (hpresent c hc)
  unfold parseRecord
  rw [h "Order ID" (by simp [requiredColumns]), h "Product ID" (by simp [requiredColumns]),
    h "Customer ID" (by simp [requiredColumns]), h "Product Name" (by simp [requiredColumns]),
    h "Category" (by simp [requiredColumns]), h "Region" (by simp [requiredColumns]),
    h "Date of Sale" (by simp [requiredColumns]), h "Quantity Sold" (by simp [requiredColumns]),
    h "Unit Price" (by simp [requiredColumns]), h "Discount" (by simp [requiredColumns]),
    h "Shipping Cost" (by simp [requiredColumns]),
    h "Payment Method" (by simp [requiredColumns]),
    h "Customer Name" (by simp [requiredColumns]),
    h "Customer Email" (by simp [requiredColumns]),
    h "Customer Address" (by simp [requiredColumns])]
  rfl

theorem buildColumnMapFrom_get?_of_not_mem (c : String) :
    ∀ (header : List String) (i : Nat) (m : ColumnMap), c ∉ header →
      (buildColumnMapFrom i header m).get? c = m.get? c := by
  intro header
  induction header with
  | nil => intro i m _; rfl
  | cons col rest ih =>
    intro i m hc
    simp only [List.mem_cons, not_or] at hc
    unfold buildColumnMapFrom
    rw [ih _ _ hc.2, ColumnMap.get?_set, if_neg (Ne.symm hc.1)]

/-- For a header of distinct names, a name of the header is mapped to the position at
which it stands: under it the row holds the field paired with the name. -/
theorem buildColumnMapFrom_get?_of_mem (c v : String) :
    ∀ (pairs : List (String × String)) (i : Nat) (m : ColumnMap),
      (pairs.map Prod.fst).Nodup → (c, v) ∈ pairs →
      ∃ j, (buildColumnMapFrom i (pairs.map Prod.fst) m).get? c = some (i + j) ∧
        j < pairs.length ∧ (pairs.map Prod.snd).getD j "" = v := by
  intro pairs
  induction pairs with
  | nil => intro i m _ h; cases h
  | cons kw rest ih =>
    intro i m hnd hmem
    obtain ⟨k, w⟩ := kw
    simp only [List.map_cons, List.nodup_cons] at hnd
    simp only [List.map_cons]
    unfold buildColumnMapFrom
    rcases List.mem_cons.1 hmem with heq | hin
    · cases heq
      refine ⟨0, ?_, by simp, by simp⟩
      rw [buildColumnMapFrom_get?_of_not_mem c _ _ _ hnd.1, ColumnMap.get?_set]
      simp
    · obtain ⟨j, h1, h2, h3⟩ := ih (i + 1) (m.set k i) hnd.2 hin
      refine ⟨j + 1, ?_, by simp [h2], by simpa using h3⟩
      rw [h1]
      congr 1
      omega

/-- For a header of distinct names and a row of the same length, `getColumnValue` gives
the field paired with the name, and fails for a name the header does not hold. -/
theorem getColumnValue_pairs (pairs : List (String × String))
    (hnd : (pairs.map Prod.fst).Nodup) (c : String) :
    (∀ v, (c, v) ∈ pairs →
      getColumnValue (buildColumnMap (pairs.map Prod.fst)) (pairs.map Prod.snd) c = .ok v) ∧
    (c ∉ pairs.map Prod.fst →
      getColumnValue (buildColumnMap (pairs.map Prod.fst)) (pairs.map Prod.snd) c =
        .error ("column " ++ c ++ " not found in CSV")) := by
  constructor
  · intro v hv
    obtain ⟨j, h1, h2, h3⟩ := buildColumnMapFrom_get?_of_mem c v pairs 0 [] hnd hv
    unfold getColumnValue buildColumnMap
    rw [h1]
    simp only [Nat.zero_add, List.length_map, ge_iff_le]
    rw [if_neg (by omega), h3]
  · intro hc
    unfold getColumnValue buildColumnMap
    rw [buildColumnMapFrom_get?_of_not_mem c _ 0 [] hc]
    rfl

/-- Rows that pair the same fields with the same distinct names, in whatever order, give
the same value for every column. -/
theorem getColumnValue_perm (pairs pairs2 : List (String × String))
    (hnd : (pairs.map Prod.fst).Nodup) (hperm : pairs2.Perm pairs) (c : String) :
    getColumnValue (buildColumnMap (pairs2.map Prod.fst)) (pairs2.map Prod.snd) c =
      getColumnValue (buildColumnMap (pairs.map Prod.fst)) (pairs.map Prod.snd) c := by
  have hnd2 : (pairs2.map Prod.fst).Nodup := ((hperm.map Prod.fst).nodup_iff).2 hnd
  by_cases hc : c ∈ pairs.map Prod.fst
  · obtain ⟨⟨k, v⟩, hkv, hk⟩ := List.mem_map.1 hc
    simp only at hk
    subst hk
    rw [(getColumnValue_pairs pairs hnd k).1 v hkv,
      (getColumnValue_pairs pairs2 hnd2 k).1 v (hperm.mem_iff.2 hkv)]
  · have hc2 : c ∉ pairs2.map Prod.fst := fun h => hc ((hperm.map Prod.fst).mem_iff.1 h)
    rw [(getColumnValue_pairs pairs hnd c).2 hc, (getColumnValue_pairs pairs2 hnd2 c).2 hc2]

/-- The typed record depends on the column map and the row only through the values of
`getColumnValue`. -/
theorem parseRecord_congr (L : StdLib) (columnMap columnMap2 : ColumnMap)
    (record record2 : List String)
    (h : ∀ c, getColumnValue columnMap2 record2 c = getColumnValue columnMap record c) :
    parseRecord L columnMap2 record2 = parseRecord L columnMap record := by
  unfold parseRecord
  simp only [h]

theorem find?_of_filter_singleton {α : Type} {p : α → Bool} {x : α} :
    ∀ {l : List α}, l.filter p = [x] → l.find? p = some x := by
  intro l
  induction l with
  | nil => intro h; cases h
  | cons y ys ih =>
    intro h
    by_cases hy : p y = true
    · simp only [List.filter_cons, hy, if_true, List.cons.injEq] at h
      obtain ⟨rfl, -⟩ := h
      simp [List.find?_cons, hy]
    · simp only [List.filter_cons, hy] at h
      simp only [List.find?_cons, hy]
      exact ih h

theorem filter_key_unique {α : Type} (key : α → String) :
    ∀ (l : List α) (x : α), (l.map key).Nodup → x ∈ l →
      l.filter (fun y => key y = key x) = [x] := by
  intro l
  induction l with
  | nil => intro x _ h; cases h
  | cons y ys ih =>
    intro x hnd hx
    simp only [List.map_cons, List.nodup_cons] at hnd
    rcases List.mem_cons.1 hx with rfl | hin
    · have : ys.filter (fun y => key y = key x) = [] := by
        rw [List.filter_eq_nil_iff]
        intro a ha hk
        exact hnd.1 (List.mem_map.2 ⟨a, ha, by simpa using hk⟩)
      simp [List.filter_cons, this]
    · have hne : key y ≠ key x := fun h => hnd.1 (h ▸ List.mem_map_of_mem key hin)
      simp [List.filter_cons, hne, ih x hnd.2 hin]

/-- After a resolve on a table of unique names there is exactly one row with the name,
carrying the id returned. -/
theorem Tables.resolveRegion_named (t : Tables) (s : Sequences) (name : String)
    (hunique : (t.regions.map Region.name).Nodup) :
    (t.resolveRegion s name).2.1.regionsNamed name = [⟨(t.resolveRegion s name).1, name⟩] := by
  unfold Tables.resolveRegion Tables.regionsNamed
  cases hf : t.regions.find? (fun r => r.name = name) with
  | some r =>
    have hn : r.name = name := by simpa using List.find?_some hf
    have hm : r ∈ t.regions := List.mem_of_find?_eq_some hf
    have := filter_key_unique Region.name t.regions r hunique hm
    subst hn
    simpa using this
  | none =>
    have : t.regions.filter (fun r => r.name = name) = [] := by
      rw [List.filter_eq_nil_iff]
      exact List.find?_eq_none.1 hf
    simp [List.filter_append, this]

/-- A name that has one row resolves to the id of that row, and the tables stay as they
are. -/
theorem Tables.resolveRegion_fetch (t : Tables) (s : Sequences) (name : String) (x : Region)
    (h : t.regionsNamed name = [x]) :
    (t.resolveRegion s name).1 = x.regionID ∧ (t.resolveRegion s name).2.1 = t := by
  unfold Tables.resolveRegion
  rw [find?_of_filter_singleton h]
  exact ⟨rfl, rfl⟩

/-- A resolve of any name keeps the row of a name that has one. -/
theorem Tables.resolveRegion_keeps (t : Tables) (s : Sequences) (name other : String)
    (x : Region) (h : t.regionsNamed name = [x]) :
    (t.resolveRegion s other).2.1.regionsNamed name = [x] := by
  by_cases ho : other = name
  · subst ho
    rw [(t.resolveRegion_fetch s other x h).2]
    exact h
  · unfold Tables.resolveRegion
    split
    · exact h
    · unfold Tables.regionsNamed at h ⊢
      simp [List.filter_append, h, ho]

theorem applyRecord_regions (r : Record) (t : Tables) (s : Sequences) :
    (applyRecord r t s).1.regions = (t.resolveRegion s r.region).2.1.regions := by
  have h2 : ∀ (t : Tables) (s : Sequences) (n : String),
      (t.resolvePaymentMethod s n).2.1.regions = t.regions := by
    intro t s n
    unfold Tables.resolvePaymentMethod
    split <;> rfl
  unfold applyRecord
  dsimp only
  split <;>
    simp [Tables.insertOrderItem, Tables.insertOrder, Tables.upsertProduct,
      Tables.upsertCustomer, h2]
  split <;> simp [h2]

theorem applyRecord_regionsNamed (r : Record) (t : Tables) (s : Sequences) (name : String)
    (x : Region) (h : t.regionsNamed name = [x]) :
    (applyRecord r t s).1.regionsNamed name = [x] := by
  have := t.resolveRegion_keeps s name r.region x h
  unfold Tables.regionsNamed at this ⊢
  rw [applyRecord_regions]
  exact this

theorem tablesAfter_regionsNamed (name : String) (x : Region) :
    ∀ (steps : List (Record × Sequences)) (t : Tables), t.regionsNamed name = [x] →
      (tablesAfter steps t).regionsNamed name = [x] := by
  intro steps
  induction steps with
  | nil => intro t h; exact h
  | cons step rest ih =>
    intro t h
    exact ih _ (applyRecord_regionsNamed step.1 t step.2 name x h)

theorem Tables.resolvePaymentMethod_named (t : Tables) (s : Sequences) (name : String)
    (hunique : (t.paymentMethods.map PaymentMethod.name).Nodup) :
    (t.resolvePaymentMethod s name).2.1.paymentMethodsNamed name =
      [⟨(t.resolvePaymentMethod s name).1, name⟩] := by
  unfold Tables.resolvePaymentMethod Tables.paymentMethodsNamed
  cases hf : t.paymentMethods.find? (fun r => r.name = name) with
  | some r =>
    have hn : r.name = name := by simpa using List.find?_some hf
    have hm : r ∈ t.paymentMethods := List.mem_of_find?_eq_some hf
    have := filter_key_unique PaymentMethod.name t.paymentMethods r hunique hm
    subst hn
    simpa using this
  | none =>
    have : t.paymentMethods.filter (fun r => r.name = name) = [] := by
      rw [List.filter_eq_nil_iff]
      exact List.find?_eq_none.1 hf
    simp [List.filter_append, this]

theorem Tables.resolvePaymentMethod_fetch (t : Tables) (s : Sequences) (name : String)
    (x : PaymentMethod) (h : t.paymentMethodsNamed name = [x]) :
    (t.resolvePaymentMethod s name).1 = x.paymentMethodID ∧
      (t.resolvePaymentMethod s name).2.1 = t := by
  unfold Tables.resolvePaymentMethod
  rw [find?_of_filter_singleton h]
  exact ⟨rfl, rfl⟩

theorem Tables.resolvePaymentMethod_keeps (t : Tables) (s : Sequences) (name other : String)
    (x : PaymentMethod) (h : t.paymentMethodsNamed name = [x]) :
    (t.resolvePaymentMethod s other).2.1.paymentMethodsNamed name = [x] := by
  by_cases ho : other = name
  · subst ho
    rw [(t.resolvePaymentMethod_fetch s other x h).2]
    exact h
  · unfold Tables.resolvePaymentMethod
    split
    · exact h
    · unfold Tables.paymentMethodsNamed at h ⊢
      simp [List.filter_append, h, ho]

theorem Tables.resolveRegion_paymentMethods (t : Tables) (s : Sequences) (name : String) :
    (t.resolveRegion s name).2.1.paymentMethods = t.paymentMethods := by
  unfold Tables.resolveRegion
  split <;> rfl

theorem applyRecord_paymentMethods (r : Record) (t : Tables) (s : Sequences) :
    (applyRecord r t s).1.paymentMethods =
      ((t.resolveRegion s r.region).2.1.resolvePaymentMethod (t.resolveRegion s r.region).2.2
        r.paymentMethod).2.1.paymentMethods := by
  unfold applyRecord
  dsimp only
  split <;>
    simp [Tables.insertOrderItem, Tables.insertOrder, Tables.upsertProduct,
      Tables.upsertCustomer]
  split <;> simp

theorem applyRecord_paymentMethodsNamed (r : Record) (t : Tables) (s : Sequences)
    (name : String) (x : PaymentMethod) (h : t.paymentMethodsNamed name = [x]) :
    (applyRecord r t s).1.paymentMethodsNamed name = [x] := by
  have h1 : (t.resolveRegion s r.region).2.1.paymentMethodsNamed name = [x] := by
    unfold Tables.paymentMethodsNamed at h ⊢
    rw [Tables.resolveRegion_paymentMethods]
    exact h
  have := (t.resolveRegion s r.region).2.1.resolvePaymentMethod_keeps
    (t.resolveRegion s r.region).2.2 name r.paymentMethod x h1
  unfold Tables.paymentMethodsNamed at this ⊢
  rw [applyRecord_paymentMethods]
  exact this

theorem tablesAfter_paymentMethodsNamed (name : String) (x : PaymentMethod) :
    ∀ (steps : List (Record × Sequences)) (t : Tables), t.paymentMethodsNamed name = [x] →
      (tablesAfter steps t).paymentMethodsNamed name = [x] := by
  intro steps
  induction steps with
  | nil => intro t h; exact h
  | cons step rest ih =>
    intro t h
    exact ih _ (applyRecord_paymentMethodsNamed step.1 t step.2 name x h)

theorem firstFailure_kind (L : StdLib) (columnMap : ColumnMap) (record : List String)
    (e : String) :
    ∀ cols : List String, firstFailure L columnMap record cols = some e →
      IsMissingColumn e ∨ IsInvalidFormat e := by
  intro cols
  induction cols with
  | nil => intro h; cases h
  | cons c cs ih =>
    intro h
    unfold firstFailure at h
    cases hg : getColumnValue columnMap record c with
    | error e1 =>
      simp only [hg, Option.some.injEq] at h
      subst h
      exact Or.inl (getColumnValue_error columnMap record c e1 hg).1
    | ok v =>
      simp only [hg] at h
      cases hv : conversionError L c v with
      | some e1 =>
        simp only [hv, Option.some.injEq] at h
        subst h
        exact Or.inr (conversionError_kind L c v e1 hv).1
      | none =>
        simp only [hv] at h
        exact ih h

/-- Every error of `parseRecord` is a MissingColumn or an InvalidFormat error. -/
theorem parseRecord_error_kind (L : StdLib) (columnMap : ColumnMap) (record : List String)
    (e : String) (h : parseRecord L columnMap record = .error e) :
    IsMissingColumn e ∨ IsInvalidFormat e := by
  apply firstFailure_kind L columnMap record e requiredColumns
  rw [← parseRecord_firstFailure, h]
  rfl

theorem wrap_txStep {α : Type} (label : String) (stmt : TxStmt)
    (run : Tables → Sequences → α × Tables × Sequences) (tx : Tx) :
    TxM.wrap label (txStep stmt run) tx =
      match tx.faults.headD none with
      | some e =>
        ⟨.error (label ++ ": " ++ e), { tx with faults := tx.faults.tail },
          [.txExec stmt (some e)]⟩
      | none =>
        ⟨.ok (run tx.tables tx.seqs).1,
          ⟨(run tx.tables tx.seqs).2.1, (run tx.tables tx.seqs).2.2, tx.faults.tail⟩,
          [.txExec stmt none]⟩ := by
  unfold TxM.wrap txStep
  cases tx.faults.headD none <;> rfl

theorem wrap_txStep_bind {α β : Type} (label : String) (stmt : TxStmt)
    (run : Tables → Sequences → α × Tables × Sequences) (f : α → TxM β) (tx : Tx) :
    (TxM.wrap label (txStep stmt run) >>= f) tx =
      match tx.faults.headD none with
      | some e =>
        ⟨.error (label ++ ": " ++ e), { tx with faults := tx.faults.tail },
          [.txExec stmt (some e)]⟩
      | none =>
        ⟨(f (run tx.tables tx.seqs).1
            ⟨(run tx.tables tx.seqs).2.1, (run tx.tables tx.seqs).2.2, tx.faults.tail⟩).val,
          (f (run tx.tables tx.seqs).1
            ⟨(run tx.tables tx.seqs).2.1, (run tx.tables tx.seqs).2.2, tx.faults.tail⟩).tx,
          .txExec stmt none ::
            (f (run tx.tables tx.seqs).1
              ⟨(run tx.tables tx.seqs).2.1, (run tx.tables tx.seqs).2.2,
                tx.faults.tail⟩).events⟩ := by
  rw [TxM.bind_def]
  unfold TxM.bind
  rw [wrap_txStep]
  cases tx.faults.headD none <;> rfl

theorem TxM.pure_bind_apply {α β : Type} (a : α) (f : α → TxM β) (tx : Tx) :
    (pure a >>= f) tx = ⟨(f a tx).val, (f a tx).tx, (f a tx).events⟩ := by
  rw [TxM.bind_def]
  unfold TxM.bind
  rw [TxM.pure_def]
  simp

theorem storeRecord_issue (r : Record) (tx : Tx) :
    (storeRecord r tx).events = (issue (plannedStatements r tx.tables tx.seqs) tx.faults).1 ∧
      errorOf (storeRecord r tx).val =
        (issue (plannedStatements r tx.tables tx.seqs) tx.faults).2 := by
  unfold storeRecord resolveRegion resolvePaymentMethod upsertCustomer upsertProduct
    orderExists insertOrder insertOrderItem
  simp only [wrap_txStep_bind, plannedStatements, List.cons_append, List.nil_append, issue]
  cases h1 : tx.faults.headD none with
  | some e => simp [errorOf, Record.customer, Record.product]
  | none =>
    dsimp only
    generalize tx.faults.tail = fs1
    cases h2 : fs1.headD none with
    | some e => simp [errorOf, Record.customer, Record.product]
    | none =>
      dsimp only
      generalize fs1.tail = fs2
      cases h3 : fs2.headD none with
      | some e => simp [errorOf, Record.customer, Record.product]
      | none =>
        dsimp only
        generalize fs2.tail = fs3
        cases h4 : fs3.headD none with
        | some e => simp [errorOf, Record.customer, Record.product]
        | none =>
          dsimp only
          generalize fs3.tail = fs4
          cases h5 : fs4.headD none with
          | some e => simp [errorOf, Record.customer, Record.product]
          | none =>
            dsimp only
            generalize fs4.tail = fs5
            have hfr : ((((tx.tables.resolveRegion tx.seqs r.region).2.1.resolvePaymentMethod
                (tx.tables.resolveRegion tx.seqs r.region).2.2
                r.paymentMethod).2.1.upsertCustomer
                  ⟨r.customerID, r.customerName, r.customerEmail, r.customerAddress⟩).upsertProduct
                  ⟨r.productID, r.productName, r.category⟩).hasOrder r.orderID =
                tx.tables.hasOrder r.orderID := by
              have a1 := (tx.tables.resolveRegion_frame tx.seqs r.region).2.2.1
              have a2 := ((tx.tables.resolveRegion tx.seqs r.region).2.1.resolvePaymentMethod_frame
                (tx.tables.resolveRegion tx.seqs r.region).2.2 r.paymentMethod).2.2.1
              simp [Tables.hasOrder, Tables.upsertProduct, Tables.upsertCustomer, a1, a2]
            rw [hfr]
            cases hex : tx.tables.hasOrder r.orderID with
            | true =>
              simp only [Bool.not_true, Bool.false_eq_true, if_false, if_true, List.append_nil,
                List.nil_append, List.append_eq, issue, TxM.pure_bind_apply, wrap_txStep]
              cases h6 : fs5.headD none <;>
                simp [errorOf, Record.customer, Record.product]
            | false =>
              simp only [Bool.not_false, if_true, Bool.false_eq_true, if_false,
                List.nil_append, List.append_eq, List.cons_append, issue, wrap_txStep_bind,
                wrap_txStep]
              cases h6 : fs5.headD none with
              | some e => simp [errorOf, Record.customer, Record.product, Record.order]
              | none =>
                dsimp only
                cases h7 : fs5.tail.headD none <;>
                  simp [errorOf, Record.customer, Record.product, Record.order]

theorem Prepared.label_mem (p : Prepared) : p.label ∈ stageLabels := by
  cases p <;> simp [Prepared.label, stageLabels]

theorem prepareAll_none (env : Env) :
    ∀ ps, (prepareAll env ps).2 = none → ∀ p ∈ ps, env.prepareFault p = none := by
  intro ps
  induction ps with
  | nil => intro _ p hp; cases hp
  | cons q qs ih =>
    intro h p hp
    unfold prepareAll at h
    cases hq : env.prepareFault q with
    | some e => simp [hq] at h
    | none =>
      simp only [hq] at h
      rcases List.mem_cons.1 hp with rfl | hin
      · exact hq
      · exact ih h p hin

theorem runBatch_failed_label (L : StdLib) (columnMap : ColumnMap) :
    ∀ (n b : Nat) (st : LoopState) (label cause : String) (st1 : LoopState),
      runBatch L columnMap n b st = .failed label cause st1 →
      label = "error reading CSV record" ∨ label = "error processing record" := by
  intro n
  induction n with
  | zero => intro b st label cause st1 h; simp [runBatch] at h
  | succ n ih =>
    intro b st label cause st1 h
    unfold runBatch at h
    split at h
    · simp at h
    · simp only [BatchEnd.failed.injEq] at h
      exact Or.inl h.1.symm
    · dsimp only at h
      split at h
      · simp only [BatchEnd.failed.injEq] at h
        exact Or.inr h.1.symm
      · exact ih _ _ _ _ _ h

theorem batchLoop_failed_label (L : StdLib) (columnMap : ColumnMap) (batchSize : Int) :
    ∀ (fuel batch : Nat) (st : LoopState) (label cause : String) (st1 : LoopState),
      batchLoop L columnMap batchSize fuel batch st = some (.failed label cause st1) →
      label = "error reading CSV record" ∨ label = "error processing record" := by
  intro fuel
  induction fuel with
  | zero => intro batch st label cause st1 h; simp [batchLoop] at h
  | succ fuel ih =>
    intro batch st label cause st1 h
    unfold batchLoop at h
    cases hb : runBatch L columnMap batchSize.toNat 0 st with
    | failed l c s1 =>
      simp only [hb, Option.some.injEq, LoopEnd.failed.injEq] at h
      obtain ⟨rfl, -, -⟩ := h
      exact runBatch_failed_label L columnMap _ _ _ _ _ _ hb
    | completed k s1 =>
      simp only [hb] at h
      split at h
      · cases h
      · exact ih _ _ _ _ _ h

theorem failRun_failedAt (env : Env) (store st : Store) (rows : Nat) (label cause : String)
    (trace : List Event) (hl : label ∈ stageLabels) (hc : Event.commit none ∉ trace) :
    FailedAt env store (failRun env st store.logSeq rows label cause trace) ∧
      Event.commit none ∉ (failRun env st store.logSeq rows label cause trace).trace := by
  refine ⟨⟨label, cause, hl, rfl, Or.inr ⟨rows, ?_⟩⟩, ?_⟩
  · rw [failRun_trace]
    simp
  · rw [failRun_trace]
    simp [hc]

/-- Every run returns, and either failed at a stage, without a successful commit, or
went through the read loop to its end and committed. -/
theorem RefreshData_paths (L : StdLib) (cfg : Config) (env : Env) (store : Store)
    (triggeredBy : String) :
    ∃ run, RefreshData L cfg env store triggeredBy = some run ∧
      ((FailedAt env store run ∧ Event.commit none ∉ run.trace) ∨
        ∃ header rest st, env.startFault = none ∧ env.openFault = none ∧
          env.reads = .record header :: rest ∧ env.beginFault = none ∧
          (∀ p, env.prepareFault p = none) ∧ env.commitFault = none ∧
          batchLoop L (buildColumnMap header) cfg.RefreshBatchSize (rest.length + 1) 0
            ⟨rest, beginTx env store, 0, preamble triggeredBy header⟩ = some (.finished st) ∧
          run = concludeRun env (startedStore env store triggeredBy) store.logSeq
            (.finished st)) := by
  cases hstart : env.startFault with
  | some e =>
    refine ⟨⟨some ("failed to create refresh log: " ++ e), store,
      [.dbInsertLog triggeredBy (some e)]⟩, ?_, Or.inl ⟨?_, by simp⟩⟩
    · unfold RefreshData StartDataRefresh
      simp only [hstart]
    · refine ⟨"failed to create refresh log", e, by simp [stageLabels], ?_, Or.inl hstart⟩
      show some ("failed to create refresh log: " ++ e) =
        some ("failed to create refresh log" ++ ": " ++ e)
      rw [String.append_assoc]
      rfl
  | none =>
    cases hopen : env.openFault with
    | some e =>
      refine ⟨failRun env (startedStore env store triggeredBy) store.logSeq 0
        "failed to open CSV file" e [.dbInsertLog triggeredBy none, .openFile (some e)],
        ?_, Or.inl (failRun_failedAt _ _ _ _ _ _ _ (by simp [stageLabels]) (by simp))⟩
      unfold RefreshData StartDataRefresh
      simp only [hstart, hopen]
      rfl
    | none =>
      cases hreads : env.reads with
      | nil =>
        refine ⟨failRun env (startedStore env store triggeredBy) store.logSeq 0
          "failed to read CSV header" "EOF"
          [.dbInsertLog triggeredBy none, .openFile none, .read none],
          ?_, Or.inl (failRun_failedAt _ _ _ _ _ _ _ (by simp [stageLabels]) (by simp))⟩
        unfold RefreshData StartDataRefresh
        simp only [hstart, hopen, hreads]
        rfl
      | cons first rest =>
        cases first with
        | err e =>
          refine ⟨failRun env (startedStore env store triggeredBy) store.logSeq 0
            "failed to read CSV header" e
            [.dbInsertLog triggeredBy none, .openFile none, .read (some (.err e))],
            ?_, Or.inl (failRun_failedAt _ _ _ _ _ _ _ (by simp [stageLabels]) (by simp))⟩
          unfold RefreshData StartDataRefresh
          simp only [hstart, hopen, hreads]
          rfl
        | record header =>
          cases hbegin : env.beginFault with
          | some e =>
            refine ⟨failRun env (startedStore env store triggeredBy) store.logSeq 0
              "failed to start transaction" e
              [.dbInsertLog triggeredBy none, .openFile none,
                .read (some (.record header)), .beginTx (some e)],
              ?_, Or.inl (failRun_failedAt _ _ _ _ _ _ _ (by simp [stageLabels]) (by simp))⟩
            unfold RefreshData StartDataRefresh runTransaction
            simp only [hstart, hopen, hreads, hbegin]
            rfl
          | none =>
            have hprepEv := prepareAll_events env preparedStatements
            cases hprep : (prepareAll env preparedStatements).2 with
            | some ep =>
              obtain ⟨e, p⟩ := ep
              refine ⟨failRun env
                { startedStore env store triggeredBy with
                  seqs := (beginTx env (startedStore env store triggeredBy)).seqs }
                store.logSeq 0 p.label e
                ([.dbInsertLog triggeredBy none, .openFile none,
                  .read (some (.record header))] ++ [.beginTx none] ++
                  (prepareAll env preparedStatements).1 ++ [.rollback]),
                ?_, Or.inl (failRun_failedAt _ _ _ _ _ _ _ p.label_mem ?_)⟩
              · unfold RefreshData StartDataRefresh runTransaction
                simp only [hstart, hopen, hreads, hbegin, hprep]
                rfl
              · intro hmem
                simp only [List.mem_append, List.mem_cons, List.mem_singleton,
                  List.not_mem_nil, or_false, false_or] at hmem
                rcases hmem with (h | h) | h
                · simp at h
                · obtain ⟨_, _, h2⟩ := hprepEv _ h
                  cases h2
                · cases h
            | none =>
              have hp : ∀ p, env.prepareFault p = none := fun p =>
                prepareAll_none env preparedStatements hprep p
                  (by cases p <;> simp [preparedStatements])
              rw [RefreshData_loop L cfg env store triggeredBy header rest hstart hopen hreads
                hbegin hp]
              obtain ⟨e, he, added, htrace, hadded⟩ :=
                batchLoop_returns L (buildColumnMap header) cfg.RefreshBatchSize
                  (rest.length + 1) 0
                  ⟨rest, beginTx env store, 0, preamble triggeredBy header⟩ (by simp)
              rw [he]
              refine ⟨_, rfl, ?_⟩
              have hpre : Event.commit none ∉ e.state.trace := by
                rw [htrace]
                simp only [List.mem_append, not_or]
                refine ⟨by simp [preamble, preparedStatements], ?_⟩
                intro h
                have := hadded _ h
                simp [Event.isLoopEvent] at this
              cases e with
              | failed label cause st =>
                left
                have hl := batchLoop_failed_label L _ _ _ _ _ _ _ _ he
                have hmem : label ∈ stageLabels := by
                  rcases hl with rfl | rfl <;> simp [stageLabels]
                simp only [concludeRun]
                refine failRun_failedAt _ _ _ _ _ _ _ hmem ?_
                simp only [LoopEnd.state] at hpre
                simp [hpre]
              | finished st =>
                cases hcommit : env.commitFault with
                | some ce =>
                  left
                  simp only [concludeRun, hcommit]
                  refine failRun_failedAt _ _ _ _ _ _ _ (by simp [stageLabels]) ?_
                  simp only [LoopEnd.state] at hpre
                  simp [hpre]
                | none =>
                  right
                  exact ⟨header, rest, st, rfl, rfl, rfl, rfl, hp, rfl, he, rfl⟩

/-! ## The claims -/

/-- C1 — a file made of a header and `N` data lines, each handled by `processRecord`
without error, read with a batch size of at least one, on a run whose audit insert,
`BeginTx`, `PrepareContext` calls and `Commit` succeed: the transaction is committed (never
rolled back; the tables are those of the transaction after the `N` lines) and
`CompleteDataRefresh` is called once, with `rowsProcessed = N` and a nil error; when its
UPDATE succeeds the run returns nil and the audit row is COMPLETED with
`rows_processed = N` and a null `error_message`. -/
theorem refreshData_success (L : StdLib) (cfg : Config) (env : Env) (store : Store)
    (triggeredBy : String) (header : List String) (lines : List (List String))
    (hbatch : 1 ≤ cfg.RefreshBatchSize)
    (hstart : env.startFault = none) (hopen : env.openFault = none)
    (hreads : env.reads = .record header :: lines.map .record)
    (hbegin : env.beginFault = none) (hprep : ∀ p, env.prepareFault p = none)
    (hlines : handlesAll L (buildColumnMap header) lines (beginTx env store) = true)
    (hcommit : env.commitFault = none) :
    ∃ run, RefreshData L cfg env store triggeredBy = some run ∧
      Event.commit none ∈ run.trace ∧ Event.rollback ∉ run.trace ∧
      run.trace.filter Event.isLogUpdate =
        [.dbUpdateLog store.logSeq lines.length "COMPLETED" none env.updateFault] ∧
      run.store.tables = (txAfter L (buildColumnMap header) lines (beginTx env store)).tables ∧
      (env.updateFault = none →
        run.result = none ∧ logRows run.store store.logSeq ≠ [] ∧
        ∀ l ∈ logRows run.store store.logSeq,
          l.status = "COMPLETED" ∧ l.rowsProcessed = some lines.length ∧
            l.errorMessage = none) := by
  obtain ⟨run, h1, -, h2⟩ := RefreshData_all_handled L cfg env store triggeredBy header lines
    hbatch hstart hopen hreads hbegin hprep hlines hcommit
  exact ⟨run, h1, h2⟩

set_option maxRecDepth 100000 in
/-- The scenario file of three valid lines, in batches of two, on the empty database:
the run commits and records COMPLETED with three rows. -/
theorem refreshData_success_witness :
    handlesAll exampleLib (buildColumnMap exampleHeader)
        [exampleLine1, exampleLine2, exampleLine3]
        (beginTx (exampleEnv exampleFile) emptyStore) = true ∧
    ∃ run, RefreshData exampleLib ⟨2⟩ (exampleEnv exampleFile) emptyStore "API" = some run ∧
      Event.commit none ∈ run.trace ∧
      run.trace.filter Event.isLogUpdate = [.dbUpdateLog 1 3 "COMPLETED" none none] ∧
      run.result = none :=
  ⟨by decide,
    (refreshData_success exampleLib ⟨2⟩ (exampleEnv exampleFile) emptyStore "API"
      exampleHeader [exampleLine1, exampleLine2, exampleLine3] (by decide) rfl rfl rfl rfl
      (fun _ => rfl) (by decide) rfl).imp
      fun _ h => ⟨h.1, h.2.1, h.2.2.2.1, (h.2.2.2.2.2 rfl).1⟩⟩

/-- C2 — the first `k` data lines (`good`) are handled without error and line `k+1`
(`bad`) fails, by a read error or an error of `processRecord`, with the text `cause`;
batch size at least one.  The run rolls the transaction back and never commits, executes
on the transaction only the statements of the `k` lines and of the failing line (none for
a later line), returns the wrapped error, and calls `CompleteDataRefresh` once, with
`rowsProcessed = k` and the cause, which sets the audit row to FAILED with that count and
text when the UPDATE succeeds; the data tables are those from before the run. -/
theorem refreshData_line_failure (L : StdLib) (cfg : Config) (env : Env) (store : Store)
    (triggeredBy : String) (header : List String) (good : List (List String))
    (bad : ReadResult) (rest : List ReadResult) (cause : String)
    (hbatch : 1 ≤ cfg.RefreshBatchSize)
    (hstart : env.startFault = none) (hopen : env.openFault = none)
    (hreads : env.reads = .record header :: (good.map .record ++ bad :: rest))
    (hbegin : env.beginFault = none) (hprep : ∀ p, env.prepareFault p = none)
    (hgood : handlesAll L (buildColumnMap header) good (beginTx env store) = true)
    (hbad : lineError L (buildColumnMap header)
      (txAfter L (buildColumnMap header) good (beginTx env store)) bad = some cause) :
    ∃ run, RefreshData L cfg env store triggeredBy = some run ∧
      Event.rollback ∈ run.trace ∧ (∀ e ∈ run.trace, e.isCommit = false) ∧
      run.trace.filter Event.isTxExec =
        txEvents L (buildColumnMap header) good (beginTx env store) ++
          lineEvents L (buildColumnMap header)
            (txAfter L (buildColumnMap header) good (beginTx env store)) bad ∧
      run.result = some (lineLabel bad ++ ": " ++ cause) ∧
      run.trace.filter Event.isLogUpdate =
        [.dbUpdateLog store.logSeq good.length "FAILED" (some cause) env.updateFault] ∧
      run.store.tables = store.tables ∧
      (env.updateFault = none →
        logRows run.store store.logSeq ≠ [] ∧
        ∀ l ∈ logRows run.store store.logSeq,
          l.status = "FAILED" ∧ l.rowsProcessed = some good.length ∧
            l.errorMessage = some cause) := by
  obtain ⟨run, h1, -, h2⟩ := RefreshData_failing_line L cfg env store triggeredBy header good
    bad rest cause hbatch hstart hopen hreads hbegin hprep hgood hbad
  exact ⟨run, h1, h2⟩

set_option maxRecDepth 100000 in
/-- Line 2 has the quantity `abc`: the audit update carries `rows_processed = 1`, the
status FAILED and the text `invalid quantity: ...`; no table is changed. -/
theorem refreshData_line_failure_witness :
    lineError exampleLib (buildColumnMap exampleHeader)
        (txAfter exampleLib (buildColumnMap exampleHeader) [exampleLine1]
          (beginTx (exampleEnv exampleBadFile) emptyStore)) (.record exampleBadLine) =
      some ("invalid quantity: " ++ numError "Atoi" "abc" "invalid syntax") ∧
    ∃ run, RefreshData exampleLib ⟨1000⟩ (exampleEnv exampleBadFile) emptyStore "API" =
        some run ∧
      Event.rollback ∈ run.trace ∧
      run.trace.filter Event.isLogUpdate =
        [.dbUpdateLog 1 1 "FAILED"
          (some ("invalid quantity: " ++ numError "Atoi" "abc" "invalid syntax")) none] ∧
      run.store.tables = emptyStore.tables :=
  ⟨by decide,
    (refreshData_line_failure exampleLib ⟨1000⟩ (exampleEnv exampleBadFile) emptyStore "API"
      exampleHeader [exampleLine1] (.record exampleBadLine) [.record exampleLine3]
      ("invalid quantity: " ++ numError "Atoi" "abc" "invalid syntax")
      (by decide) rfl rfl rfl rfl (fun _ => rfl) (by decide) (by decide)).imp
      fun _ h => ⟨h.1, h.2.1, h.2.2.2.2.2.1, h.2.2.2.2.2.2.1⟩⟩

/-- C3 — the same file ingested twice in succession, both runs returning nil.  After the
second run the order headers are those after the first (and no `order_id` appears twice if
none did at the start), the customer and product rows are those after the first, and the
second run has added as many order-item rows as the first; with a batch size of at least
one, each run adds one order-item row per data line. -/
theorem reingestion_repeats_items_only (L : StdLib) (cfg : Config) (env1 env2 : Env)
    (store : Store) (triggeredBy1 triggeredBy2 : String) (run1 run2 : Run)
    (hfile : env2.reads = env1.reads)
    (hrun1 : RefreshData L cfg env1 store triggeredBy1 = some run1)
    (hres1 : run1.result = none)
    (hrun2 : RefreshData L cfg env2 run1.store triggeredBy2 = some run2)
    (hres2 : run2.result = none) :
    run2.store.tables.orders = run1.store.tables.orders ∧
    ((∀ k, store.tables.orderCount k ≤ 1) → ∀ k, run2.store.tables.orderCount k ≤ 1) ∧
    run2.store.tables.customers = run1.store.tables.customers ∧
    run2.store.tables.products = run1.store.tables.products ∧
    (store.tables.orderItems.length ≤ run1.store.tables.orderItems.length ∧
      run2.store.tables.orderItems.length - store.tables.orderItems.length =
        2 * (run1.store.tables.orderItems.length - store.tables.orderItems.length)) ∧
    (1 ≤ cfg.RefreshBatchSize →
      run1.store.tables.orderItems.length =
        store.tables.orderItems.length + (env1.reads.length - 1) ∧
      run2.store.tables.orderItems.length =
        run1.store.tables.orderItems.length + (env1.reads.length - 1)) := by
  obtain ⟨header, rest, hreads1, hcase1⟩ :=
    RefreshData_returns_nil L cfg env1 store triggeredBy1 run1 hrun1 hres1
  obtain ⟨header2, rest2, hreads2, hcase2⟩ :=
    RefreshData_returns_nil L cfg env2 run1.store triggeredBy2 run2 hrun2 hres2
  rw [hfile, hreads1] at hreads2
  simp only [List.cons.injEq, ReadResult.record.injEq] at hreads2
  obtain ⟨rfl, rfl⟩ := hreads2
  rcases hcase1 with ⟨hb1, ht1⟩ | ⟨hb1, lines, hl1, hh1, ht1, hs1⟩
  · rcases hcase2 with ⟨-, ht2⟩ | ⟨hb2, -⟩
    · rw [ht2, ht1]
      exact ⟨rfl, fun h => h, rfl, rfl, by simp, fun hb => by omega⟩
    · omega
  · rcases hcase2 with ⟨hb2, -⟩ | ⟨-, lines2, hl2, hh2, ht2, -⟩
    · omega
    · rw [hl1] at hl2
      have hlines : lines2 = lines := by
        have := List.map_injective_iff.mpr
          (fun a b h => ReadResult.record.inj h : Function.Injective ReadResult.record) hl2
        exact this.symm
      subst hlines
      obtain ⟨hlen1, ha1⟩ := txAfter_handled L _ lines2 _ hh1
      obtain ⟨-, ha2⟩ := txAfter_handled L _ lines2 _ hh2
      have e1 : run1.store.tables =
          (applyRecords (parsedRecords L (buildColumnMap header) lines2)
            (store.tables, store.seqs)).1 := by
        rw [ht1]; exact congrArg Prod.fst ha1
      have e2 : run2.store.tables =
          (applyRecords (parsedRecords L (buildColumnMap header) lines2)
            (run1.store.tables, run1.store.seqs)).1 := by
        rw [ht2]; exact congrArg Prod.fst ha2
      have hitems1 := applyRecords_orderItems_length
        (parsedRecords L (buildColumnMap header) lines2) (store.tables, store.seqs)
      have hitems2 := applyRecords_orderItems_length
        (parsedRecords L (buildColumnMap header) lines2) (run1.store.tables, run1.store.seqs)
      rw [← e1] at hitems1
      rw [← e2] at hitems2
      have hN : env1.reads.length - 1 = lines2.length := by
        rw [hreads1, hl1]; simp
      refine ⟨?_, ?_, ?_, ?_, ?_, ?_⟩
      · rw [e2]
        apply applyRecords_orders_present
        intro r hr
        rw [e1]
        exact applyRecords_hasOrder _ _ _ (Or.inr ⟨r, hr, rfl⟩)
      · intro h k
        rw [e2]
        apply applyRecords_orderCount_le
        rw [e1]
        exact applyRecords_orderCount_le _ _ _ (h k)
      · rw [e2, applyRecords_customers]
        conv_rhs => rw [e1, applyRecords_customers]
        rw [e1, applyRecords_customers]
        exact foldl_upsertRow_idempotent _ _ _
      · rw [e2, applyRecords_products]
        conv_rhs => rw [e1, applyRecords_products]
        rw [e1, applyRecords_products]
        exact foldl_upsertRow_idempotent _ _ _
      · simp only at hitems1 hitems2
        omega
      · intro _
        simp only at hitems1 hitems2
        omega

set_option maxRecDepth 100000 in
/-- The scenario file ingested twice on the empty database: two order headers and two
customers after either run, three order items after the first and six after the second. -/
theorem reingestion_repeats_items_only_witness :
    (Option.get (RefreshData exampleLib ⟨2⟩ (exampleEnv exampleFile) emptyStore "API")
        (by decide)).result = none ∧
    (Option.get (RefreshData exampleLib ⟨2⟩ (exampleEnv exampleFile)
        (Option.get (RefreshData exampleLib ⟨2⟩ (exampleEnv exampleFile) emptyStore "API")
          (by decide)).store "API") (by decide)).result = none ∧
    (Option.get (RefreshData exampleLib ⟨2⟩ (exampleEnv exampleFile)
        (Option.get (RefreshData exampleLib ⟨2⟩ (exampleEnv exampleFile) emptyStore "API")
          (by decide)).store "API") (by decide)).store.tables.orders =
      (Option.get (RefreshData exampleLib ⟨2⟩ (exampleEnv exampleFile) emptyStore "API")
        (by decide)).store.tables.orders :=
  ⟨by decide, by decide,
    (reingestion_repeats_items_only exampleLib ⟨2⟩ (exampleEnv exampleFile)
      (exampleEnv exampleFile) emptyStore "API" "API" _ _ rfl
      (Option.some_get (by decide)).symm (by decide)
      (Option.some_get (by decide)).symm (by decide)).1⟩

/-- C4 — first part: a record that parses and whose statements all succeed leaves the
order headers as they were when one with its `order_id` exists, appends its header (with
the customer, sale date and shipping cost of the record and the ids its two resolves
return) when none exists, and in both cases appends exactly one order-item row.  Second
part: a file of three handled lines with the order ids O1, O1, O2, on a run that commits,
leaves exactly one header for O1 and one for O2 (there being at most one of each before),
three more order-item rows, and an audit update with `rows_processed = 3` and COMPLETED. -/
theorem order_header_first_write_wins (L : StdLib) :
    (∀ (columnMap : ColumnMap) (record : List String) (r : Record) (tx : Tx),
      parseRecord L columnMap record = .ok r →
      (errorOf (processRecord L columnMap record tx).val).isNone = true →
      (processRecord L columnMap record tx).tx.tables.orders =
          (if tx.tables.hasOrder r.orderID then tx.tables.orders
            else tx.tables.orders ++ [r.order tx.tables tx.seqs]) ∧
        (processRecord L columnMap record tx).tx.tables.orderItems =
          tx.tables.orderItems ++
            [⟨tx.seqs.orderItem, r.orderID, r.productID, r.quantitySold, r.unitPrice,
              r.discount⟩]) ∧
    (∀ (cfg : Config) (env : Env) (store : Store) (triggeredBy : String)
      (header line1 line2 line3 : List String) (r1 r2 r3 : Record),
      1 ≤ cfg.RefreshBatchSize → env.startFault = none → env.openFault = none →
      env.reads = [.record header, .record line1, .record line2, .record line3] →
      env.beginFault = none → (∀ p, env.prepareFault p = none) →
      handlesAll L (buildColumnMap header) [line1, line2, line3] (beginTx env store) = true →
      env.commitFault = none →
      parseRecord L (buildColumnMap header) line1 = .ok r1 →
      parseRecord L (buildColumnMap header) line2 = .ok r2 →
      parseRecord L (buildColumnMap header) line3 = .ok r3 →
      r2.orderID = r1.orderID → r3.orderID ≠ r1.orderID →
      store.tables.orderCount r1.orderID ≤ 1 → store.tables.orderCount r3.orderID ≤ 1 →
      ∃ run, RefreshData L cfg env store triggeredBy = some run ∧
        run.store.tables.orderCount r1.orderID = 1 ∧
        run.store.tables.orderCount r3.orderID = 1 ∧
        run.store.tables.orderItems.length = store.tables.orderItems.length + 3 ∧
        run.trace.filter Event.isLogUpdate =
          [.dbUpdateLog store.logSeq 3 "COMPLETED" none env.updateFault]) := by
  constructor
  · intro columnMap record r tx hp hok
    obtain ⟨r', hp', hr⟩ := processRecord_ok L columnMap record tx hok
    rw [hp] at hp'
    cases hp'
    have h1 := congrArg Prod.fst hr
    have h2 := congrArg (fun p => p.1.orders) hr
    have h3 := congrArg (fun p => p.1.orderItems) hr
    simp only at h2 h3
    rw [h2, h3, applyRecord_orders, (applyRecord_orderItems r tx.tables tx.seqs).1]
    exact ⟨rfl, rfl⟩
  · intro cfg env store triggeredBy header line1 line2 line3 r1 r2 r3 hbatch hstart hopen
      hreads hbegin hprep hlines hcommit hp1 hp2 hp3 h21 h31 hc1 hc3
    obtain ⟨run, hrun, -, -, -, hupd, htables, -⟩ := RefreshData_all_handled L cfg env store
      triggeredBy header [line1, line2, line3] hbatch hstart hopen hreads hbegin hprep hlines
      hcommit
    obtain ⟨-, ha⟩ := txAfter_handled L _ [line1, line2, line3] _ hlines
    have hpr : parsedRecords L (buildColumnMap header) [line1, line2, line3] = [r1, r2, r3] := by
      simp [parsedRecords, hp1, hp2, hp3, Except.toOption]
    rw [hpr] at ha
    have e1 : run.store.tables = (applyRecords [r1, r2, r3] (store.tables, store.seqs)).1 := by
      rw [htables]; exact congrArg Prod.fst ha
    refine ⟨run, hrun, ?_, ?_, ?_, hupd⟩
    · rw [e1]
      exact applyRecords_orderCount_one _ _ _ hc1 ⟨r1, by simp, rfl⟩
    · rw [e1]
      exact applyRecords_orderCount_one _ _ _ hc3 ⟨r3, by simp, rfl⟩
    · rw [e1, applyRecords_orderItems_length]
      rfl

set_option maxRecDepth 100000 in
/-- The scenario on the empty database: one header for O1, one for O2, three order
items, `rows_processed = 3`, COMPLETED. -/
theorem order_header_first_write_wins_witness :
    ∃ run, RefreshData exampleLib ⟨2⟩ (exampleEnv exampleFile) emptyStore "API" = some run ∧
      run.store.tables.orderCount "O1" = 1 ∧ run.store.tables.orderCount "O2" = 1 ∧
      run.store.tables.orderItems.length = 3 ∧
      run.trace.filter Event.isLogUpdate = [.dbUpdateLog 1 3 "COMPLETED" none none] :=
  (order_header_first_write_wins exampleLib).2 ⟨2⟩ (exampleEnv exampleFile) emptyStore "API"
    exampleHeader exampleLine1 exampleLine2 exampleLine3
    ((parseRecord exampleLib (buildColumnMap exampleHeader) exampleLine1).toOption.get
      (by decide))
    ((parseRecord exampleLib (buildColumnMap exampleHeader) exampleLine2).toOption.get
      (by decide))
    ((parseRecord exampleLib (buildColumnMap exampleHeader) exampleLine3).toOption.get
      (by decide))
    (by decide) rfl rfl rfl rfl (fun _ => rfl) (by decide) rfl (by decide) (by decide)
    (by decide) (by decide) (by decide) (by decide) (by decide)

/-- C5 — chunking does not change the outcome.  For two batch sizes of at least one, on
the same file, store and environment, both runs return, with the same operations on the
database in the same order (the audit insert, `BeginTx`, the `PrepareContext` calls, every
statement on the transaction, the one rollback or commit, the audit update with its row
count and status), the same returned error and the same final store.  In each run
`BeginTx` is called at most once, and exactly once in a run that executes a statement on
the transaction or closes a batch. -/
theorem batch_size_irrelevant (L : StdLib) (cfg1 cfg2 : Config) (env : Env) (store : Store)
    (triggeredBy : String)
    (h1 : 1 ≤ cfg1.RefreshBatchSize) (h2 : 1 ≤ cfg2.RefreshBatchSize) :
    ∃ run1 run2, RefreshData L cfg1 env store triggeredBy = some run1 ∧
      RefreshData L cfg2 env store triggeredBy = some run2 ∧
      storeOps run1.trace = storeOps run2.trace ∧
      run1.trace.filter Event.isLogUpdate = run2.trace.filter Event.isLogUpdate ∧
      run1.result = run2.result ∧ run1.store = run2.store ∧
      ∀ run, run = run1 ∨ run = run2 →
        (run.trace.filter Event.isBeginTx).length ≤ 1 ∧
        ((∃ ev ∈ run.trace, ev.isTxExec = true ∨ ∃ b r, ev = .progress b r) →
          (run.trace.filter Event.isBeginTx).length = 1) := by
  have hcount : ∀ cfg run, RefreshData L cfg env store triggeredBy = some run →
      (run.trace.filter Event.isBeginTx).length ≤ 1 ∧
        ((∃ ev ∈ run.trace, ev.isTxExec = true ∨ ∃ b r, ev = .progress b r) →
          (run.trace.filter Event.isBeginTx).length = 1) := by
    intro cfg run hrun
    obtain ⟨run0, hrun0, h⟩ := RefreshData_anatomy L cfg env store triggeredBy
    rw [hrun] at hrun0
    cases hrun0
    rcases h with ⟨e, -, htrace, -, -⟩ | ⟨-, body, rows, err, hbody, htrace, -, -⟩
    · rw [htrace]
      refine ⟨by simp [Event.isBeginTx], ?_⟩
      rintro ⟨ev, hev, hp⟩
      simp only [List.mem_singleton] at hev
      subst hev
      simp [Event.isTxExec] at hp
    · obtain ⟨hc1, hc2⟩ := hbody.begin_count
      have hf : run.trace.filter Event.isBeginTx = body.filter Event.isBeginTx := by
        rw [htrace]
        simp [List.filter_cons, List.filter_append, Event.isBeginTx]
      rw [hf]
      refine ⟨hc1, ?_⟩
      rintro ⟨ev, hev, hp⟩
      apply hc2
      rw [htrace] at hev
      simp only [List.cons_append, List.mem_cons, List.mem_append, List.mem_singleton,
        List.not_mem_nil, or_false] at hev
      rcases hev with rfl | hev | rfl
      · simp [Event.isTxExec] at hp
      · exact ⟨ev, hev, hp⟩
      · simp [Event.isTxExec] at hp
  have hmain : ∃ run1 run2, RefreshData L cfg1 env store triggeredBy = some run1 ∧
      RefreshData L cfg2 env store triggeredBy = some run2 ∧
      storeOps run1.trace = storeOps run2.trace ∧
      run1.result = run2.result ∧ run1.store = run2.store := by
    unfold RefreshData StartDataRefresh
    cases hs : env.startFault with
    | some e => exact ⟨_, _, rfl, rfl, rfl, rfl, rfl⟩
    | none =>
      dsimp only
      cases hopen : env.openFault with
      | some e => exact ⟨_, _, rfl, rfl, rfl, rfl, rfl⟩
      | none =>
        dsimp only
        cases hreads : env.reads with
        | nil => exact ⟨_, _, rfl, rfl, rfl, rfl, rfl⟩
        | cons first rest =>
          cases first with
          | err e => exact ⟨_, _, rfl, rfl, rfl, rfl, rfl⟩
          | record header =>
            dsimp only
            unfold runTransaction
            cases hbegin : env.beginFault with
            | some e => exact ⟨_, _, rfl, rfl, rfl, rfl, rfl⟩
            | none =>
              dsimp only
              cases hprep : (prepareAll env preparedStatements).2 with
              | some ep => exact ⟨_, _, rfl, rfl, rfl, rfl, rfl⟩
              | none =>
                dsimp only
                obtain ⟨e1, he1, hv1, -⟩ := batchLoop_spec L (buildColumnMap header)
                  cfg1.RefreshBatchSize h1 (rest.length + 1) 0
                  ⟨rest, beginTx env (startedStore env store triggeredBy), 0,
                    [.dbInsertLog triggeredBy none] ++
                      [.openFile none, .read (some (.record header))] ++ [.beginTx none] ++
                      (prepareAll env preparedStatements).1⟩ (by simp)
                obtain ⟨e2, he2, hv2, -⟩ := batchLoop_spec L (buildColumnMap header)
                  cfg2.RefreshBatchSize h2 (rest.length + 1) 0
                  ⟨rest, beginTx env (startedStore env store triggeredBy), 0,
                    [.dbInsertLog triggeredBy none] ++
                      [.openFile none, .read (some (.record header))] ++ [.beginTx none] ++
                      (prepareAll env preparedStatements).1⟩ (by simp)
                obtain ⟨r1, r2, r3⟩ := concludeRun_view env
                  (startedStore env store triggeredBy) store.logSeq e1 e2
                  (hv1.trans hv2.symm)
                refine ⟨concludeRun env (startedStore env store triggeredBy) store.logSeq e1,
                  concludeRun env (startedStore env store triggeredBy) store.logSeq e2,
                  ?_, ?_, r3, r1, r2⟩
                · show Option.map _ (batchLoop _ _ _ _ _ _) = _
                  exact (congrArg (Option.map _) he1)
                · show Option.map _ (batchLoop _ _ _ _ _ _) = _
                  exact (congrArg (Option.map _) he2)
  obtain ⟨run1, run2, hr1, hr2, hops, hres, hstore⟩ := hmain
  refine ⟨run1, run2, hr1, hr2, hops, ?_, hres, hstore, ?_⟩
  · rw [← filter_isLogUpdate_storeOps, hops, filter_isLogUpdate_storeOps]
  · rintro run (rfl | rfl)
    · exact hcount cfg1 _ hr1
    · exact hcount cfg2 _ hr2

set_option maxRecDepth 100000 in
/-- C5 on the scenario file: batches of one and batches of a thousand. -/
theorem batch_size_irrelevant_witness :
    ∃ run1 run2,
      RefreshData exampleLib ⟨1⟩ (exampleEnv exampleFile) emptyStore "API" = some run1 ∧
      RefreshData exampleLib ⟨1000⟩ (exampleEnv exampleFile) emptyStore "API" = some run2 ∧
      storeOps run1.trace = storeOps run2.trace ∧ run1.result = run2.result ∧
      run1.store = run2.store :=
  (batch_size_irrelevant exampleLib ⟨1⟩ ⟨1000⟩ (exampleEnv exampleFile) emptyStore "API"
    (by decide) (by decide)).imp
    fun _ h => h.imp fun _ h => ⟨h.1, h.2.1, h.2.2.1, h.2.2.2.2.1, h.2.2.2.2.2.1⟩

/-- C6 — in every run `StartDataRefresh` issues its INSERT exactly once.  When it
succeeds and returns `logID`, whatever happens next (the file does not open, the header
is not read, `BeginTx` fails, a `PrepareContext` fails, a read or a record fails, the
commit fails, or all succeeds) the UPDATE of `CompleteDataRefresh` is issued exactly
once, for `logID`; when it fails, the UPDATE is never issued. -/
theorem audit_log_written_once (L : StdLib) (cfg : Config) (env : Env) (store : Store)
    (triggeredBy : String) :
    ∃ run, RefreshData L cfg env store triggeredBy = some run ∧
      (run.trace.filter Event.isLogInsert).length = 1 ∧
      (∀ logID, (StartDataRefresh env store triggeredBy).val = .ok logID →
        ∃ rows status errMsg err,
          run.trace.filter Event.isLogUpdate = [.dbUpdateLog logID rows status errMsg err]) ∧
      (∀ e, (StartDataRefresh env store triggeredBy).val = .error e →
        run.trace.filter Event.isLogUpdate = []) := by
  obtain ⟨run, hrun, h⟩ := RefreshData_anatomy L cfg env store triggeredBy
  refine ⟨run, hrun, ?_⟩
  rcases h with ⟨e, hstart, htrace, -, -⟩ | ⟨hstart, body, rows, err, hbody, htrace, -, -⟩
  · rw [htrace]
    refine ⟨rfl, ?_, fun _ _ => rfl⟩
    intro logID h
    simp [StartDataRefresh, hstart] at h
  · have hins := filter_eq_nil_of_false fun ev hev => (hbody.no_audit ev hev).1
    have hupd := filter_eq_nil_of_false fun ev hev => (hbody.no_audit ev hev).2
    rw [htrace]
    refine ⟨?_, ?_, ?_⟩
    · simp [List.filter_cons, List.filter_append, hins, Event.isLogInsert]
    · intro logID h
      simp only [StartDataRefresh, hstart, Except.ok.injEq] at h
      subst h
      exact ⟨rows, if err.isSome then "FAILED" else "COMPLETED", err, env.updateFault,
        by simp [List.filter_cons, List.filter_append, hupd, Event.isLogUpdate]⟩
    · intro e h
      simp [StartDataRefresh, hstart] at h

/-- C7 — the audit log is written outside the transaction.  A run whose audit insert
fails does nothing else.  In every other run the INSERT on the database handle is the
first operation, hence before `BeginTx`; the one UPDATE on the database handle is the
last operation; nothing in between touches the audit table; and a transaction that was
begun has been rolled back or its commit attempted in between.  After a run that rolled
back, the data tables are those from before the run, while (the UPDATE succeeding) the
audit row of the run exists with status FAILED. -/
theorem audit_log_outside_transaction (L : StdLib) (cfg : Config) (env : Env)
    (store : Store) (triggeredBy : String) :
    ∃ run, RefreshData L cfg env store triggeredBy = some run ∧
      (∀ e, env.startFault = some e → run.trace = [.dbInsertLog triggeredBy (some e)]) ∧
      (env.startFault = none →
        ∃ body update, run.trace = .dbInsertLog triggeredBy none :: body ++ [update] ∧
          update.isLogUpdate = true ∧
          (∀ ev ∈ body, ev.isLogInsert = false ∧ ev.isLogUpdate = false) ∧
          (Event.beginTx none ∈ body → ∃ c ∈ body, c.isTxEnd = true)) ∧
      (Event.rollback ∈ run.trace →
        run.store.tables = store.tables ∧
        (env.updateFault = none →
          logRows run.store store.logSeq ≠ [] ∧
          ∀ l ∈ logRows run.store store.logSeq, l.status = "FAILED")) := by
  obtain ⟨run, hrun, h⟩ := RefreshData_anatomy L cfg env store triggeredBy
  refine ⟨run, hrun, ?_⟩
  rcases h with ⟨e, hstart, htrace, -, -⟩ |
    ⟨hstart, body, rows, err, hbody, htrace, hiff, hfacts⟩
  · refine ⟨?_, ?_, ?_⟩
    · intro e2 h2
      rw [hstart] at h2
      cases h2
      exact htrace
    · intro h2; rw [hstart] at h2; cases h2
    · intro hr
      rw [htrace] at hr
      simp at hr
  · refine ⟨?_, ?_, ?_⟩
    · intro e h2; rw [hstart] at h2; cases h2
    · intro _
      exact ⟨body, _, htrace, rfl, hbody.no_audit, hbody.transaction_ends⟩
    · intro hr
      have hrb : Event.rollback ∈ body := by
        rw [htrace] at hr
        simpa using hr
      have hnc := hbody.rolled_back hrb
      cases err with
      | none => exact absurd (hiff.mp rfl) hnc
      | some c =>
        obtain ⟨h1, -, h3⟩ := hfacts
        refine ⟨(h1 c rfl).1, fun hupd => ?_⟩
        obtain ⟨h4, h5⟩ := h3 hupd
        exact ⟨h4, fun l hl => by simpa using (h5 l hl).1⟩

/-- C8 — the audit row is created, and then the file does not open or its header is not
read (an empty file included), with the text `cause`.  No transaction is begun and no
statement is executed on one, the data tables are untouched, the run returns the wrapped
error, and `CompleteDataRefresh` is called once, with `rowsProcessed = 0` and the cause,
which sets the audit row to FAILED with that count and text when the UPDATE succeeds. -/
theorem refreshData_file_failure (L : StdLib) (cfg : Config) (env : Env) (store : Store)
    (triggeredBy : String) (label cause : String)
    (hstart : env.startFault = none) (hfile : fileFailure env = some (label, cause)) :
    ∃ run, RefreshData L cfg env store triggeredBy = some run ∧
      (∀ ev ∈ run.trace, ev.isBeginTx = false ∧ ev.isTxExec = false) ∧
      run.store.tables = store.tables ∧
      run.result = some (label ++ ": " ++ cause) ∧
      run.trace.filter Event.isLogUpdate =
        [.dbUpdateLog store.logSeq 0 "FAILED" (some cause) env.updateFault] ∧
      (env.updateFault = none →
        logRows run.store store.logSeq ≠ [] ∧
        ∀ l ∈ logRows run.store store.logSeq,
          l.status = "FAILED" ∧ l.rowsProcessed = some 0 ∧ l.errorMessage = some cause) := by
  have hfacts := failRun_facts env store triggeredBy store.seqs 0 label cause
  have key : ∀ pre : List Event, (∀ ev ∈ pre, ev.isFileEvent = true) →
      RefreshData L cfg env store triggeredBy =
        some (failRun env (startedStore env store triggeredBy) store.logSeq 0 label cause
          (.dbInsertLog triggeredBy none :: pre)) →
      ∃ run, RefreshData L cfg env store triggeredBy = some run ∧
      (∀ ev ∈ run.trace, ev.isBeginTx = false ∧ ev.isTxExec = false) ∧
      run.store.tables = store.tables ∧
      run.result = some (label ++ ": " ++ cause) ∧
      run.trace.filter Event.isLogUpdate =
        [.dbUpdateLog store.logSeq 0 "FAILED" (some cause) env.updateFault] ∧
      (env.updateFault = none →
        logRows run.store store.logSeq ≠ [] ∧
        ∀ l ∈ logRows run.store store.logSeq,
          l.status = "FAILED" ∧ l.rowsProcessed = some 0 ∧ l.errorMessage = some cause) := by
    intro pre hpre heq
    refine ⟨_, heq, ?_, ?_, rfl, ?_, ?_⟩
    · intro ev hev
      rw [failRun_trace] at hev
      simp only [List.cons_append, List.mem_cons, List.mem_append, List.mem_singleton,
        List.not_mem_nil, or_false] at hev
      rcases hev with rfl | hev | rfl
      · exact ⟨rfl, rfl⟩
      · have := hpre ev hev
        cases ev <;> simp_all [Event.isFileEvent, Event.isBeginTx, Event.isTxExec]
      · exact ⟨rfl, rfl⟩
    · simp [failRun_tables, startedStore]
    · rw [failRun_trace]
      have : pre.filter Event.isLogUpdate = [] := by
        apply filter_eq_nil_of_false
        intro ev hev
        have := hpre ev hev
        cases ev <;> simp_all [Event.isFileEvent, Event.isLogUpdate]
      simp [List.filter_cons, List.filter_append, this, Event.isLogUpdate]
    · intro hupd
      have := (hfacts []).2.2 hupd
      exact ⟨this.1, fun l hl => by simpa using this.2 l hl⟩
  unfold fileFailure at hfile
  cases hopen : env.openFault with
  | some e =>
    simp only [hopen, Option.some.injEq, Prod.mk.injEq] at hfile
    obtain ⟨rfl, rfl⟩ := hfile
    exact key [.openFile (some e)] (by simp [Event.isFileEvent])
      (by simp [RefreshData, StartDataRefresh, hstart, hopen, startedStore])
  | none =>
    simp only [hopen] at hfile
    cases hreads : env.reads with
    | nil =>
      simp only [hreads, Option.some.injEq, Prod.mk.injEq] at hfile
      obtain ⟨rfl, rfl⟩ := hfile
      exact key [.openFile none, .read none] (by simp [Event.isFileEvent])
        (by simp [RefreshData, StartDataRefresh, hstart, hopen, hreads, startedStore])
    | cons first rest =>
      cases first with
      | err e =>
        simp only [hreads, Option.some.injEq, Prod.mk.injEq] at hfile
        obtain ⟨rfl, rfl⟩ := hfile
        exact key [.openFile none, .read (some (.err e))] (by simp [Event.isFileEvent])
          (by simp [RefreshData, StartDataRefresh, hstart, hopen, hreads, startedStore])
      | record header => simp [hreads] at hfile

set_option maxRecDepth 100000 in
/-- C8 on an empty file: the header reads as `EOF`. -/
theorem refreshData_file_failure_witness :
    fileFailure (exampleEnv []) = some ("failed to read CSV header", "EOF") ∧
    ∃ run, RefreshData exampleLib ⟨1000⟩ (exampleEnv []) emptyStore "API" = some run ∧
      (∀ ev ∈ run.trace, ev.isBeginTx = false ∧ ev.isTxExec = false) ∧
      run.result = some "failed to read CSV header: EOF" ∧
      run.trace.filter Event.isLogUpdate = [.dbUpdateLog 1 0 "FAILED" (some "EOF") none] :=
  ⟨rfl,
    (refreshData_file_failure exampleLib ⟨1000⟩ (exampleEnv []) emptyStore "API"
      "failed to read CSV header" "EOF" rfl rfl).imp
      fun _ h => ⟨h.1, h.2.1, h.2.2.2.1, h.2.2.2.2.1⟩⟩

set_option maxRecDepth 100000 in
/-- C9, as stated, fails: a file that is only the header `Order ID` names one of the
fifteen columns, and the run begins a transaction, commits it and records COMPLETED. -/
theorem malformed_header_completes :
    (∃ c ∈ requiredColumns, c ∉ ["Order ID"]) ∧
    (RefreshData exampleLib ⟨1000⟩ (exampleEnv [.record ["Order ID"]]) emptyStore "API").map
        (fun run => (run.result, run.trace.filter Event.isStoreOp,
          run.store.logs.map fun l => (l.status, l.rowsProcessed))) =
      some (none,
        [.dbInsertLog "API" none, .beginTx none, .prepare .customer none,
          .prepare .product none, .prepare .region none, .prepare .paymentMethod none,
          .prepare .order none, .prepare .orderItem none, .commit none,
          .dbUpdateLog 1 0 "COMPLETED" none none],
        [("COMPLETED", some 0)]) :=
  ⟨⟨"Product ID", by decide, by decide⟩, by decide⟩

/-- C9, amended — a header that does not name all fifteen columns is not checked when it
is read: the transaction is begun.  With a batch size of at least one (the audit insert,
`BeginTx` and the `PrepareContext` calls succeeding), if a data line follows, the first
one fails (a read error, or a record that does not parse: MissingColumn or InvalidFormat),
no statement is executed, the transaction is rolled back and `CompleteDataRefresh` is
called with `rowsProcessed = 0` and the cause (FAILED); if no data line follows and the
commit succeeds, the run commits and `CompleteDataRefresh` is called with
`rowsProcessed = 0` and a nil error (COMPLETED). -/
theorem malformed_header_fails_at_first_line (L : StdLib) (cfg : Config) (env : Env)
    (store : Store) (triggeredBy : String) (header : List String) (lines : List ReadResult)
    (hmissing : ∃ c ∈ requiredColumns, c ∉ header)
    (hbatch : 1 ≤ cfg.RefreshBatchSize)
    (hstart : env.startFault = none) (hopen : env.openFault = none)
    (hreads : env.reads = .record header :: lines)
    (hbegin : env.beginFault = none) (hprep : ∀ p, env.prepareFault p = none) :
    ∃ run, RefreshData L cfg env store triggeredBy = some run ∧
      Event.beginTx none ∈ run.trace ∧
      (∀ first rest, lines = first :: rest →
        ∃ cause, lineError L (buildColumnMap header) (beginTx env store) first = some cause ∧
          (∀ record, first = .record record → IsMissingColumn cause ∨ IsInvalidFormat cause) ∧
          Event.rollback ∈ run.trace ∧ run.trace.filter Event.isTxExec = [] ∧
          run.result = some (lineLabel first ++ ": " ++ cause) ∧
          run.trace.filter Event.isLogUpdate =
            [.dbUpdateLog store.logSeq 0 "FAILED" (some cause) env.updateFault] ∧
          run.store.tables = store.tables ∧
          (env.updateFault = none →
            logRows run.store store.logSeq ≠ [] ∧
            ∀ l ∈ logRows run.store store.logSeq,
              l.status = "FAILED" ∧ l.rowsProcessed = some 0 ∧
                l.errorMessage = some cause)) ∧
      (lines = [] → env.commitFault = none →
        Event.commit none ∈ run.trace ∧
        run.trace.filter Event.isLogUpdate =
          [.dbUpdateLog store.logSeq 0 "COMPLETED" none env.updateFault]) := by
  obtain ⟨c, hc, hnot⟩ := hmissing
  obtain ⟨run, hrun, _⟩ := RefreshData_anatomy L cfg env store triggeredBy
  cases lines with
  | nil =>
    by_cases hcommit : env.commitFault = none
    · obtain ⟨run', hrun', hb, hcm, -, hupd, -⟩ := RefreshData_all_handled L cfg env store
        triggeredBy header [] hbatch hstart hopen hreads hbegin hprep rfl hcommit
      exact ⟨run', hrun', hb, (fun _ _ h => by cases h), fun _ _ => ⟨hcm, hupd⟩⟩
    · refine ⟨run, hrun, ?_, (fun _ _ h => by cases h), fun _ h => absurd h hcommit⟩
      rw [RefreshData_loop L cfg env store triggeredBy header _ hstart hopen hreads hbegin
        hprep] at hrun
      obtain ⟨e, he, added, htrace, -⟩ := batchLoop_returns L (buildColumnMap header)
        cfg.RefreshBatchSize (([] : List ReadResult).length + 1) 0
        ⟨[], beginTx env store, 0, preamble triggeredBy header⟩ (by simp)
      rw [he] at hrun
      cases hrun
      obtain ⟨closing, err, -, -, hct, -⟩ := concludeRun_facts env store triggeredBy e
      rw [hct, htrace]
      simp [preamble]
  | cons first rest =>
    have hcause : ∃ cause, lineError L (buildColumnMap header) (beginTx env store) first =
        some cause ∧ lineEvents L (buildColumnMap header) (beginTx env store) first = [] ∧
        (∀ record, first = .record record → IsMissingColumn cause ∨ IsInvalidFormat cause) := by
      cases first with
      | err e => exact ⟨e, rfl, rfl, (fun _ h => by cases h)⟩
      | record record =>
        obtain ⟨e, he, hkind, -⟩ := parseRecord_missing L (buildColumnMap header) record
          ⟨c, hc, columnMissing_of_not_mem header record c hnot⟩
        refine ⟨e, ?_, ?_, fun _ _ => hkind⟩
        · simp [lineError, processRecord_parse_error L _ record _ e he, errorOf]
        · simp [lineEvents, processRecord_parse_error L _ record _ e he]
    obtain ⟨cause, hcause, hev, hkind⟩ := hcause
    obtain ⟨run', hrun', hb, hrb, -, hexec, hres, hupd, htab, hrow⟩ :=
      RefreshData_failing_line L cfg env store triggeredBy header [] first rest cause hbatch
        hstart hopen hreads hbegin hprep rfl hcause
    refine ⟨run', hrun', hb, ?_, (fun h => by cases h)⟩
    intro first' rest' h
    cases h
    refine ⟨cause, hcause, hkind, hrb, ?_, hres, hupd, htab, hrow⟩
    rw [hexec]
    simp [txEvents, txAfter, hev]

set_option maxRecDepth 100000 in
/-- A header without `Customer Address`, followed by one valid line of fourteen fields:
the line fails with `column Customer Address not found in CSV` after `BeginTx`. -/
theorem malformed_header_fails_at_first_line_witness :
    (∃ c ∈ requiredColumns, c ∉ shortHeader) ∧
    ∃ run, RefreshData exampleLib ⟨1000⟩
        (exampleEnv [.record shortHeader, .record (exampleLine1.take 14)]) emptyStore "API" =
        some run ∧
      Event.beginTx none ∈ run.trace :=
  ⟨⟨"Customer Address", by decide, by decide⟩,
    (malformed_header_fails_at_first_line exampleLib ⟨1000⟩
      (exampleEnv [.record shortHeader, .record (exampleLine1.take 14)]) emptyStore "API"
      shortHeader [.record (exampleLine1.take 14)]
      ⟨"Customer Address", by decide, by decide⟩ (by decide) rfl rfl rfl rfl
      (fun _ => rfl)).imp fun _ h => ⟨h.1, h.2.1⟩⟩

set_option maxRecDepth 100000 in
/-- C10, as stated, fails: the column `Customer Address` is absent from the map, and the
row, whose date is `bad`, fails with `invalid date format`, not with MissingColumn. -/
theorem missing_column_masked_by_invalid_date :
    columnMissing (buildColumnMap shortHeader) badDateRow "Customer Address" = true ∧
    parseRecord exampleLib (buildColumnMap shortHeader) badDateRow =
      .error ("invalid date format: " ++ timeError "bad" "bad" "2006") ∧
    ¬ IsMissingColumn ("invalid date format: " ++ timeError "bad" "bad" "2006") :=
  ⟨by decide, by decide, not_missingColumn_of_label _ _ (by decide)⟩

/-- C10, amended — a row for which one of the fifteen columns is absent from the map, or
mapped to a position at or past the end of the row, does not parse.  The error is that
of the first step that fails in the order of extraction.  It is MissingColumn exactly
when every typed field extracted before the first missing column (sale date, quantity,
unit price, discount, shipping cost, in that order after the first six columns)
converts; otherwise it is the InvalidFormat of the first such field that does not. -/
theorem missing_column_fails_parsing (L : StdLib) (columnMap : ColumnMap)
    (record : List String)
    (hmissing : ∃ c ∈ requiredColumns, columnMissing columnMap record c = true) :
    ∃ e, parseRecord L columnMap record = .error e ∧
      (IsMissingColumn e ∨ IsInvalidFormat e) ∧
      (IsMissingColumn e ↔
        ∀ c ∈ columnsBeforeMissing columnMap record, ∀ v,
          getColumnValue columnMap record c = .ok v → conversionError L c v = none) :=
  parseRecord_missing L columnMap record hmissing

set_option maxRecDepth 100000 in
/-- The valid line cut to fourteen fields, under the header without `Customer Address`. -/
theorem missing_column_fails_parsing_witness :
    columnMissing (buildColumnMap shortHeader) (exampleLine1.take 14) "Customer Address" =
      true ∧
    ∃ e, parseRecord exampleLib (buildColumnMap shortHeader) (exampleLine1.take 14) =
        .error e ∧ (IsMissingColumn e ∨ IsInvalidFormat e) :=
  ⟨by decide,
    (missing_column_fails_parsing exampleLib (buildColumnMap shortHeader)
      (exampleLine1.take 14) ⟨"Customer Address", by decide, by decide⟩).imp
      fun _ h => ⟨h.1, h.2.1⟩⟩

/-- C11 — for a row in which the fifteen columns are present and in range, parsing fails
with InvalidFormat exactly when the sale date, the quantity, the unit price, the discount
or the shipping cost does not convert (`time.Parse` with the layout `2006-01-02`,
`strconv.Atoi`, `strconv.ParseFloat`); the error is the library error under the label of
a field that does not convert; and when the five convert, parsing succeeds with the
values the library returned, whatever they are: no check is made on the sign of the
quantity or on the range of the discount. -/
theorem invalid_format_iff_conversion_fails (L : StdLib) (columnMap : ColumnMap)
    (record : List String)
    (hpresent : ∀ c ∈ requiredColumns, columnMissing columnMap record c = false) :
    ((∃ e, parseRecord L columnMap record = .error e ∧ IsInvalidFormat e) ↔
      ((∃ d, L.timeParse (fieldOf columnMap record "Date of Sale") = .error d) ∨
        (∃ d, L.atoi (fieldOf columnMap record "Quantity Sold") = .error d) ∨
        (∃ d, L.parseFloat (fieldOf columnMap record "Unit Price") = .error d) ∨
        (∃ d, L.parseFloat (fieldOf columnMap record "Discount") = .error d) ∨
        (∃ d, L.parseFloat (fieldOf columnMap record "Shipping Cost") = .error d))) ∧
    (∀ e, parseRecord L columnMap record = .error e →
      (∃ d, L.timeParse (fieldOf columnMap record "Date of Sale") = .error d ∧
          e = "invalid date format: " ++ d) ∨
        (∃ d, L.atoi (fieldOf columnMap record "Quantity Sold") = .error d ∧
          e = "invalid quantity: " ++ d) ∨
        (∃ d, L.parseFloat (fieldOf columnMap record "Unit Price") = .error d ∧
          e = "invalid unit price: " ++ d) ∨
        (∃ d, L.parseFloat (fieldOf columnMap record "Discount") = .error d ∧
          e = "invalid discount: " ++ d) ∨
        (∃ d, L.parseFloat (fieldOf columnMap record "Shipping Cost") = .error d ∧
          e = "invalid shipping cost: " ++ d)) ∧
    (∀ saleDate quantitySold unitPrice discount shippingCost,
      L.timeParse (fieldOf columnMap record "Date of Sale") = .ok saleDate →
      L.atoi (fieldOf columnMap record "Quantity Sold") = .ok quantitySold →
      L.parseFloat (fieldOf columnMap record "Unit Price") = .ok unitPrice →
      L.parseFloat (fieldOf columnMap record "Discount") = .ok discount →
      L.parseFloat (fieldOf columnMap record "Shipping Cost") = .ok shippingCost →
      parseRecord L columnMap record =
        .ok ⟨fieldOf columnMap record "Order ID", fieldOf columnMap record "Product ID",
          fieldOf columnMap record "Customer ID", fieldOf columnMap record "Product Name",
          fieldOf columnMap record "Category", fieldOf columnMap record "Region", saleDate,
          quantitySold, unitPrice, discount, shippingCost,
          fieldOf columnMap record "Payment Method",
          fieldOf columnMap record "Customer Name",
          fieldOf columnMap record "Customer Email",
          fieldOf columnMap record "Customer Address"⟩) := by
  rw [parseRecord_present L columnMap record hpresent]
  cases h1 : L.timeParse (fieldOf columnMap record "Date of Sale") <;>
  cases h2 : L.atoi (fieldOf columnMap record "Quantity Sold") <;>
  cases h3 : L.parseFloat (fieldOf columnMap record "Unit Price") <;>
  cases h4 : L.parseFloat (fieldOf columnMap record "Discount") <;>
  cases h5 : L.parseFloat (fieldOf columnMap record "Shipping Cost") <;>
  simp [wrapErr, bind, Except.bind, pure, Except.pure, IsInvalidFormat]
  intro a b c d e ha hb hc hd he
  exact ⟨ha, hb, hc, hd, he⟩

set_option maxRecDepth 100000 in
/-- A row with a negative quantity and a discount above one parses. -/
theorem invalid_format_iff_conversion_fails_witness :
    (∀ c ∈ requiredColumns,
      columnMissing (buildColumnMap exampleHeader) uncheckedRow c = false) ∧
    parseRecord exampleLib (buildColumnMap exampleHeader) uncheckedRow =
      .ok ⟨"O9", "P1", "C1", "Widget", "Tools", "West", ⟨2024, 1, 15⟩, -3,
        ⟨4622100592565682176⟩, ⟨4609434218613702656⟩, ⟨4617315517961601024⟩,
        "Card", "Ann", "ann@example.com", "1 Main St"⟩ :=
  ⟨by decide,
    (invalid_format_iff_conversion_fails exampleLib (buildColumnMap exampleHeader)
      uncheckedRow (by decide)).2.2 ⟨2024, 1, 15⟩ (-3) ⟨4622100592565682176⟩
      ⟨4609434218613702656⟩ ⟨4617315517961601024⟩ (by decide) (by decide) (by decide)
      (by decide) (by decide)⟩

/-- C12 — column order is irrelevant.  For a header `header` of `n` pairwise distinct
names, a row `row` of the same length and a permutation `p` of the positions, the map
built from the permuted header and the permuted row parse to the same typed record, or
fail with the same error, as the map built from the header and the row. -/
theorem column_order_irrelevant (L : StdLib) (n : Nat) (header row : Fin n → String)
    (hdistinct : (List.ofFn header).Nodup) (p : Equiv.Perm (Fin n)) :
    parseRecord L (buildColumnMap (List.ofFn (header ∘ p))) (List.ofFn (row ∘ p)) =
      parseRecord L (buildColumnMap (List.ofFn header)) (List.ofFn row) := by
  apply parseRecord_congr
  intro c
  have hperm := Equiv.Perm.ofFn_comp_perm p fun i => (header i, row i)
  have h := getColumnValue_perm (List.ofFn fun i => (header i, row i))
    (List.ofFn ((fun i => (header i, row i)) ∘ p))
    (by rw [List.map_ofFn]; exact hdistinct) hperm c
  simp only [List.map_ofFn] at h
  exact h

set_option maxRecDepth 100000 in
/-- The example row with its first and last columns exchanged, header and fields alike. -/
theorem column_order_irrelevant_witness :
    (List.ofFn fun i : Fin 15 => exampleHeader.getD i "").Nodup ∧
    parseRecord exampleLib (buildColumnMap swappedHeader) swappedLine1 =
      parseRecord exampleLib (buildColumnMap exampleHeader) exampleLine1 :=
  ⟨by decide,
    column_order_irrelevant exampleLib 15 (fun i => exampleHeader.getD i "")
      (fun i => exampleLine1.getD i "") (by decide) (Equiv.swap 0 14)⟩

set_option maxRecDepth 100000 in
/-- C13, as stated, fails across runs.  On the empty database the first run stores the
line of order O1, for which "West" resolves to the id 1 (the order insert carries it),
and is rolled back at its second line, whose quantity is `abc`: no region row is left,
and the serial value is not given back.  The next run resolves "West" to the id 2. -/
theorem resolution_not_kept_after_rollback :
    ∃ run1 run2,
      RefreshData exampleLib ⟨1000⟩ (exampleEnv exampleBadFile) emptyStore "API" = some run1 ∧
      RefreshData exampleLib ⟨1000⟩ (exampleEnv [.record exampleHeader, .record exampleLine1])
        run1.store "API" = some run2 ∧
      Event.rollback ∈ run1.trace ∧
      Event.txExec (.resolveRegion "West") none ∈ run1.trace ∧
      Event.txExec (.insertOrder
        ⟨"O1", "C1", 1, ⟨2024, 1, 15⟩, ⟨4617315517961601024⟩, 1⟩) none ∈ run1.trace ∧
      run1.store.tables.regions = [] ∧
      (emptyStore.tables.resolveRegion emptyStore.seqs "West").1 = 1 ∧
      (run1.store.tables.resolveRegion run1.store.seqs "West").1 = 2 ∧
      Event.txExec (.resolveRegion "West") none ∈ run2.trace ∧
      Event.txExec (.insertOrder
        ⟨"O1", "C1", 2, ⟨2024, 1, 15⟩, ⟨4617315517961601024⟩, 2⟩) none ∈ run2.trace ∧
      run2.result = none ∧
      run2.store.tables.regions = [⟨2, "West"⟩] :=
  ⟨_, _, rfl, rfl, by decide, by decide, by decide, by decide, by decide, by decide, by decide,
    by decide, by decide, by decide⟩

/-- C13, amended — region and payment-method resolution is insert-or-fetch by unique
name.  On tables whose names are unique (the constraint `ON CONFLICT (name)` relies on), a
name resolved a second time on tables that still hold the row of the first resolve (later
in the same transaction, or in a later run when the first was committed), after any
records stored in between and with any state of the serial counters, gets the same id as
the first time, and the tables hold exactly one row with the name, carrying that id.  In
particular two records naming the same region get the same region id in their order
headers, and the region has one row. -/
theorem resolution_is_insert_or_fetch (t : Tables) (s : Sequences) (name : String)
    (hregions : (t.regions.map Region.name).Nodup)
    (hmethods : (t.paymentMethods.map PaymentMethod.name).Nodup) :
    (∀ (steps : List (Record × Sequences)) (s2 : Sequences),
      ((tablesAfter steps (t.resolveRegion s name).2.1).resolveRegion s2 name).1 =
          (t.resolveRegion s name).1 ∧
        ((tablesAfter steps (t.resolveRegion s name).2.1).resolveRegion s2
            name).2.1.regionsNamed name =
          [⟨(t.resolveRegion s name).1, name⟩]) ∧
    (∀ (steps : List (Record × Sequences)) (s2 : Sequences),
      ((tablesAfter steps (t.resolvePaymentMethod s name).2.1).resolvePaymentMethod s2
            name).1 =
          (t.resolvePaymentMethod s name).1 ∧
        ((tablesAfter steps (t.resolvePaymentMethod s name).2.1).resolvePaymentMethod s2
            name).2.1.paymentMethodsNamed name =
          [⟨(t.resolvePaymentMethod s name).1, name⟩]) ∧
    (∀ (r1 r2 : Record) (steps : List (Record × Sequences)) (s2 : Sequences),
      r1.region = name → r2.region = name →
      (Record.order r2 (tablesAfter steps (applyRecord r1 t s).1) s2).regionID =
          (Record.order r1 t s).regionID ∧
        (applyRecord r2 (tablesAfter steps (applyRecord r1 t s).1) s2).1.regionsNamed name =
          [⟨(Record.order r1 t s).regionID, name⟩]) := by
  refine ⟨?_, ?_, ?_⟩
  · intro steps s2
    have h := tablesAfter_regionsNamed name _ steps _ (t.resolveRegion_named s name hregions)
    have hf := (tablesAfter steps (t.resolveRegion s name).2.1).resolveRegion_fetch s2 name _ h
    exact ⟨hf.1, by rw [hf.2]; exact h⟩
  · intro steps s2
    have h := tablesAfter_paymentMethodsNamed name _ steps _
      (t.resolvePaymentMethod_named s name hmethods)
    have hf := (tablesAfter steps (t.resolvePaymentMethod s name).2.1).resolvePaymentMethod_fetch
      s2 name _ h
    exact ⟨hf.1, by rw [hf.2]; exact h⟩
  · intro r1 r2 steps s2 h1 h2
    subst h1
    have h0 : (applyRecord r1 t s).1.regionsNamed r1.region =
        [⟨(t.resolveRegion s r1.region).1, r1.region⟩] := by
      have := t.resolveRegion_named s r1.region hregions
      unfold Tables.regionsNamed at this ⊢
      rw [applyRecord_regions]
      exact this
    have h := tablesAfter_regionsNamed r1.region _ steps _ h0
    have hf := (tablesAfter steps (applyRecord r1 t s).1).resolveRegion_fetch s2 r1.region _ h
    refine ⟨?_, ?_⟩
    · show (Tables.resolveRegion _ s2 r2.region).1 = _
      rw [h2]
      exact hf.1
    · exact applyRecord_regionsNamed r2 _ s2 r1.region _ h

set_option maxRecDepth 100000 in
/-- On the empty database, "West" resolved twice, with a record stored in between, gets
the id 1 both times, and one row. -/
theorem resolution_is_insert_or_fetch_witness :
    (emptyStore.tables.regions.map Region.name).Nodup ∧
    (emptyStore.tables.paymentMethods.map PaymentMethod.name).Nodup ∧
    (emptyStore.tables.resolveRegion ⟨1, 1, 1⟩ "West").1 = 1 ∧
    ((tablesAfter [(westRecord, ⟨2, 1, 1⟩)]
        (emptyStore.tables.resolveRegion ⟨1, 1, 1⟩ "West").2.1).resolveRegion ⟨7, 1, 1⟩
      "West").1 = 1 ∧
    ((tablesAfter [(westRecord, ⟨2, 1, 1⟩)]
        (emptyStore.tables.resolveRegion ⟨1, 1, 1⟩ "West").2.1).resolveRegion ⟨7, 1, 1⟩
      "West").2.1.regionsNamed "West" = [⟨1, "West"⟩] :=
  ⟨by decide, by decide, by decide,
    (resolution_is_insert_or_fetch emptyStore.tables ⟨1, 1, 1⟩ "West" (by decide)
      (by decide)).1 [(westRecord, ⟨2, 1, 1⟩)] ⟨7, 1, 1⟩⟩

/-- C14 — parsing a row has no side effect.  The typed record, or the parse error, is
`parseRecord` of the library, the column map and the row alone: it is the same on every
transaction.  With a typed record, `processRecord` is the statements of `storeRecord` for
it; with a parse error, which is a MissingColumn or an InvalidFormat error,
`processRecord` returns that error, leaves the transaction as it was and has issued no
statement. -/
theorem parsing_has_no_side_effect (L : StdLib) (columnMap : ColumnMap)
    (record : List String) :
    ∃ parsed : Except String Record, parsed = parseRecord L columnMap record ∧
      ∀ tx : Tx,
        (∀ r, parsed = .ok r → processRecord L columnMap record tx = storeRecord r tx) ∧
        (∀ e, parsed = .error e →
          (IsMissingColumn e ∨ IsInvalidFormat e) ∧
            (processRecord L columnMap record tx).val = .error e ∧
            (processRecord L columnMap record tx).tx = tx ∧
            (processRecord L columnMap record tx).events = []) := by
  refine ⟨_, rfl, fun tx => ⟨?_, ?_⟩⟩
  · intro r hr
    unfold processRecord
    rw [hr]
  · intro e he
    have := processRecord_parse_error L columnMap record tx e he
    exact ⟨parseRecord_error_kind L columnMap record e he, by rw [this], by rw [this],
      by rw [this]⟩

/-- C15 — for a record that parses, the operations `processRecord` issues on the
transaction are the statements of `plannedStatements`, in that order: region resolve,
payment-method resolve, customer upsert, product upsert, order-exists check, order insert
(only if the order is absent), order-item insert; each is issued only if all before it
succeeded, and the first that fails ends the record with its error under the label of the
statement.  The order insert carries the ids returned by the two resolves and the
customer id of the record; the item insert carries its order id and product id. -/
theorem statements_in_order (L : StdLib) (columnMap : ColumnMap) (record : List String)
    (r : Record) (tx : Tx) (hparsed : parseRecord L columnMap record = .ok r) :
    (processRecord L columnMap record tx).events =
        (issue (plannedStatements r tx.tables tx.seqs) tx.faults).1 ∧
      errorOf (processRecord L columnMap record tx).val =
        (issue (plannedStatements r tx.tables tx.seqs) tx.faults).2 ∧
      r.order tx.tables tx.seqs =
        ⟨r.orderID, r.customerID, (tx.tables.resolveRegion tx.seqs r.region).1, r.saleDate,
          r.shippingCost,
          ((tx.tables.resolveRegion tx.seqs r.region).2.1.resolvePaymentMethod
            (tx.tables.resolveRegion tx.seqs r.region).2.2 r.paymentMethod).1⟩ := by
  have h : processRecord L columnMap record tx = storeRecord r tx := by
    unfold processRecord
    rw [hparsed]
  rw [h]
  exact ⟨(storeRecord_issue r tx).1, (storeRecord_issue r tx).2, rfl⟩

set_option maxRecDepth 100000 in
/-- The first example line on the empty database, the third statement failing: the two
resolves, then the customer upsert that fails, and nothing after it. -/
theorem statements_in_order_witness :
    parseRecord exampleLib (buildColumnMap exampleHeader) exampleLine1 = .ok exampleRecord1 ∧
    (processRecord exampleLib (buildColumnMap exampleHeader) exampleLine1
        ⟨emptyStore.tables, emptyStore.seqs, [none, none, some "boom"]⟩).events =
      [.txExec (.resolveRegion "West") none, .txExec (.resolvePaymentMethod "Card") none,
        .txExec (.upsertCustomer ⟨"C1", "Ann", "ann@example.com", "1 Main St"⟩)
          (some "boom")] ∧
    errorOf (processRecord exampleLib (buildColumnMap exampleHeader) exampleLine1
        ⟨emptyStore.tables, emptyStore.seqs, [none, none, some "boom"]⟩).val =
      some "failed to insert customer: boom" :=
  ⟨by decide,
    (statements_in_order exampleLib (buildColumnMap exampleHeader) exampleLine1
      exampleRecord1 ⟨emptyStore.tables, emptyStore.seqs, [none, none, some "boom"]⟩
      (by decide)).1,
    (statements_in_order exampleLib (buildColumnMap exampleHeader) exampleLine1
      exampleRecord1 ⟨emptyStore.tables, emptyStore.seqs, [none, none, some "boom"]⟩
      (by decide)).2.1⟩

/-- C16 — with a batch size of zero or less, a run whose audit row is created, whose
file opens and has a header, and whose `BeginTx`, `PrepareContext` calls and `Commit`
succeed, issues exactly the operations up to the read loop, the commit and the audit
update: it reads no data line and executes no statement, whatever lines follow the
header.  The data tables are those from before, the update records COMPLETED with 0 rows,
and the run returns nil when the update succeeds.  `LoadConfig` gives the batch size 0
when `REFRESH_BATCH_SIZE` is set to a text for which `strconv.Atoi` returns 0 and an
error (a text that is not an integer), and 1000 when the variable is not set. -/
theorem nonpositive_batch_size_reads_nothing (L : StdLib) (cfg : Config) (env : Env)
    (store : Store) (triggeredBy : String) (header : List String) (rest : List ReadResult)
    (hbatch : cfg.RefreshBatchSize ≤ 0)
    (hstart : env.startFault = none) (hopen : env.openFault = none)
    (hreads : env.reads = .record header :: rest)
    (hbegin : env.beginFault = none) (hprep : ∀ p, env.prepareFault p = none)
    (hcommit : env.commitFault = none) :
    (∃ run, RefreshData L cfg env store triggeredBy = some run ∧
      run.trace = preamble triggeredBy header ++
        [.commit none, .dbUpdateLog store.logSeq 0 "COMPLETED" none env.updateFault] ∧
      run.store.tables = store.tables ∧
      (env.updateFault = none →
        run.result = none ∧ logRows run.store store.logSeq ≠ [] ∧
        ∀ l ∈ logRows run.store store.logSeq,
          l.status = "COMPLETED" ∧ l.rowsProcessed = some 0 ∧ l.errorMessage = none)) ∧
    (∀ (atoi : String → Int × Option String) (environ : String → Option String)
        (value e : String),
      environ "REFRESH_BATCH_SIZE" = some value → atoi value = (0, some e) →
      LoadConfig atoi none environ = .ok { RefreshBatchSize := 0 }) ∧
    (∀ (atoi : String → Int × Option String) (environ : String → Option String),
      environ "REFRESH_BATCH_SIZE" = none → atoi "1000" = (1000, none) →
      LoadConfig atoi none environ = .ok { RefreshBatchSize := 1000 }) := by
  refine ⟨?_, ?_, ?_⟩
  · rw [RefreshData_loop L cfg env store triggeredBy header _ hstart hopen hreads hbegin hprep,
      batchLoop_nonpositive L (buildColumnMap header) cfg.RefreshBatchSize hbatch]
    refine ⟨_, rfl, ?_⟩
    simp only [Option.map, concludeRun, hcommit, CompleteDataRefresh_events,
      CompleteDataRefresh_tables, CompleteDataRefresh_result]
    refine ⟨by simp, rfl, ?_⟩
    intro hupd
    refine ⟨by simp [hupd], ?_⟩
    have := CompleteDataRefresh_rows env
      { startedStore env store triggeredBy with
        tables := (beginTx env store).tables, seqs := (beginTx env store).seqs }
      store.logSeq 0 none hupd (startedStore_row env store triggeredBy)
    exact ⟨this.1, fun l hl => ⟨(this.2 l hl).1, (this.2 l hl).2.1, (this.2 l hl).2.2.1⟩⟩
  · intro atoi environ value e hset hbad
    simp [LoadConfig, getEnv, hset, hbad]
  · intro atoi environ hunset hdefault
    simp [LoadConfig, getEnv, hunset, hdefault]

set_option maxRecDepth 100000 in
/-- With `REFRESH_BATCH_SIZE=abc` the batch size is 0, and a run on the example file, of
three data lines, reads the header only and records COMPLETED with no row. -/
theorem nonpositive_batch_size_reads_nothing_witness :
    LoadConfig exampleAtoiBoth none (batchSizeEnviron "abc") = .ok { RefreshBatchSize := 0 } ∧
    LoadConfig exampleAtoiBoth none (fun _ => none) = .ok { RefreshBatchSize := 1000 } ∧
    ∃ run, RefreshData exampleLib { RefreshBatchSize := 0 } (exampleEnv exampleFile)
        emptyStore "API" = some run ∧
      run.trace = preamble "API" exampleHeader ++
        [.commit none, .dbUpdateLog 1 0 "COMPLETED" none none] ∧
      run.store.tables = emptyStore.tables :=
  ⟨(nonpositive_batch_size_reads_nothing exampleLib { RefreshBatchSize := 0 }
      (exampleEnv exampleFile) emptyStore "API" exampleHeader
      [.record exampleLine1, .record exampleLine2, .record exampleLine3] (by decide) rfl rfl
      rfl rfl (fun _ => rfl) rfl).2.1 exampleAtoiBoth (batchSizeEnviron "abc") "abc"
      (numError "Atoi" "abc" "invalid syntax") (by decide) (by decide),
    (nonpositive_batch_size_reads_nothing exampleLib { RefreshBatchSize := 0 }
      (exampleEnv exampleFile) emptyStore "API" exampleHeader
      [.record exampleLine1, .record exampleLine2, .record exampleLine3] (by decide) rfl rfl
      rfl rfl (fun _ => rfl) rfl).2.2 exampleAtoiBoth (fun _ => none) rfl (by decide),
    (nonpositive_batch_size_reads_nothing exampleLib { RefreshBatchSize := 0 }
      (exampleEnv exampleFile) emptyStore "API" exampleHeader
      [.record exampleLine1, .record exampleLine2, .record exampleLine3] (by decide) rfl rfl
      rfl rfl (fun _ => rfl) rfl).1.imp fun _ h => ⟨h.1, h.2.1, h.2.2.1⟩⟩

/-- C17 — every run returns, and it returns nil exactly when the transaction was
committed and the audit update succeeded.  After a commit the run returns what
`CompleteDataRefresh` returns: if the update fails, its error, while the data tables are
those of the run in which the update succeeds and the audit row of the run is still the
STARTED row.  Without a commit the run returns the cause of the failure under the label
of its stage, whether or not the audit update succeeds; that update, when one is issued,
carries FAILED and the same cause. -/
theorem refreshData_nil_iff_committed_and_logged (L : StdLib) (cfg : Config) (env : Env)
    (store : Store) (triggeredBy : String) :
    ∃ run, RefreshData L cfg env store triggeredBy = some run ∧
      (run.result = none ↔ Event.commit none ∈ run.trace ∧ env.updateFault = none) ∧
      (Event.commit none ∈ run.trace →
        run.result = env.updateFault.map (fun e => "failed to update refresh log: " ++ e) ∧
        ∀ e, env.updateFault = some e →
          run.store.logs = store.logs ++
            [⟨store.logSeq, env.startTime, none, "STARTED", none, none, triggeredBy⟩] ∧
          ∃ run0, RefreshData L cfg { env with updateFault := none } store triggeredBy =
              some run0 ∧
            run0.result = none ∧ run.store.tables = run0.store.tables) ∧
      (Event.commit none ∉ run.trace →
        ∃ label cause, label ∈ stageLabels ∧ run.result = some (label ++ ": " ++ cause) ∧
          (env.startFault = some cause ∨
            ∃ rows, Event.dbUpdateLog store.logSeq rows "FAILED" (some cause)
              env.updateFault ∈ run.trace)) := by
  obtain ⟨run, hrun, hpath⟩ := RefreshData_paths L cfg env store triggeredBy
  refine ⟨run, hrun, ?_⟩
  rcases hpath with ⟨hF, hnc⟩ | ⟨header, rest, st, hstart, hopen, hreads, hbegin, hp, hcommit,
    hloop, rfl⟩
  · have hF2 := hF
    obtain ⟨label, cause, -, hres, -⟩ := hF
    refine ⟨?_, fun h => absurd h hnc, fun _ => hF2⟩
    constructor
    · intro h; rw [hres] at h; cases h
    · intro h; exact absurd h.1 hnc
  · have hmem : Event.commit none ∈
        (concludeRun env (startedStore env store triggeredBy) store.logSeq
          (.finished st)).trace := by
      simp [concludeRun, hcommit]
    have hres : (concludeRun env (startedStore env store triggeredBy) store.logSeq
          (.finished st)).result =
        env.updateFault.map (fun e => "failed to update refresh log: " ++ e) := by
      simp only [concludeRun, hcommit]
      exact CompleteDataRefresh_result _ _ _ _ _
    refine ⟨?_, fun _ => ⟨hres, ?_⟩, fun h => absurd hmem h⟩
    · rw [hres]
      constructor
      · intro h
        refine ⟨hmem, ?_⟩
        cases hu : env.updateFault with
        | none => rfl
        | some e => rw [hu] at h; cases h
      · intro h
        rw [h.2]
        rfl
    · intro e he
      constructor
      · simp [concludeRun, hcommit, CompleteDataRefresh, he, startedStore]
      · refine ⟨concludeRun { env with updateFault := none }
          (startedStore env store triggeredBy) store.logSeq (.finished st), ?_, ?_, ?_⟩
        · rw [RefreshData_loop L cfg { env with updateFault := none } store triggeredBy header
            rest hstart hopen hreads hbegin hp]
          exact congrArg (Option.map _) hloop
        · simp [concludeRun, hcommit, CompleteDataRefresh, errorOf]
        · simp [concludeRun, hcommit, CompleteDataRefresh, he]

end CSV2DB
